import Mathlib

/-!
tinyWebServer: connection state, database handle pool, block queue and log

A shallow embedding of `code/http/httpconn.{h,cpp}`,
`code/pool/sqlconnpool.{h,cpp}`, `code/log/blockqueue.h` and
`code/log/log.{h,cpp}`.

Conventions of the embedding

* `size_t` values are naturals below `2 ^ 64`; every `size_t` operation of the
  source is written with an explicit reduction modulo `2 ^ 64`.
* `int` and `ssize_t` values are integers. Where the source returns a `size_t`
  as an `int` (`ToWriteBytes`, `GetFreeConnCount`) the conversion is written
  with an explicit reduction to the 32-bit two's-complement range. The counters
  `userCount`, `useCount_` and `freeCount_` move by one for an object or a
  handle in memory and are written without wrap-around.
* Pointers are natural-number addresses, `0` being `nullptr`.
* System calls (`writev`, `close`, `Buffer::ReadFd`) are answered by an
  environment record that is indexed by the number of the call.
* A loop of the source is a function with a fuel argument; `none` means that
  the fuel ran out before the loop was left.
-/

namespace TinyWebServer

/-! ## Machine arithmetic -/

/-- Number of values of a `size_t` (64-bit target). -/
def SIZE_MOD : Nat := 2 ^ 64

/-- The `size_t` sum `a + b`. -/
def sizeAdd (a b : Nat) : Nat := (a + b) % SIZE_MOD

/-- The `size_t` difference `a - b`, which wraps around below zero. -/
def sizeSub (a b : Nat) : Nat := (a % SIZE_MOD + SIZE_MOD - b % SIZE_MOD) % SIZE_MOD

/-- The conversion `static_cast<size_t>(x)` of an `ssize_t`. -/
def toSize (x : Int) : Nat := (x % (SIZE_MOD : Int)).toNat

/-- The conversion of a `size_t` to `int` (two's complement, 32 bits). -/
def toInt32 (n : Nat) : Int :=
  if n % 2 ^ 32 < 2 ^ 31 then ((n % 2 ^ 32 : Nat) : Int) else ((n % 2 ^ 32 : Nat) : Int) - 2 ^ 32

/-! ## Buffer (`code/buffer/buffer.h`) -/

/-- The data members of `Buffer`: the storage (`buffer_`, given by its address
and its size) and the two positions. -/
structure Buffer where
  data : Nat
  capacity : Nat
  readPos_ : Nat
  writePos_ : Nat
deriving DecidableEq, Repr

namespace Buffer

/-- Modelled from the spec: `Buffer::ReadableBytes` (buffer.cpp is absent); the
readable span is `[readPos, writePos)`. -/
def ReadableBytes (b : Buffer) : Nat := sizeSub b.writePos_ b.readPos_

/-- Modelled from the spec: `Buffer::WritableBytes` (buffer.cpp is absent); the
writable tail is `[writePos, capacity)`. -/
def WritableBytes (b : Buffer) : Nat := sizeSub b.capacity b.writePos_

/-- Modelled from the spec: `Buffer::Peek` (buffer.cpp is absent), the address of
the first readable byte. -/
def Peek (b : Buffer) : Nat := b.data + b.readPos_

/-- Modelled from the spec: `Buffer::Retrieve` (buffer.cpp is absent),
`advance_read(n)`. -/
def Retrieve (b : Buffer) (len : Nat) : Buffer :=
  { b with readPos_ := sizeAdd b.readPos_ len }

/-- Modelled from the spec: `Buffer::RetrieveAll` (buffer.cpp is absent); a full
reset sets both positions to 0. -/
def RetrieveAll (b : Buffer) : Buffer :=
  { b with readPos_ := 0, writePos_ := 0 }

end Buffer

/-! ## Request and response state (`httprequest.h`, `httpresponse.h`) -/

/-- The enumeration `HttpRequest::PARSE_STATE`. -/
inductive PARSE_STATE where
  | REQUEST_LINE
  | HEADERS
  | BODY
  | FINISH
deriving DecidableEq, Repr

/-- The data members of `HttpRequest`. -/
structure HttpRequest where
  state_ : PARSE_STATE
  method_ : String
  path_ : String
  version_ : String
  body_ : String
  header_ : List (String × String)
  post_ : List (String × String)
deriving DecidableEq, Repr

namespace HttpRequest

/-- Modelled from the spec: the body of `HttpRequest::Init` (httprequest.cpp is
absent). The header declares it as resetting every member, the constructor
`HttpRequest() { Init(); }` is nothing but this call, and the spec has the
parser state "reset on Init". -/
def Init (_r : HttpRequest) : HttpRequest :=
  { state_ := PARSE_STATE.REQUEST_LINE, method_ := "", path_ := "", version_ := "",
    body_ := "", header_ := [], post_ := [] }

/-- Modelled from the spec: `HttpRequest::IsKeepAlive` (httprequest.cpp is
absent): true iff the version is `1.1` and the `Connection` header equals
`keep-alive`. -/
def IsKeepAlive (r : HttpRequest) : Bool :=
  match r.header_.lookup "Connection" with
  | some v => v == "keep-alive" && r.version_ == "1.1"
  | none => false

end HttpRequest

/-- The data members of `HttpResponse`; of `mmFileStat_` only `st_size` is
kept. -/
structure HttpResponse where
  code_ : Int
  isKeepAlive_ : Bool
  path_ : String
  srcDir_ : String
  mmFile_ : Nat
  st_size : Nat
deriving DecidableEq, Repr

namespace HttpResponse

/-- Modelled from the spec: `HttpResponse::Init` (httpresponse.cpp is absent):
"resets state and records inputs". -/
def Init (_r : HttpResponse) (srcDir path : String) (isKeepAlive : Bool) (code : Int) :
    HttpResponse :=
  { code_ := code, isKeepAlive_ := isKeepAlive, path_ := path, srcDir_ := srcDir,
    mmFile_ := 0, st_size := 0 }

/-- Modelled from the spec: `HttpResponse::UnmapFile` (httpresponse.cpp is
absent): releases the mapping and resets the pointer; idempotent. -/
def UnmapFile (r : HttpResponse) : HttpResponse :=
  { r with mmFile_ := 0 }

/-- Modelled from the spec: `HttpResponse::File` (httpresponse.cpp is absent),
the base of the mapped region. -/
def File (r : HttpResponse) : Nat := r.mmFile_

/-- Modelled from the spec: `HttpResponse::FileLen` (httpresponse.cpp is
absent), the length of the mapped region. -/
def FileLen (r : HttpResponse) : Nat := r.st_size

end HttpResponse

/-! ## HttpConn (`code/http/httpconn.h`, `code/http/httpconn.cpp`) -/

/-- A `struct iovec`. -/
structure IoVec where
  iov_base : Nat
  iov_len : Nat
deriving DecidableEq, Repr

/-- The two fields of `sockaddr_in` the connection reads. -/
structure SockAddr where
  sin_addr : Nat
  sin_port : Nat
deriving DecidableEq, Repr

/-- The data members of one `HttpConn` object; `iov0` and `iov1` are `iov_[0]`
and `iov_[1]`. -/
structure HttpConn where
  fd_ : Int
  addr_ : SockAddr
  isClose_ : Bool
  iovCnt_ : Int
  iov0 : IoVec
  iov1 : IoVec
  readBuff_ : Buffer
  writeBuff_ : Buffer
  request_ : HttpRequest
  response_ : HttpResponse
deriving DecidableEq, Repr

namespace HttpConn

/-- The constructor `HttpConn::HttpConn()`: it sets `fd_`, `addr_` and
`isClose_`; the members it leaves alone are taken from `c`. -/
def new (c : HttpConn) : HttpConn :=
  { c with fd_ := -1, addr_ := { sin_addr := 0, sin_port := 0 }, isClose_ := true }

/-- The method `HttpConn::init` together with the static counter `userCount`.
`none` is the failure of `assert(fd > 0)`. -/
def init (c : HttpConn) (userCount : Int) (fd : Int) (addr : SockAddr) :
    Option (HttpConn × Int) :=
  if fd > 0 then
    some ({ c with
              addr_ := addr, fd_ := fd,
              writeBuff_ := c.writeBuff_.RetrieveAll,
              readBuff_ := c.readBuff_.RetrieveAll,
              isClose_ := false },
          userCount + 1)
  else none

/-- What one call of `HttpConn::Close` leaves: the object, the static counter
and the descriptors it passed to `close(2)`, in order. -/
structure CloseResult where
  conn : HttpConn
  userCount : Int
  closed : List Int
deriving DecidableEq, Repr

/-- The method `HttpConn::Close`. -/
def Close (c : HttpConn) (userCount : Int) : CloseResult :=
  let c1 := { c with response_ := c.response_.UnmapFile }
  if c1.isClose_ = false then
    { conn := { c1 with isClose_ := true }, userCount := userCount - 1, closed := [c1.fd_] }
  else
    { conn := c1, userCount := userCount, closed := [] }

end HttpConn

/-! ## A set of connection objects sharing `userCount` -/

/-- The connection objects of a program (as `WebServer::users_` holds them) and
the static `HttpConn::userCount`. -/
structure Conns where
  users : List HttpConn
  userCount : Int
deriving DecidableEq, Repr

/-- A call on the object number `i`. -/
inductive ConnCall where
  | init (i : Nat) (fd : Int) (addr : SockAddr)
  | Close (i : Nat)
deriving DecidableEq, Repr

namespace Conns

/-- An object before its constructor has run. -/
def raw : HttpConn :=
  { fd_ := 0, addr_ := { sin_addr := 0, sin_port := 0 }, isClose_ := false, iovCnt_ := 0,
    iov0 := { iov_base := 0, iov_len := 0 }, iov1 := { iov_base := 0, iov_len := 0 },
    readBuff_ := { data := 0, capacity := 1024, readPos_ := 0, writePos_ := 0 },
    writeBuff_ := { data := 0, capacity := 1024, readPos_ := 0, writePos_ := 0 },
    request_ := HttpRequest.Init
      { state_ := PARSE_STATE.REQUEST_LINE, method_ := "", path_ := "", version_ := "",
        body_ := "", header_ := [], post_ := [] },
    response_ := { code_ := -1, isKeepAlive_ := false, path_ := "", srcDir_ := "",
                   mmFile_ := 0, st_size := 0 } }

/-- The start of the program: the objects freshly constructed (one for every
element of `mem`, which gives the members the constructor leaves alone),
`userCount` at 0. -/
def start (mem : List HttpConn) : Conns :=
  { users := mem.map HttpConn.new, userCount := 0 }

/-- Number of objects whose closed flag is false. -/
def openCount (w : Conns) : Nat :=
  w.users.countP (fun c => !c.isClose_)

/-- One call. `none`: there is no object number `i`, or the assertion of
`init` failed. -/
def call (w : Conns) : ConnCall → Option Conns
  | ConnCall.init i fd addr =>
    match w.users[i]? with
    | none => none
    | some c =>
      match c.init w.userCount fd addr with
      | none => none
      | some (c1, u) => some { users := w.users.set i c1, userCount := u }
  | ConnCall.Close i =>
    match w.users[i]? with
    | none => none
    | some c =>
      let r := c.Close w.userCount
      some { users := w.users.set i r.conn, userCount := r.userCount }

/-- A sequence of calls, from left to right. -/
def run (w : Conns) : List ConnCall → Option Conns
  | [] => some w
  | op :: ops =>
    match w.call op with
    | none => none
    | some w1 => run w1 ops

/-- The discipline of the reactor: every call names an existing object, and
`init` is given a positive descriptor and an object whose closed flag is set.
The calls are checked against the states the sequence runs through. -/
def disciplined (w : Conns) : List ConnCall → Bool
  | [] => true
  | op :: ops =>
    (match op with
     | ConnCall.init i fd _ =>
       (match w.users[i]? with
        | some c => c.isClose_ && decide (fd > 0)
        | none => false)
     | ConnCall.Close i => (w.users[i]?).isSome) &&
    (match w.call op with
     | some w1 => disciplined w1 ops
     | none => true)

end Conns

/-! ## `HttpConn::read` -/

/-- The environment of `HttpConn::read`: the call number `k` (from 0) of
`Buffer::ReadFd` (buffer.cpp is absent) returns `result k` and turns the read
buffer `b` into `effect k b`. -/
structure ReadEnv where
  result : Nat → Int
  effect : Nat → Buffer → Buffer

/-- What `HttpConn::read` leaves: the value it returns, the number of `ReadFd`
calls it made, and the object. -/
structure ReadResult where
  ret : Int
  calls : Nat
  conn : HttpConn
deriving DecidableEq, Repr

namespace HttpConn

/-- The `do { ... } while (isET)` loop of `HttpConn::read`; `k` calls of
`ReadFd` have been made so far. -/
def readLoop (isET : Bool) (env : ReadEnv) : Nat → Nat → HttpConn → Option ReadResult
  | 0, _, _ => none
  | fuel + 1, k, c =>
    let len := env.result k
    let c1 := { c with readBuff_ := env.effect k c.readBuff_ }
    if len ≤ 0 then some { ret := len, calls := k + 1, conn := c1 }
    else if isET then readLoop isET env fuel (k + 1) c1
    else some { ret := len, calls := k + 1, conn := c1 }

/-- The method `HttpConn::read`. -/
def read (isET : Bool) (env : ReadEnv) (fuel : Nat) (c : HttpConn) : Option ReadResult :=
  readLoop isET env fuel 0 c

end HttpConn

/-! ## `HttpConn::write` -/

/-- The environment of `HttpConn::write`: the call number `k` (from 0) of
`writev`, given the `iovCnt_` vectors passed, returns `writev k vs` and leaves
`errno k` in `errno`. -/
structure WriteEnv where
  writev : Nat → List IoVec → Int
  errno : Nat → Int

/-- What `HttpConn::write` leaves: the value it returns, what it stored through
`saveErrno` (`none`: nothing), the number of `writev` calls it made, and the
object. -/
structure WriteResult where
  ret : Int
  savedErrno : Option Int
  calls : Nat
  conn : HttpConn
deriving DecidableEq, Repr

namespace HttpConn

/-- The inline method `int ToWriteBytes()`: the `size_t` sum of the two lengths,
returned as an `int`. -/
def ToWriteBytes (c : HttpConn) : Int :=
  toInt32 (sizeAdd c.iov0.iov_len c.iov1.iov_len)

/-- The vectors `writev(fd_, iov_, iovCnt_)` is given: the first `iovCnt_`
entries of `iov_`. -/
def passed (c : HttpConn) : List IoVec :=
  [c.iov0, c.iov1].take c.iovCnt_.toNat

/-- The two updating branches of the loop body of `HttpConn::write`
(httpconn.cpp lines 83 to 95), for the value `len` that `writev` returned. -/
def advance (c : HttpConn) (len : Int) : HttpConn :=
  if toSize len > c.iov0.iov_len then
    let c1 := { c with
      iov1 := { iov_base := c.iov1.iov_base + sizeSub (toSize len) c.iov0.iov_len,
                iov_len := sizeSub c.iov1.iov_len (sizeSub (toSize len) c.iov0.iov_len) } }
    if c1.iov0.iov_len ≠ 0 then
      { c1 with writeBuff_ := c1.writeBuff_.RetrieveAll,
                iov0 := { c1.iov0 with iov_len := 0 } }
    else c1
  else
    { c with
      iov0 := { iov_base := c.iov0.iov_base + toSize len,
                iov_len := sizeSub c.iov0.iov_len (toSize len) },
      writeBuff_ := c.writeBuff_.Retrieve (toSize len) }

/-- The `do { ... } while (isET || ToWriteBytes() > 10240)` loop of
`HttpConn::write`; `k` calls of `writev` have been made so far. -/
def writeLoop (isET : Bool) (env : WriteEnv) : Nat → Nat → HttpConn → Option WriteResult
  | 0, _, _ => none
  | fuel + 1, k, c =>
    let len := env.writev k c.passed
    if len ≤ 0 then
      some { ret := len, savedErrno := some (env.errno k), calls := k + 1, conn := c }
    else if sizeAdd c.iov0.iov_len c.iov1.iov_len = 0 then
      some { ret := len, savedErrno := none, calls := k + 1, conn := c }
    else
      let c1 := c.advance len
      if isET || decide (c1.ToWriteBytes > 10240) then writeLoop isET env fuel (k + 1) c1
      else some { ret := len, savedErrno := none, calls := k + 1, conn := c1 }

/-- The method `HttpConn::write`. -/
def write (isET : Bool) (env : WriteEnv) (fuel : Nat) (c : HttpConn) : Option WriteResult :=
  writeLoop isET env fuel 0 c

/-- The addresses a vector describes, in order. -/
def span (v : IoVec) : List Nat := List.range' v.iov_base v.iov_len

/-- The addresses still to be sent: those of the header vector followed by
those of the file vector. -/
def unsent (c : HttpConn) : List Nat := span c.iov0 ++ span c.iov1

end HttpConn

/-! ## `HttpConn::process` -/

/-- The environment of `HttpConn::process`: the static `srcDir` and the two
methods whose bodies are absent (httprequest.cpp, httpresponse.cpp).
`parse r b` is `r.parse(b)`: the value returned, the request and the buffer it
leaves. `MakeResponse r b` is `r.MakeResponse(b)`. -/
structure ProcessEnv where
  srcDir : String
  parse : HttpRequest → Buffer → Bool × HttpRequest × Buffer
  MakeResponse : HttpResponse → Buffer → HttpResponse × Buffer

namespace HttpConn

/-- The method `HttpConn::process`: the value returned and the object. -/
def process (env : ProcessEnv) (c : HttpConn) : Bool × HttpConn :=
  let c0 := { c with request_ := c.request_.Init }
  if c0.readBuff_.ReadableBytes ≤ 0 then (false, c0)
  else
    let p := env.parse c0.request_ c0.readBuff_
    let c1 := { c0 with request_ := p.2.1, readBuff_ := p.2.2 }
    let c2 :=
      if p.1 then
        { c1 with response_ :=
            c1.response_.Init env.srcDir c1.request_.path_ c1.request_.IsKeepAlive 200 }
      else
        { c1 with response_ := c1.response_.Init env.srcDir c1.request_.path_ false 400 }
    let m := env.MakeResponse c2.response_ c2.writeBuff_
    let c3 := { c2 with response_ := m.1, writeBuff_ := m.2 }
    let c4 := { c3 with
      iov0 := { iov_base := c3.writeBuff_.Peek, iov_len := c3.writeBuff_.ReadableBytes },
      iovCnt_ := 1 }
    let c5 :=
      if c4.response_.FileLen > 0 && c4.response_.File ≠ 0 then
        { c4 with
          iov1 := { iov_base := c4.response_.File, iov_len := c4.response_.FileLen },
          iovCnt_ := 2 }
      else c4
    (true, c5)

end HttpConn

/-! ## SqlConnPool (`code/pool/sqlconnpool.h`, `code/pool/sqlconnpool.cpp`) -/

/-- The data members of `SqlConnPool`; the front of `connQue_` is the head of
the list, `semId_` is the value of the semaphore, a handle is an address. -/
structure SqlConnPool where
  MAX_CONN_ : Int
  useCount_ : Int
  freeCount_ : Int
  connQue_ : List Nat
  semId_ : Nat
deriving DecidableEq, Repr

/-- The database driver: `mysql_init i` is the handle `mysql_init` returns in
iteration `i` of `Init`, `mysql_real_connect i h` what connecting it returns
(`0` on failure). -/
structure MySqlEnv where
  mysql_init : Nat → Nat
  mysql_real_connect : Nat → Nat → Nat

/-- What `SqlConnPool::GetConn` leaves: the handle returned, the pool and the
number of `sem_wait` calls it made. -/
structure GetConnResult where
  sql : Nat
  pool : SqlConnPool
  semWaits : Nat
deriving DecidableEq, Repr

namespace SqlConnPool

/-- The constructor `SqlConnPool::SqlConnPool()`: it sets the two counters; the
queue starts empty and the other members are taken from `p`. -/
def new (p : SqlConnPool) : SqlConnPool :=
  { p with useCount_ := 0, freeCount_ := 0, connQue_ := [] }

/-- The `for` loop of `SqlConnPool::Init`: `r` iterations are left, `i` is the
loop variable. `none` is the failure of `assert(sql)` after `mysql_init`. -/
def initLoop (env : MySqlEnv) : Nat → Nat → List Nat → Option (List Nat)
  | 0, _, q => some q
  | r + 1, i, q =>
    if env.mysql_init i = 0 then none
    else initLoop env r (i + 1) (q ++ [env.mysql_real_connect i (env.mysql_init i)])

/-- The method `SqlConnPool::Init`. `none` is the failure of an assertion. -/
def Init (p : SqlConnPool) (env : MySqlEnv) (connSize : Int) : Option SqlConnPool :=
  if connSize > 0 then
    match initLoop env connSize.toNat 0 p.connQue_ with
    | none => none
    | some q => some { p with connQue_ := q, MAX_CONN_ := connSize, semId_ := connSize.toNat }
  else none

/-- The method `SqlConnPool::GetConn`, run with no other thread. `none`:
`sem_wait` finds the semaphore at 0 and blocks. -/
def GetConn (p : SqlConnPool) : Option GetConnResult :=
  match p.connQue_ with
  | [] => some { sql := 0, pool := p, semWaits := 0 }
  | sql :: rest =>
    if p.semId_ = 0 then none
    else
      some { sql := sql,
             pool := { p with semId_ := p.semId_ - 1, connQue_ := rest,
                              useCount_ := p.useCount_ + 1, freeCount_ := p.freeCount_ - 1 },
             semWaits := 1 }

/-- The method `SqlConnPool::FreeConn`. `none` is the failure of
`assert(sql)`. -/
def FreeConn (p : SqlConnPool) (sql : Nat) : Option SqlConnPool :=
  if sql = 0 then none
  else
    some { p with connQue_ := p.connQue_ ++ [sql], semId_ := p.semId_ + 1,
                  useCount_ := p.useCount_ - 1, freeCount_ := p.freeCount_ + 1 }

/-- The method `SqlConnPool::ClosePool`. -/
def ClosePool (p : SqlConnPool) : SqlConnPool :=
  { p with connQue_ := [], MAX_CONN_ := 0, useCount_ := 0, freeCount_ := 0 }

/-- The method `int GetFreeConnCount()`: `connQue_.size()` returned as an
`int`. -/
def GetFreeConnCount (p : SqlConnPool) : Int := toInt32 (p.connQue_.length % SIZE_MOD)

end SqlConnPool

/-- A call on the pool. -/
inductive PoolCall where
  | GetConn
  | FreeConn (sql : Nat)
deriving DecidableEq, Repr

/-- A pool together with the handles its callers hold: those `GetConn` popped
and `FreeConn` has not yet been given back. -/
structure PoolUse where
  pool : SqlConnPool
  held : List Nat
deriving DecidableEq, Repr

namespace PoolUse

/-- One call. `none`: the call blocks or fails its assertion. -/
def call (s : PoolUse) : PoolCall → Option PoolUse
  | PoolCall.GetConn =>
    match s.pool.GetConn with
    | none => none
    | some r =>
      some { pool := r.pool, held := if r.semWaits = 0 then s.held else r.sql :: s.held }
  | PoolCall.FreeConn sql =>
    match s.pool.FreeConn sql with
    | none => none
    | some p => some { pool := p, held := s.held.erase sql }

/-- A sequence of calls, from left to right. -/
def run (s : PoolUse) : List PoolCall → Option PoolUse
  | [] => some s
  | op :: ops =>
    match s.call op with
    | none => none
    | some s1 => run s1 ops

/-- Every `FreeConn` of the sequence is given a non-null handle that is held
when the call is made. The calls are checked against the states the sequence
runs through. -/
def onlyHeld (s : PoolUse) : List PoolCall → Bool
  | [] => true
  | op :: ops =>
    (match op with
     | PoolCall.GetConn => true
     | PoolCall.FreeConn sql => decide (sql ≠ 0) && decide (sql ∈ s.held)) &&
    (match s.call op with
     | some s1 => onlyHeld s1 ops
     | none => true)

/-- The state kept by every call on the pool: `useCount_` counts the handles
held, held and queued handles together are `size`, and the semaphore counts the
queue. -/
def balanced (size : Nat) (s : PoolUse) : Prop :=
  s.pool.useCount_ = (s.held.length : Int)
  ∧ s.held.length + s.pool.connQue_.length = size
  ∧ s.pool.semId_ = s.pool.connQue_.length

instance (size : Nat) (s : PoolUse) : Decidable (s.balanced size) := by
  unfold balanced; infer_instance

end PoolUse

/-! ## Concrete states and environments -/

namespace HttpConn

/-- An open connection as `process` leaves it for a response of `h` header
bytes in the write buffer and a mapped file of `f` bytes. -/
def sample (h f : Nat) : HttpConn :=
  { fd_ := 5, addr_ := { sin_addr := 1, sin_port := 80 }, isClose_ := false,
    iovCnt_ := if f > 0 then 2 else 1,
    iov0 := { iov_base := 4096, iov_len := h },
    iov1 := { iov_base := if f > 0 then 2 ^ 40 else 0, iov_len := f },
    readBuff_ := { data := 1024, capacity := 1024, readPos_ := 0, writePos_ := 0 },
    writeBuff_ := { data := 4096, capacity := 1024, readPos_ := 0, writePos_ := h },
    request_ := Conns.raw.request_,
    response_ := { code_ := 200, isKeepAlive_ := false, path_ := "/index.html",
                   srcDir_ := "/srv", mmFile_ := if f > 0 then 2 ^ 40 else 0, st_size := f } }

end HttpConn

namespace WriteEnv

/-- Sum of the lengths of the vectors passed to `writev`. -/
def total (vs : List IoVec) : Nat := (vs.map (fun v => v.iov_len)).sum

/-- A socket that takes at most `m` bytes a call: `writev` returns the smaller
of `m` and the number of bytes passed (0 when nothing is passed). -/
def sendAtMost (m : Nat) : WriteEnv :=
  { writev := fun _ vs => ((min m (total vs) : Nat) : Int), errno := fun _ => 11 }

end WriteEnv

namespace ReadEnv

/-- A socket with three batches of data: `ReadFd` returns 100, 40, 7 and then
-1 (nothing left); the buffer grows by what was read. -/
def threeBatches : ReadEnv :=
  { result := fun k => if k = 0 then 100 else if k = 1 then 40 else if k = 2 then 7 else -1,
    effect := fun k b =>
      { b with writePos_ :=
          b.writePos_ + (if k = 0 then 100 else if k = 1 then 40 else if k = 2 then 7 else 0) } }

end ReadEnv

namespace SqlConnPool

/-- A pool object before its constructor has run. -/
def raw : SqlConnPool :=
  { MAX_CONN_ := 0, useCount_ := 0, freeCount_ := 0, connQue_ := [], semId_ := 0 }

end SqlConnPool

namespace MySqlEnv

/-- A driver whose every connection succeeds: iteration `i` yields the handle
at address `1000 + i`. -/
def allConnect : MySqlEnv :=
  { mysql_init := fun i => 1000 + i, mysql_real_connect := fun _ h => h }

end MySqlEnv

/-! ## BlockDeque (`code/log/blockqueue.h`)

Every method of `BlockDeque` runs with `mtx_` held, and a condition-variable
wait gives the mutex up while the call sleeps. A method is therefore a
function on the queue for the stretch from its entry, or from a wake-up, to
its return or to its next sleep; the calls of several threads are interleaved
as a sequence of such stretches. A wake-up may come from a notification or
without one. -/

/-- The data members of `BlockDeque<T>`; `deq_` is the deque from front to
back. -/
structure BlockDeque (T : Type) where
  deq_ : List T
  capacity_ : Nat
  isClose_ : Bool
deriving DecidableEq, Repr

/-- How a stretch of a call ends: the call returns `r` and leaves the queue
`q`, or it sleeps in a wait (the queue is as it was). -/
inductive Call (T ρ : Type) where
  | returned (q : BlockDeque T) (r : ρ)
  | asleep
deriving DecidableEq, Repr

namespace BlockDeque

variable {T : Type}

/-- The constructor `BlockDeque(size_t MaxCapacity = 1000)`; `none` is the
failure of `assert(MaxCapacity > 0)`. -/
def new (MaxCapacity : Nat) : Option (BlockDeque T) :=
  if MaxCapacity > 0 then some { deq_ := [], capacity_ := MaxCapacity, isClose_ := false }
  else none

/-- The default argument of the constructor. -/
def defaultCapacity : Nat := 1000

/-- The method `Close` (the two `notify_all` calls wake sleepers and change
no member). -/
def Close (q : BlockDeque T) : BlockDeque T :=
  { q with deq_ := [], isClose_ := true }

/-- The method `clear`. -/
def clear (q : BlockDeque T) : BlockDeque T :=
  { q with deq_ := [] }

/-- The method `size`. -/
def size (q : BlockDeque T) : Nat := q.deq_.length

/-- The method `capacity`. -/
def capacity (q : BlockDeque T) : Nat := q.capacity_

/-- The method `empty`. -/
def empty (q : BlockDeque T) : Bool := q.deq_.isEmpty

/-- The method `full`. -/
def full (q : BlockDeque T) : Bool := decide (q.deq_.length ≥ q.capacity_)

/-- The method `push_back` from the test of its `while` loop on. The method
returns nothing; the value of the model tells which `return` was taken: true
for the end of the method, after the insertion, false for the `return` inside
the loop. -/
def push_back_loop (q : BlockDeque T) (item : T) : Call T Bool :=
  if q.deq_.length ≥ q.capacity_ then Call.asleep
  else Call.returned { q with deq_ := q.deq_ ++ [item] } true

/-- The method `push_back` from its entry. -/
def push_back (q : BlockDeque T) (item : T) : Call T Bool :=
  push_back_loop q item

/-- The method `push_back` from the return of `condProducer_.wait`. -/
def push_back_wake (q : BlockDeque T) (item : T) : Call T Bool :=
  if q.isClose_ then Call.returned q false else push_back_loop q item

/-- The method `push_front` from the test of its `while` loop on; the value is
as for `push_back`. -/
def push_front_loop (q : BlockDeque T) (item : T) : Call T Bool :=
  if q.deq_.length ≥ q.capacity_ then Call.asleep
  else Call.returned { q with deq_ := item :: q.deq_ } true

/-- The method `push_front` from its entry. -/
def push_front (q : BlockDeque T) (item : T) : Call T Bool :=
  push_front_loop q item

/-- The method `push_front` from the return of `condProducer_.wait`. -/
def push_front_wake (q : BlockDeque T) (item : T) : Call T Bool :=
  if q.isClose_ then Call.returned q false else push_front_loop q item

/-- The method `bool pop(T &item)` from the test of its `while` loop on. The
value returned is the `bool` together with what was stored in `item` (`none`:
`item` was not touched). -/
def pop_loop (q : BlockDeque T) : Call T (Bool × Option T) :=
  match q.deq_ with
  | [] => Call.asleep
  | x :: rest => Call.returned { q with deq_ := rest } (true, some x)

/-- The method `bool pop(T &item)` from its entry. -/
def pop (q : BlockDeque T) : Call T (Bool × Option T) :=
  pop_loop q

/-- The method `bool pop(T &item)` from the return of `condConsumer_.wait`. -/
def pop_wake (q : BlockDeque T) : Call T (Bool × Option T) :=
  if q.isClose_ then Call.returned q (false, none) else pop_loop q

end BlockDeque

/-- A call that sleeps in a wait of the queue. -/
inductive Sleeper (T : Type) where
  | push_back (item : T)
  | push_front (item : T)
  | pop
deriving DecidableEq, Repr

/-- A queue shared by threads: the object and the calls asleep on it. -/
structure DequeSys (T : Type) where
  q : BlockDeque T
  asleep : List (Sleeper T)
deriving DecidableEq, Repr

/-- What a thread does next: it enters a method, or the sleeping call number `i`
wakes up. -/
inductive DequeEvent (T : Type) where
  | push_back (item : T)
  | push_front (item : T)
  | pop
  | clear
  | Close
  | wake (i : Nat)
deriving DecidableEq, Repr

/-- What an event led to: an item was inserted at the back or the front, a
call went (back) to sleep, a pop returned true with an item, a push returned
without inserting, a pop returned false, or `clear` or `Close` returned. -/
inductive DequeOutcome (T : Type) where
  | pushedBack (item : T)
  | pushedFront (item : T)
  | slept
  | popped (item : T)
  | pushGivenUp
  | popFailed
  | cleared
  | closed
deriving DecidableEq, Repr

namespace DequeSys

variable {T : Type}

/-- The system after a stretch of a push of `item`: `w` is the call (for the
list of sleepers), `c` how the stretch ended, `rest` the other sleepers. -/
def afterPush (s : DequeSys T) (w : Sleeper T) (ok : DequeOutcome T) (rest : List (Sleeper T))
    (c : Call T Bool) : DequeSys T × DequeOutcome T :=
  match c with
  | Call.asleep => ({ q := s.q, asleep := rest ++ [w] }, DequeOutcome.slept)
  | Call.returned q1 true => ({ q := q1, asleep := rest }, ok)
  | Call.returned q1 false => ({ q := q1, asleep := rest }, DequeOutcome.pushGivenUp)

/-- The system after a stretch of a pop. -/
def afterPop (s : DequeSys T) (rest : List (Sleeper T)) (c : Call T (Bool × Option T)) :
    DequeSys T × DequeOutcome T :=
  match c with
  | Call.asleep => ({ q := s.q, asleep := rest ++ [Sleeper.pop] }, DequeOutcome.slept)
  | Call.returned q1 (_, some x) => ({ q := q1, asleep := rest }, DequeOutcome.popped x)
  | Call.returned q1 (_, none) => ({ q := q1, asleep := rest }, DequeOutcome.popFailed)

/-- One event. `none`: there is no sleeping call number `i` to wake. -/
def step (s : DequeSys T) : DequeEvent T → Option (DequeSys T × DequeOutcome T)
  | DequeEvent.push_back x =>
    some (s.afterPush (Sleeper.push_back x) (DequeOutcome.pushedBack x) s.asleep
      (s.q.push_back x))
  | DequeEvent.push_front x =>
    some (s.afterPush (Sleeper.push_front x) (DequeOutcome.pushedFront x) s.asleep
      (s.q.push_front x))
  | DequeEvent.pop => some (s.afterPop s.asleep s.q.pop)
  | DequeEvent.clear => some ({ s with q := s.q.clear }, DequeOutcome.cleared)
  | DequeEvent.Close => some ({ s with q := s.q.Close }, DequeOutcome.closed)
  | DequeEvent.wake i =>
    match s.asleep[i]? with
    | none => none
    | some (Sleeper.push_back x) =>
      some (s.afterPush (Sleeper.push_back x) (DequeOutcome.pushedBack x) (s.asleep.eraseIdx i)
        (s.q.push_back_wake x))
    | some (Sleeper.push_front x) =>
      some (s.afterPush (Sleeper.push_front x) (DequeOutcome.pushedFront x)
        (s.asleep.eraseIdx i) (s.q.push_front_wake x))
    | some Sleeper.pop => some (s.afterPop (s.asleep.eraseIdx i) s.q.pop_wake)

/-- A sequence of events, from left to right, with what each led to. -/
def run (s : DequeSys T) : List (DequeEvent T) → Option (DequeSys T × List (DequeOutcome T))
  | [] => some (s, [])
  | e :: es =>
    match s.step e with
    | none => none
    | some (s1, o) =>
      match run s1 es with
      | none => none
      | some (s2, os) => some (s2, o :: os)

/-- The system right after the constructor. -/
def start (q : BlockDeque T) : DequeSys T := { q := q, asleep := [] }

end DequeSys

/-! ### The reference list of a queue -/

/-- The reference model of an open queue: a list in which `push_back` appends,
`push_front` prepends and `pop` removes and returns the head. -/
structure RefList (T : Type) where
  items : List T
deriving DecidableEq, Repr

namespace RefList

variable {T : Type}

/-- Appending at the back. -/
def push_back (l : RefList T) (x : T) : RefList T := { items := l.items ++ [x] }

/-- Prepending at the front. -/
def push_front (l : RefList T) (x : T) : RefList T := { items := x :: l.items }

/-- Removing and returning the head; `none` on the empty list. -/
def pop (l : RefList T) : Option (T × RefList T) :=
  match l.items with
  | [] => none
  | x :: rest => some (x, { items := rest })

/-- The reference list follows the operations that completed: an insertion at
the back or the front, or a pop, which has to yield the head of the list
(`none` when it does not). Sleeping changes nothing. -/
def follow (l : RefList T) [DecidableEq T] : List (DequeOutcome T) → Option (RefList T)
  | [] => some l
  | DequeOutcome.pushedBack x :: os => follow (l.push_back x) os
  | DequeOutcome.pushedFront x :: os => follow (l.push_front x) os
  | DequeOutcome.popped x :: os =>
    match l.pop with
    | some (y, l1) => if x = y then follow l1 os else none
    | none => none
  | _ :: os => follow l os

end RefList

/-- The events of an open queue in use: no `clear` and no `Close`. -/
def DequeEvent.keepsItems {T : Type} : DequeEvent T → Bool
  | DequeEvent.clear => false
  | DequeEvent.Close => false
  | _ => true

/-- The items of the pop outcomes, in order. -/
def DequeOutcome.poppedItems {T : Type} : List (DequeOutcome T) → List T
  | [] => []
  | DequeOutcome.popped x :: os => x :: poppedItems os
  | _ :: os => poppedItems os

/-- The items of the back insertions, in order. -/
def DequeOutcome.backItems {T : Type} : List (DequeOutcome T) → List T
  | [] => []
  | DequeOutcome.pushedBack x :: os => x :: backItems os
  | _ :: os => backItems os

/-- No insertion at the front among the outcomes. -/
def DequeOutcome.noFront {T : Type} : List (DequeOutcome T) → Bool
  | [] => true
  | DequeOutcome.pushedFront _ :: _ => false
  | _ :: os => noFront os

/-! ### The list model run on the calls -/

namespace RefList

variable {T : Type}

/-- The list model run over a sequence of calls, in the words of the
specification: `push_back` appends and `push_front` prepends, each completing
when the list holds fewer than `cap` items, and `pop` removes and returns the
head, completing when the list is not empty. The result is the list at the end
and the popped values in order. `none`: a call that does not complete (a push
on a full list, a pop on an empty one), or an event that is no operation of the
list model (`clear`, `Close`, a wake-up). -/
def run (cap : Nat) : RefList T → List (DequeEvent T) → Option (RefList T × List T)
  | l, [] => some (l, [])
  | l, DequeEvent.push_back x :: es =>
    if l.items.length < cap then run cap (l.push_back x) es else none
  | l, DequeEvent.push_front x :: es =>
    if l.items.length < cap then run cap (l.push_front x) es else none
  | l, DequeEvent.pop :: es =>
    match l.pop with
    | some (x, l1) =>
      match run cap l1 es with
      | some (l2, xs) => some (l2, x :: xs)
      | none => none
    | none => none
  | _, _ :: _ => none

end RefList

/-- The items of the `push_back` calls, in order. -/
def DequeEvent.backItems {T : Type} : List (DequeEvent T) → List T
  | [] => []
  | DequeEvent.push_back x :: es => x :: backItems es
  | _ :: es => backItems es

/-- No `push_front` call among the events. -/
def DequeEvent.noFront {T : Type} : List (DequeEvent T) → Bool
  | [] => true
  | DequeEvent.push_front _ :: _ => false
  | _ :: es => noFront es

/-! ## Log (`code/log/log.h`, `code/log/log.cpp`)

Text is a string of one-byte characters. A `FILE*` is the name the file was
opened under (`none` is `nullptr`). The file operations of a call are listed in
the order in which the call makes them. -/

/-- The fields of `struct tm` (from `localtime`) and of `struct timeval` (from
`gettimeofday`) that the logger reads. -/
structure LogTime where
  tm_year : Int
  tm_mon : Int
  tm_mday : Int
  tm_hour : Int
  tm_min : Int
  tm_sec : Int
  tv_usec : Int
deriving DecidableEq, Repr

/-- A call of the C library on the file system. -/
inductive FileOp where
  | fopen (name : String)
  | mkdir (path : String)
  | fclose (name : String)
  | fflush (name : String)
  | fputs (name : String) (text : String)
deriving DecidableEq, Repr

/-- Whether the call is an `fputs`. -/
def FileOp.isFputs : FileOp → Bool
  | FileOp.fputs _ _ => true
  | _ => false

/-- The file system as the logger sees it: whether `fopen(name, "a")`
succeeds, and whether it succeeds on the second try of `init`, after
`mkdir`. -/
structure LogFs where
  fopen : String → Bool
  fopenAfterMkdir : String → Bool

/-- The conversion `%d`. -/
def fmtD (n : Int) : String := toString n

/-- The conversion `%0<w>d` (and `%0<w>ld`): the sign, then the digits filled
up with zeros to `w` characters in all. -/
def fmt0 (w : Nat) (n : Int) : String :=
  if n < 0 then
    "-" ++ String.mk (List.replicate (w - 1 - (toString n.natAbs).length) '0')
      ++ toString n.natAbs
  else String.mk (List.replicate (w - (toString n.natAbs).length) '0') ++ toString n.natAbs

/-- The call `snprintf(buf, size, ...)` (and `vsnprintf`) for the full text `s`
of the conversion: what is stored in `buf` before the terminating NUL, at most
`size - 1` characters, and the value returned, the length of the full text. -/
def snprintf (size : Nat) (s : String) : String × Int :=
  (String.mk (s.data.take (size - 1)), (s.length : Int))

/-- The C string that starts a byte sequence: the bytes before the first
NUL. -/
def cstr (s : String) : String := String.mk (s.data.takeWhile (fun c => c != Char.ofNat 0))

/-- What `snprintf(buf, size, ...)` (or `vsnprintf`) followed by
`HasWritten(m)`, `m` being the value returned, leaves in front of the write
position out of the `size` bytes at `buf`, for the full text `s` of `m` bytes.
When `m < size` it is the whole text: the terminating NUL lies at the write
position, where the next `Append` overwrites it. Otherwise it is the first
`size - 1` bytes and the NUL, which stays in front of the write position
(nothing at all when `size` is 0); the further `m - size` bytes in front of the
write position are not stored by the call. -/
def stored (size : Nat) (s : String) : String :=
  if s.length < size then s
  else if size = 0 then "" else (snprintf size s).1 ++ "\x00"

namespace Buffer

/-- Modelled from the spec: the constructor `Buffer(int initBuffSize = 1024)`
(buffer.cpp is absent; the default is in buffer.h): both positions 0. -/
def new (b : Buffer) (initBuffSize : Nat) : Buffer :=
  { b with capacity := initBuffSize, readPos_ := 0, writePos_ := 0 }

/-- Modelled from the spec: `Buffer::PrependableBytes` (buffer.cpp is absent);
the prependable space is `[0, readPos)`. -/
def PrependableBytes (b : Buffer) : Nat := b.readPos_

/-- Modelled from the spec: `Buffer::BeginWrite` (buffer.cpp is absent), the
address of the first writable byte. -/
def BeginWrite (b : Buffer) : Nat := b.data + b.writePos_

/-- Modelled from the spec: `Buffer::HasWritten` (buffer.cpp is absent),
`advance_write(n)`. -/
def HasWritten (b : Buffer) (len : Nat) : Buffer :=
  { b with writePos_ := sizeAdd b.writePos_ len }

/-- Modelled from the spec: `Buffer::MakeSpace_` (buffer.cpp is absent): on
insufficient tail space the buffer compacts, shifting the readable bytes to
index 0, when prependable plus writable space suffices, and otherwise grows to
`writePos + requested + 1`. -/
def MakeSpace_ (b : Buffer) (len : Nat) : Buffer :=
  if sizeAdd b.WritableBytes b.PrependableBytes < len then
    { b with capacity := sizeAdd (sizeAdd b.writePos_ len) 1 }
  else { b with readPos_ := 0, writePos_ := b.ReadableBytes }

/-- Modelled from the spec: `Buffer::EnsureWriteable` (buffer.cpp is absent):
nothing to do when `writable_len >= n`. -/
def EnsureWriteable (b : Buffer) (len : Nat) : Buffer :=
  if b.WritableBytes < len then b.MakeSpace_ len else b

/-- Modelled from the spec: the positions after `Buffer::Append(str, len)`
(buffer.cpp is absent): room is ensured, the bytes are copied to the writable
tail and the write position advances. -/
def Append (b : Buffer) (len : Nat) : Buffer :=
  (b.EnsureWriteable len).HasWritten len

end Buffer

/-- The data members of `Log`. `text_` stands for the bytes of `buff_` between
its two positions, as far as the calls on the buffer stored them. -/
structure Log where
  fp_ : Option String
  path_ : String
  suffix_ : String
  MAX_LINES_ : Int
  lineCount_ : Int
  toDay_ : Int
  isOpen_ : Bool
  buff_ : Buffer
  text_ : String
  level_ : Int
  isAsync_ : Bool
  deque_ : Option (BlockDeque String)
  writeThread_ : Bool
deriving DecidableEq, Repr

/-- What `Log::write` leaves: the logger, the file operations the calling
thread made, and for every `HasWritten` call on `buff_` the length handed over
together with `WritableBytes()` at that moment. -/
structure LogWrite where
  log : Log
  ops : List FileOp
  hasWritten : List (Nat × Nat)
deriving DecidableEq, Repr

/-- What a stretch of `Log::AsyncWrite_` leaves: the logger, the file
operations the writer thread made, and whether the loop was left (`pop`
returned false) or the thread sleeps in `pop`. -/
structure WriterRun where
  log : Log
  ops : List FileOp
  finished : Bool
deriving DecidableEq, Repr

namespace Log

/-- The constant `LOG_NAME_LEN`. -/
def LOG_NAME_LEN : Nat := 256

/-- The constant `MAX_LINES`. -/
def MAX_LINES : Int := 50000

/-- The constructor `Log::Log()`; `buff_` is default-constructed, the members
the constructor leaves alone are taken from `l`. -/
def new (l : Log) : Log :=
  { l with lineCount_ := 0, isAsync_ := false, writeThread_ := false, deque_ := none,
           toDay_ := 0, fp_ := none, buff_ := l.buff_.new 1024, text_ := "" }

/-- The method `Log::flush`: `deque_->flush()` only notifies the writer; `none`
is the call through a null `deque_`. -/
def flush (l : Log) : Option (List FileOp) :=
  if l.isAsync_ && l.deque_.isNone then none
  else
    match l.fp_ with
    | some f => some [FileOp.fflush f]
    | none => some []

/-- The text `%04d_%02d_%02d` of a date. -/
def dateText (t : LogTime) : String :=
  fmt0 4 (t.tm_year + 1900) ++ "_" ++ fmt0 2 (t.tm_mon + 1) ++ "_" ++ fmt0 2 t.tm_mday

/-- The method `Log::init`, called at time `t`. `none`: a call through a null
pointer, or the failure of `assert(fp_ != nullptr)`. -/
def init (l : Log) (fs : LogFs) (t : LogTime) (level : Int) (path suffix : String)
    (maxQueueSize : Int) : Option (Log × List FileOp) :=
  let l1 := { l with isOpen_ := true, level_ := level }
  let l2 :=
    if maxQueueSize > 0 then
      if l1.deque_.isNone then
        { l1 with isAsync_ := true, deque_ := BlockDeque.new BlockDeque.defaultCapacity,
                  writeThread_ := true }
      else { l1 with isAsync_ := true }
    else { l1 with isAsync_ := false }
  let l3 := { l2 with lineCount_ := 0, path_ := path, suffix_ := suffix }
  let fileName := (snprintf (LOG_NAME_LEN - 1) (path ++ "/" ++ dateText t ++ suffix)).1
  let l4 := { l3 with toDay_ := t.tm_mday, buff_ := l3.buff_.RetrieveAll, text_ := "" }
  let closing : Option (List FileOp) :=
    match l4.fp_ with
    | some f =>
      match l4.flush with
      | some ops => some (ops ++ [FileOp.fclose f])
      | none => none
    | none => some []
  match closing with
  | none => none
  | some ops =>
    if fs.fopen fileName then
      some ({ l4 with fp_ := some fileName }, ops ++ [FileOp.fopen fileName])
    else if fs.fopenAfterMkdir fileName then
      some ({ l4 with fp_ := some fileName },
            ops ++ [FileOp.fopen fileName, FileOp.mkdir path, FileOp.fopen fileName])
    else none

/-- The test that opens the first block of `Log::write` (log.cpp line 106):
`toDay_ != t.tm_mday || (lineCount_ && (lineCount_ % MAX_LINES == 0))`. -/
def needsNewFile (l : Log) (t : LogTime) : Bool :=
  decide (l.toDay_ ≠ t.tm_mday)
    || (decide (l.lineCount_ ≠ 0) && decide (Int.tmod l.lineCount_ MAX_LINES = 0))

/-- The name built in `newFile` by the first block of `Log::write` (log.cpp
lines 111 to 123); `tail` holds the date. -/
def newFileName (l : Log) (t : LogTime) : String :=
  if l.toDay_ ≠ t.tm_mday then
    (snprintf (LOG_NAME_LEN - 72) (l.path_ ++ "/" ++ (snprintf 36 (dateText t)).1 ++ l.suffix_)).1
  else
    (snprintf (LOG_NAME_LEN - 72)
      (l.path_ ++ "/" ++ (snprintf 36 (dateText t)).1 ++ "-"
        ++ fmtD (Int.tdiv l.lineCount_ MAX_LINES) ++ l.suffix_)).1

/-- The first block of `Log::write` (log.cpp lines 106 to 130): the test for a
new file and the change of file. `none`: a call through a null pointer, or the
failure of `assert(fp_ != nullptr)`. -/
def rotate (l : Log) (fs : LogFs) (t : LogTime) : Option (Log × List FileOp) :=
  if l.needsNewFile t then
    let newFile := l.newFileName t
    let l1 := if l.toDay_ ≠ t.tm_mday then { l with toDay_ := t.tm_mday, lineCount_ := 0 } else l
    match l1.flush, l1.fp_ with
    | some ops, some f =>
      if fs.fopen newFile then
        some ({ l1 with fp_ := some newFile }, ops ++ [FileOp.fclose f, FileOp.fopen newFile])
      else none
    | _, _ => none
  else some (l, [])

/-- The text that `AppendLogLevelTitle_` appends, 9 bytes. -/
def levelTitle (level : Int) : String :=
  if level = 0 then "[debug]: "
  else if level = 1 then "[info] : "
  else if level = 2 then "[warn] : "
  else if level = 3 then "[error]: "
  else "[info] : "

/-- The text of the conversion `%d-%02d-%02d %02d:%02d:%02d.%06ld ` that starts
a line. -/
def stampText (t : LogTime) : String :=
  fmtD (t.tm_year + 1900) ++ "-" ++ fmt0 2 (t.tm_mon + 1) ++ "-" ++ fmt0 2 t.tm_mday ++ " "
    ++ fmt0 2 t.tm_hour ++ ":" ++ fmt0 2 t.tm_min ++ ":" ++ fmt0 2 t.tm_sec ++ "."
    ++ fmt0 6 t.tv_usec ++ " "

/-- The value of `buff_.WritableBytes()` that the second block of `Log::write`
hands to `vsnprintf` (log.cpp line 145): after `HasWritten(n)` for the time
stamp and the `Append` of the 9 bytes of the title. -/
def msgRoom (l : Log) (t : LogTime) : Nat :=
  ((l.buff_.HasWritten (toSize (snprintf 128 (stampText t)).2)).Append 9).WritableBytes

/-- The bytes from `Peek()` on that the second block of `Log::write` has stored
when it hands the line on (log.cpp lines 136 to 149): what the buffer held, the
time stamp (`snprintf` with size 128, then `HasWritten(n)`), the 9 bytes of the
level title, the message (`vsnprintf` with size `WritableBytes()`, then
`HasWritten(m)`), and the 2 bytes newline and NUL of `Append("\n\0", 2)`. A time
stamp of more than 128 bytes, or a message of more bytes than
`WritableBytes()`, leaves bytes in front of the write position that the call
has not stored; this text does not have them (see `pushKnown` and
`directKnown`). -/
def lineText (l : Log) (t : LogTime) (level : Int) (msg : String) : String :=
  l.text_ ++ stored 128 (stampText t) ++ levelTitle level ++ stored (l.msgRoom t) msg
    ++ "\n\x00"

/-- Whether every byte of the string that `buff_.RetrieveAllToStr()` builds has
been stored by the call: the time stamp has at most 128 bytes and the message
at most `WritableBytes()` bytes. Then the string is `lineText`. -/
def pushKnown (l : Log) (t : LogTime) (msg : String) : Bool :=
  decide ((stampText t).length ≤ 128) && decide (msg.length ≤ l.msgRoom t)

/-- Whether the C string at `buff_.Peek()` ends within the bytes that the call
has stored, so that the text `fputs` writes is the C string that starts
`lineText`: `snprintf` or `vsnprintf` left its NUL in front of the write
position, or the message is whole and the NUL of the line end closes it. -/
def directKnown (l : Log) (t : LogTime) (msg : String) : Bool :=
  decide (128 ≤ (stampText t).length) || decide (msg.length ≤ l.msgRoom t)
    || decide (1 ≤ l.msgRoom t)

/-- The formatted line of a call: the time stamp, the level title, the message
and a newline, followed by the NUL that `Append("\n\0", 2)` adds. -/
def formatted (t : LogTime) (level : Int) (msg : String) : String :=
  stampText t ++ levelTitle level ++ msg ++ "\n\x00"

/-- The buffer after the second block of `Log::write` has put the line in
(log.cpp lines 135 to 148): `HasWritten(n)` for the time stamp, `Append` of the
9 bytes of the title, `HasWritten(m)` for the message, where `m` is what
`vsnprintf` returned for the writable tail, and `Append` of the 2 bytes of the
line end. -/
def lineBuffer (l : Log) (t : LogTime) (msg : String) : Buffer :=
  ((((l.buff_.HasWritten (toSize (snprintf 128 (stampText t)).2)).Append 9).HasWritten
    (toSize (snprintf ((l.buff_.HasWritten (toSize (snprintf 128 (stampText t)).2)).Append
      9).WritableBytes msg).2)).Append 2)

/-- The `HasWritten` calls made on `buff_` while the second block of
`Log::write` puts the line in, in order: the length handed over and
`WritableBytes()` at that moment. The second and the fourth are those inside
`Append`, after `EnsureWriteable`. -/
def hasWrittenCalls (l : Log) (t : LogTime) (msg : String) : List (Nat × Nat) :=
  [(toSize (snprintf 128 (stampText t)).2, l.buff_.WritableBytes),
   (9, ((l.buff_.HasWritten (toSize (snprintf 128 (stampText t)).2)).EnsureWriteable
          9).WritableBytes),
   (toSize (snprintf ((l.buff_.HasWritten (toSize (snprintf 128 (stampText t)).2)).Append
      9).WritableBytes msg).2,
    ((l.buff_.HasWritten (toSize (snprintf 128 (stampText t)).2)).Append 9).WritableBytes),
   (2, ((((l.buff_.HasWritten (toSize (snprintf 128 (stampText t)).2)).Append 9).HasWritten
          (toSize (snprintf ((l.buff_.HasWritten
            (toSize (snprintf 128 (stampText t)).2)).Append 9).WritableBytes
              msg).2)).EnsureWriteable 2).WritableBytes)]

/-- The second block of `Log::write` (log.cpp lines 132 to 158) for the level
`level` and the full text `msg` of the conversion of `format` with its
arguments. `none`: a call through a null pointer, or the calling thread sleeps
in `push_back`, or the text handed on takes in bytes that the call has not
stored (`pushKnown`, `directKnown`), which the model does not determine. -/
def emit (l : Log) (t : LogTime) (level : Int) (msg : String) : Option LogWrite :=
  let l1 := { l with lineCount_ := l.lineCount_ + 1 }
  match l1.deque_ with
  | some q =>
    if l1.isAsync_ && !q.full then
      if l.pushKnown t msg then
        match q.push_back (l.lineText t level msg) with
        | Call.returned q1 _ =>
          some { log := { l1 with deque_ := some q1,
                                  buff_ := (l.lineBuffer t msg).RetrieveAll.RetrieveAll,
                                  text_ := "" },
                 ops := [], hasWritten := l.hasWrittenCalls t msg }
        | Call.asleep => none
      else none
    else
      match l1.fp_ with
      | some f =>
        if l.directKnown t msg then
          some { log := { l1 with buff_ := (l.lineBuffer t msg).RetrieveAll, text_ := "" },
                 ops := [FileOp.fputs f (cstr (l.lineText t level msg))],
                 hasWritten := l.hasWrittenCalls t msg }
        else none
      | none => none
  | none =>
    match l1.fp_ with
    | some f =>
      if l.directKnown t msg then
        some { log := { l1 with buff_ := (l.lineBuffer t msg).RetrieveAll, text_ := "" },
               ops := [FileOp.fputs f (cstr (l.lineText t level msg))],
               hasWritten := l.hasWrittenCalls t msg }
      else none
    | none => none

/-- The method `Log::write`, called at time `t`. -/
def write (l : Log) (fs : LogFs) (t : LogTime) (level : Int) (msg : String) :
    Option LogWrite :=
  match l.rotate fs t with
  | none => none
  | some (l1, ops1) =>
    match l1.emit t level msg with
    | none => none
    | some w => some { w with ops := ops1 ++ w.ops }

/-- The loop of `Log::AsyncWrite_` from the return of a `pop` call, `c`, on.
`none`: the fuel ran out, or `fputs` got a null `fp_`. -/
def AsyncWrite_run : Nat → Log → Call String (Bool × Option String) → Option WriterRun
  | 0, _, _ => none
  | _ + 1, l, Call.asleep => some { log := l, ops := [], finished := false }
  | fuel + 1, l, Call.returned q1 (true, some str) =>
    match l.fp_ with
    | none => none
    | some f =>
      match AsyncWrite_run fuel { l with deque_ := some q1 } q1.pop with
      | none => none
      | some r => some { r with ops := FileOp.fputs f (cstr str) :: r.ops }
  | _ + 1, l, Call.returned q1 _ =>
    some { log := { l with deque_ := some q1 }, ops := [], finished := true }

/-- The method `Log::AsyncWrite_` from its entry to its next sleep or its
end. -/
def AsyncWrite_ (fuel : Nat) (l : Log) : Option WriterRun :=
  match l.deque_ with
  | none => none
  | some q => AsyncWrite_run fuel l q.pop

/-- The method `Log::AsyncWrite_` from a wake-up in `pop` to its next sleep or
its end. -/
def AsyncWrite_wake (fuel : Nat) (l : Log) : Option WriterRun :=
  match l.deque_ with
  | none => none
  | some q => AsyncWrite_run fuel l q.pop_wake

/-- The logger with its queue filled up to the capacity by lines that the
writer thread has not taken yet. -/
def withFullQueue (l : Log) : Log :=
  { l with deque_ :=
      l.deque_.map (fun q => { q with deq_ := List.replicate q.capacity_ "queued\n\x00" }) }

/-- A logger before its constructor has run. -/
def raw : Log :=
  { fp_ := none, path_ := "", suffix_ := "", MAX_LINES_ := 0, lineCount_ := 0, toDay_ := 0,
    isOpen_ := false,
    buff_ := { data := 8192, capacity := 0, readPos_ := 0, writePos_ := 0 },
    text_ := "", level_ := 0, isAsync_ := false, deque_ := none, writeThread_ := false }

end Log

namespace LogFs

/-- A file system in which every `fopen` succeeds. -/
def allOpen : LogFs := { fopen := fun _ => true, fopenAfterMkdir := fun _ => true }

end LogFs

/-- The arguments of one `Log::write` call: the time at which it is made, the
level, and the full text of the conversion of `format` with its arguments. -/
structure LogCall where
  time : LogTime
  level : Int
  msg : String
deriving DecidableEq, Repr

namespace Log

/-- A sequence of `Log::write` calls, from left to right, with what each
left. -/
def writes (l : Log) (fs : LogFs) : List LogCall → Option (Log × List LogWrite)
  | [] => some (l, [])
  | c :: cs =>
    match l.write fs c.time c.level c.msg with
    | none => none
    | some w =>
      match writes w.log fs cs with
      | none => none
      | some (l1, ws) => some (l1, w :: ws)

end Log

namespace LogTime

/-- The local time 2024-01-15 10:20:30.000123. -/
def jan15 : LogTime :=
  { tm_year := 124, tm_mon := 0, tm_mday := 15, tm_hour := 10, tm_min := 20, tm_sec := 30,
    tv_usec := 123 }

/-- The local time 2024-02-15 10:20:30.000123, one month later. -/
def feb15 : LogTime :=
  { tm_year := 124, tm_mon := 1, tm_mday := 15, tm_hour := 10, tm_min := 20, tm_sec := 30,
    tv_usec := 123 }

end LogTime

namespace ProcessEnv

/-- A parser that takes the whole read buffer as one complete request for
`/empty.txt`, and a response builder that finds this file empty: it appends 120
bytes of status line and headers to the write buffer and maps nothing
(`FileLen()` is 0). -/
def emptyFile : ProcessEnv :=
  { srcDir := "/srv",
    parse := fun r b =>
      (true, { r with state_ := PARSE_STATE.FINISH, method_ := "GET", path_ := "/empty.txt",
                      version_ := "1.1" }, b.RetrieveAll),
    MakeResponse := fun r b => ({ r with mmFile_ := 0, st_size := 0 }, b.Append 120) }

end ProcessEnv

namespace HttpConn

/-- The object `process` has built when it reaches its last `if`
(httpconn.cpp lines 102 to 120): request parsed, response initialised and
made, `iov_[0]` and `iovCnt_` set. -/
def built (env : ProcessEnv) (c : HttpConn) : HttpConn :=
  let p := env.parse c.request_.Init c.readBuff_
  let r0 :=
    if p.1 then c.response_.Init env.srcDir p.2.1.path_ p.2.1.IsKeepAlive 200
    else c.response_.Init env.srcDir p.2.1.path_ false 400
  let m := env.MakeResponse r0 c.writeBuff_
  { c with request_ := p.2.1, readBuff_ := p.2.2, response_ := m.1, writeBuff_ := m.2,
           iov0 := { iov_base := m.2.Peek, iov_len := m.2.ReadableBytes }, iovCnt_ := 1 }

/-- A connection object taken into use again (`Close`, then `init`) after a
transfer that was cut off with 50000 bytes of a file unsent: `iov_[1]` still
describes those bytes, both buffers are reset, and the first 40 bytes of the
new client have been read. -/
def reused : HttpConn :=
  { sample 0 50000 with
    readBuff_ := { data := 1024, capacity := 1024, readPos_ := 0, writePos_ := 40 } }

end HttpConn

/-! ### The files of a day -/

/-- Two times on the same calendar date: year, month and day agree. -/
def LogTime.sameDate (a b : LogTime) : Bool :=
  decide (a.tm_year = b.tm_year) && decide (a.tm_mon = b.tm_mon)
    && decide (a.tm_mday = b.tm_mday)

namespace Log

/-- The name `<dir>/YYYY_MM_DD<suffix>` of the first file of a day. -/
def dayFile (path suffix : String) (t : LogTime) : String :=
  path ++ "/" ++ dateText t ++ suffix

/-- The name `<dir>/YYYY_MM_DD-k<suffix>` of a later file of a day. -/
def dayFileNo (path suffix : String) (t : LogTime) (k : Int) : String :=
  path ++ "/" ++ dateText t ++ "-" ++ fmtD k ++ suffix

/-- The file number `k` of a day: the first file for 0, `-k` after it. -/
def fileNo (path suffix : String) (t : LogTime) (k : Nat) : String :=
  if k = 0 then dayFile path suffix t else dayFileNo path suffix t (k : Int)

/-- The change of file due before line number `i` of a day (counted from 0) is
written: none unless `i` is a positive multiple of 50000, and then the file of
the lines before is flushed and closed and the file number `i / 50000` is
opened. -/
def rotationAt (path suffix : String) (t : LogTime) (i : Nat) : List FileOp :=
  if i ≠ 0 ∧ i % 50000 = 0 then
    [FileOp.fflush (fileNo path suffix t ((i - 1) / 50000)),
     FileOp.fclose (fileNo path suffix t ((i - 1) / 50000)),
     FileOp.fopen (fileNo path suffix t (i / 50000))]
  else []

/-- A logger between two calls, as `init` and a `write` call of a line of at
most 1024 bytes leave it: the buffer is empty and has its 1024 bytes. -/
def idle (l : Log) : Prop :=
  l.text_ = "" ∧ l.buff_.readPos_ = 0 ∧ l.buff_.writePos_ = 0 ∧ l.buff_.capacity = 1024

/-- A logger in the middle of the day of `t`, after `i` lines of that day: the
line count is `i`, the file open is the one the last line went to, the queue is
there when the logger is asynchronous, and the buffer is empty. -/
def onDay (path suffix : String) (t : LogTime) (i : Nat) (l : Log) : Prop :=
  l.lineCount_ = (i : Int) ∧ l.fp_ = some (fileNo path suffix t ((i - 1) / 50000))
  ∧ l.toDay_ = t.tm_mday ∧ l.path_ = path ∧ l.suffix_ = suffix
  ∧ (l.isAsync_ = true → l.deque_.isSome = true) ∧ l.idle

/-- An asynchronous logger whose writer thread is one line behind: 50000 lines
have been logged on 2024-01-15, the first file is still open, and the last of
the lines is still in the queue. -/
def lagging : Log :=
  { raw.new with
    fp_ := some "./log/2024_01_15.log", path_ := "./log", suffix_ := ".log", toDay_ := 15,
    lineCount_ := 50000, isOpen_ := true, level_ := 1, isAsync_ := true, writeThread_ := true,
    deque_ := some { deq_ := ["2024-01-15 10:20:29.000000 [info] : line 50000\n\x00"],
                     capacity_ := 1000, isClose_ := false } }

end Log

namespace Log

/-- A synchronous logger after 50000 lines on 2024-01-15, the first file
open. -/
def atFirstRotation : Log :=
  { raw.new with
    fp_ := some "./log/2024_01_15.log", path_ := "./log", suffix_ := ".log", toDay_ := 15,
    lineCount_ := 50000, isOpen_ := true, level_ := 1 }

end Log

/-! ## Theorems -/

/-! ### Machine arithmetic inside its range -/

/-- A `size_t` sum that fits is the sum. -/
theorem sizeAdd_of_lt (a b : Nat) (h : a + b < 2 ^ 64) : sizeAdd a b = a + b := by
  unfold sizeAdd SIZE_MOD; omega

/-- A `size_t` difference that does not go below zero is the difference. -/
theorem sizeSub_of_le (a b : Nat) (hb : b ≤ a) (ha : a < 2 ^ 64) : sizeSub a b = a - b := by
  unfold sizeSub SIZE_MOD; omega

/-- Converting a non-negative `ssize_t` to `size_t` keeps its value. -/
theorem toSize_of_range (x : Int) (h0 : 0 ≤ x) (h1 : x < 2 ^ 64) : toSize x = x.toNat := by
  unfold toSize SIZE_MOD
  congr 1
  push_cast
  omega

/-- Converting a `size_t` below `2 ^ 31` to `int` keeps its value. -/
theorem toInt32_of_lt (n : Nat) (h : n < 2 ^ 31) : toInt32 n = n := by
  unfold toInt32
  have h1 : n % 2 ^ 32 = n := by omega
  rw [h1, if_pos (by omega)]

/-- Dropping from a run of consecutive addresses. -/
theorem drop_range' (b : Nat) : ∀ a n : Nat,
    (List.range' a n).drop b = List.range' (a + b) (n - b) := by
  induction b with
  | zero => intro a n; simp
  | succ k ih =>
    intro a n
    cases n with
    | zero => simp
    | succ m =>
      rw [List.range'_succ, List.drop_succ_cons, ih]
      congr 1 <;> omega

/-- Replacing one object changes the number of open objects by the difference
of the two flags. -/
theorem countP_open_set (us : List HttpConn) (i : Nat) (c c1 : HttpConn)
    (h : us[i]? = some c) :
    ((us.set i c1).countP (fun c => !c.isClose_) : Int)
      = (us.countP (fun c => !c.isClose_) : Int)
        - (if c.isClose_ then 0 else 1) + (if c1.isClose_ then 0 else 1) := by
  induction us generalizing i with
  | nil => simp at h
  | cons x xs ih =>
    cases i with
    | zero =>
      simp only [List.getElem?_cons_zero, Option.some.injEq] at h
      subst h
      simp only [List.set_cons_zero, List.countP_cons]
      cases hx : x.isClose_ <;> cases hc : c1.isClose_ <;> simp
    | succ j =>
      simp only [List.getElem?_cons_succ] at h
      have := ih j h
      simp only [List.set_cons_succ, List.countP_cons]
      push_cast
      rw [this]
      ring

/-! ### C1: `userCount` and the open objects -/

/-- One disciplined call keeps `userCount` equal to the number of open
objects. -/
theorem call_keeps_count (w : Conns) (op : ConnCall)
    (hinv : w.userCount = (w.openCount : Int))
    (hd : w.disciplined [op] = true) :
    ∃ w1, w.call op = some w1 ∧ w1.userCount = (w1.openCount : Int) := by
  cases op with
  | init i fd addr =>
    simp only [Conns.disciplined, Conns.call] at hd ⊢
    cases hi : w.users[i]? with
    | none => simp [hi] at hd
    | some c =>
      simp only [hi, Bool.and_eq_true, decide_eq_true_eq] at hd
      obtain ⟨⟨hc, hfd⟩, -⟩ := hd
      simp only [HttpConn.init, hfd, if_true]
      refine ⟨_, rfl, ?_⟩
      simp only [Conns.openCount]
      rw [countP_open_set w.users i c _ hi]
      simp only [Conns.openCount] at hinv
      simp [hc, hinv]
  | Close i =>
    simp only [Conns.disciplined, Conns.call] at hd ⊢
    cases hi : w.users[i]? with
    | none => simp [hi] at hd
    | some c =>
      refine ⟨_, rfl, ?_⟩
      simp only [Conns.openCount]
      rw [countP_open_set w.users i c _ hi]
      simp only [Conns.openCount] at hinv
      cases hc : c.isClose_ <;> simp [HttpConn.Close, HttpResponse.UnmapFile, hc, hinv]

/-- A disciplined sequence of calls runs to its end and keeps `userCount` equal
to the number of open objects. -/
theorem run_keeps_count (ops : List ConnCall) (w : Conns)
    (hinv : w.userCount = (w.openCount : Int))
    (hd : w.disciplined ops = true) :
    ∃ w1, w.run ops = some w1 ∧ w1.userCount = (w1.openCount : Int) := by
  induction ops generalizing w with
  | nil => exact ⟨w, rfl, hinv⟩
  | cons op ops ih =>
    have hd1 : w.disciplined [op] = true := by
      simp only [Conns.disciplined, Bool.and_eq_true] at hd ⊢
      refine ⟨hd.1, ?_⟩
      cases hc : w.call op <;> rfl
    obtain ⟨w1, hcall, hinv1⟩ := call_keeps_count w op hinv hd1
    have hd2 : w1.disciplined ops = true := by
      simp only [Conns.disciplined, Bool.and_eq_true, hcall] at hd
      exact hd.2
    obtain ⟨w2, hrun, hinv2⟩ := ih w1 hinv1 hd2
    exact ⟨w2, by simp [Conns.run, hcall, hrun], hinv2⟩

/-- C1, as stated, fails: on one freshly constructed object, two `init` calls
with no `Close` between them leave `userCount` at 2 while one object is
open. -/
theorem userCount_counterexample :
    ∃ w, (Conns.start [Conns.raw]).run
        [ConnCall.init 0 5 { sin_addr := 1, sin_port := 80 },
         ConnCall.init 0 5 { sin_addr := 1, sin_port := 80 }] = some w
      ∧ w.userCount = 2 ∧ w.openCount = 1 ∧ w.userCount ≠ (w.openCount : Int) := by
  refine ⟨_, rfl, ?_, ?_, ?_⟩ <;> decide

/-- C1, amended: for every set of connection objects (each constructed closed,
the counter starting at 0) and every sequence of `init` and `Close` calls on
them in which `init` is only called on an object whose closed flag is set (with
a positive descriptor), the sequence runs to its end and `userCount` equals the
number of objects whose closed flag is false. -/
theorem userCount_eq_openCount (mem : List HttpConn) (ops : List ConnCall)
    (hd : (Conns.start mem).disciplined ops = true) :
    ∃ w, (Conns.start mem).run ops = some w ∧ w.userCount = (w.openCount : Int) := by
  apply run_keeps_count ops (Conns.start mem) _ hd
  have h0 : (Conns.start mem).openCount = 0 := by
    simp only [Conns.start, Conns.openCount]
    induction mem with
    | nil => rfl
    | cons x xs ih => simp [List.countP_cons, HttpConn.new, ih]
  rw [h0]
  rfl

/-- C1, amended, at a concrete run: two objects, the first opened, closed and
opened again, the second opened. -/
theorem userCount_eq_openCount_witness :
    (Conns.start [Conns.raw, Conns.raw]).disciplined
        [ConnCall.init 0 5 { sin_addr := 1, sin_port := 80 }, ConnCall.Close 0,
         ConnCall.init 0 6 { sin_addr := 1, sin_port := 80 },
         ConnCall.init 1 7 { sin_addr := 2, sin_port := 81 }] = true
    ∧ ∃ w, (Conns.start [Conns.raw, Conns.raw]).run
        [ConnCall.init 0 5 { sin_addr := 1, sin_port := 80 }, ConnCall.Close 0,
         ConnCall.init 0 6 { sin_addr := 1, sin_port := 80 },
         ConnCall.init 1 7 { sin_addr := 2, sin_port := 81 }] = some w
      ∧ w.userCount = (w.openCount : Int) :=
  ⟨by decide, userCount_eq_openCount [Conns.raw, Conns.raw] _ (by decide)⟩

/-! ### C2: one pass of `write` -/

/-- One pass of the loop of `write` in which `writev` reports `len` with
`0 < len <= iov_[0].iov_len + iov_[1].iov_len` (the two lengths being those of
two regions of one address space): the header vector drains first, the file
vector advances by the rest, no `size_t` subtraction wraps, the sum of the two
lengths drops by exactly `len`, and the vectors describe exactly the addresses
not yet sent. -/
theorem advance_vectors (c : HttpConn) (len : Int)
    (hsum : c.iov0.iov_len + c.iov1.iov_len < 2 ^ 64)
    (hpos : 0 < len) (hle : len ≤ (c.iov0.iov_len + c.iov1.iov_len : Nat)) :
    (c.advance len).iov0.iov_len = c.iov0.iov_len - min len.toNat c.iov0.iov_len
    ∧ (c.advance len).iov1.iov_base
        = c.iov1.iov_base + (len.toNat - min len.toNat c.iov0.iov_len)
    ∧ (c.advance len).iov1.iov_len
        = c.iov1.iov_len - (len.toNat - min len.toNat c.iov0.iov_len)
    ∧ len.toNat - min len.toNat c.iov0.iov_len ≤ c.iov1.iov_len
    ∧ (c.advance len).iov0.iov_len + (c.advance len).iov1.iov_len + len.toNat
        = c.iov0.iov_len + c.iov1.iov_len
    ∧ (c.advance len).unsent = c.unsent.drop len.toNat := by
  obtain ⟨n, rfl⟩ : ∃ n : Nat, len = (n : Int) := ⟨len.toNat, by omega⟩
  have hn : toSize (n : Int) = n := by
    rw [toSize_of_range (n : Int) (by omega) (by omega)]; rfl
  obtain ⟨fd, addr, cl, cnt, ⟨b0, l0⟩, ⟨b1, l1⟩, rb, wb, rq, rs⟩ := c
  simp only [Int.toNat_ofNat] at *
  have hl : n ≤ l0 + l1 := by omega
  have hlp : 0 < n := by omega
  unfold HttpConn.advance
  simp only [hn]
  by_cases hgt : n > l0
  · have hd : sizeSub n l0 = n - l0 := sizeSub_of_le _ _ (by omega) (by omega)
    have hd1 : sizeSub l1 (n - l0) = l1 - (n - l0) := sizeSub_of_le _ _ (by omega) (by omega)
    have hmin : min n l0 = l0 := by omega
    simp only [hgt, if_true, hd, hd1, hmin]
    by_cases h0 : l0 = 0
    · subst h0
      simp only [ne_eq, not_true_eq_false, if_false, HttpConn.unsent, HttpConn.span]
      refine ⟨trivial, trivial, trivial, by omega, by omega, ?_⟩
      simp only [List.range'_zero, List.nil_append, drop_range']
      congr 1
    · simp only [ne_eq, h0, not_false_eq_true, if_true, HttpConn.unsent, HttpConn.span]
      refine ⟨by omega, trivial, trivial, by omega, by omega, ?_⟩
      rw [List.drop_append_eq_append_drop, drop_range', drop_range', List.length_range']
      have hz : l0 - n = 0 := by omega
      simp [hz]
  · have hd : sizeSub l0 n = l0 - n := sizeSub_of_le _ _ (by omega) (by omega)
    have hmin : min n l0 = n := by omega
    simp only [hgt, if_false, hd, hmin, HttpConn.unsent, HttpConn.span]
    refine ⟨trivial, by omega, by omega, by omega, by omega, ?_⟩
    rw [List.drop_append_of_le_length (by rw [List.length_range']; omega), drop_range']

/-- One pass of the loop of `write`, seen through `ToWriteBytes()`: when fewer
than `2 ^ 31` bytes are left before the pass, the value of `ToWriteBytes()`
drops by exactly `len`. -/
theorem ToWriteBytes_advance (c : HttpConn) (len : Int)
    (hsum : c.iov0.iov_len + c.iov1.iov_len < 2 ^ 31)
    (hpos : 0 < len) (hle : len ≤ (c.iov0.iov_len + c.iov1.iov_len : Nat)) :
    (c.advance len).ToWriteBytes = c.ToWriteBytes - len := by
  have h := (advance_vectors c len (by omega) hpos hle).2.2.2.2.1
  unfold HttpConn.ToWriteBytes
  rw [sizeAdd_of_lt _ _ (by omega), sizeAdd_of_lt _ _ (by omega),
    toInt32_of_lt _ (by omega), toInt32_of_lt _ (by omega)]
  omega

/-- C2 at a response of 100 header bytes and a file of `2 ^ 31` bytes, when the
first `writev` reports 200 bytes: the vectors advance as they should (header
drained, 100 file bytes gone), but `ToWriteBytes()` goes from -2147483548 to
2147483548; it does not drop by 200. -/
theorem ToWriteBytes_pass_large_file :
    ((HttpConn.sample 100 (2 ^ 31)).advance 200).iov0.iov_len = 0
    ∧ ((HttpConn.sample 100 (2 ^ 31)).advance 200).iov1.iov_len = 2 ^ 31 - 100
    ∧ (HttpConn.sample 100 (2 ^ 31)).ToWriteBytes = -2147483548
    ∧ ((HttpConn.sample 100 (2 ^ 31)).advance 200).ToWriteBytes = 2147483548
    ∧ ((HttpConn.sample 100 (2 ^ 31)).advance 200).ToWriteBytes
        ≠ (HttpConn.sample 100 (2 ^ 31)).ToWriteBytes - 200 := by
  decide

/-! ### C3: the result of `process` -/

/-- C3: `process` returns false exactly when the read buffer has no readable
bytes on entry, and then leaves the response and the write buffer as they
were; otherwise it returns true, and the response and write buffer it leaves
are those `MakeResponse` built from a response initialised with code 200 and
the keep-alive flag of the parsed request when the parser returned true, with
code 400 and keep-alive false when the parser returned false. The parser is run
on the read buffer. -/
theorem process_result (env : ProcessEnv) (c : HttpConn) :
    ((c.process env).1 = false ↔ c.readBuff_.ReadableBytes = 0)
    ∧ (c.readBuff_.ReadableBytes = 0 →
        (c.process env).2.response_ = c.response_
        ∧ (c.process env).2.writeBuff_ = c.writeBuff_)
    ∧ (c.readBuff_.ReadableBytes ≠ 0 →
        (c.process env).1 = true
        ∧ ∃ r0 : HttpResponse,
            r0.code_ = (if (env.parse c.request_.Init c.readBuff_).1 then 200 else 400)
            ∧ r0.isKeepAlive_
                = ((env.parse c.request_.Init c.readBuff_).1
                    && (env.parse c.request_.Init c.readBuff_).2.1.IsKeepAlive)
            ∧ r0.path_ = (env.parse c.request_.Init c.readBuff_).2.1.path_
            ∧ r0.srcDir_ = env.srcDir
            ∧ (c.process env).2.response_ = (env.MakeResponse r0 c.writeBuff_).1
            ∧ (c.process env).2.writeBuff_ = (env.MakeResponse r0 c.writeBuff_).2) := by
  refine ⟨?_, ?_, ?_⟩
  · unfold HttpConn.process
    by_cases h : c.readBuff_.ReadableBytes = 0
    · simp [h]
    · have h1 : ¬ c.readBuff_.ReadableBytes ≤ 0 := by omega
      simp [h, h1]
  · intro h
    unfold HttpConn.process
    simp [h]
  · intro h
    have h1 : ¬ c.readBuff_.ReadableBytes ≤ 0 := by omega
    unfold HttpConn.process
    simp only [h1, if_false, true_and]
    cases hp : (env.parse c.request_.Init c.readBuff_).1
    · refine ⟨c.response_.Init env.srcDir
        (env.parse c.request_.Init c.readBuff_).2.1.path_ false 400, ?_⟩
      simp only [hp, Bool.false_eq_true, if_false, Bool.false_and, HttpResponse.Init, true_and]
      constructor <;> split <;> rfl
    · refine ⟨c.response_.Init env.srcDir
        (env.parse c.request_.Init c.readBuff_).2.1.path_
        (env.parse c.request_.Init c.readBuff_).2.1.IsKeepAlive 200, ?_⟩
      simp only [hp, if_true, Bool.true_and, HttpResponse.Init, true_and]
      constructor <;> split <;> rfl

/-! ### C4: the parser state across two `process` calls -/

/-- C4 on the code: whatever request state `r` an earlier `process` call left
(phase, method, path, version, headers), the next `process` call gives the same
result as on any other state `r0`; when there is data to parse, the parser is
started on the initial state (phase REQUEST_LINE, everything else empty) and
not on `r`. -/
theorem process_forgets_request (env : ProcessEnv) (c : HttpConn) (r r0 : HttpRequest) :
    ({ c with request_ := r }).process env = ({ c with request_ := r0 }).process env
    ∧ (c.readBuff_.ReadableBytes ≠ 0 →
        (({ c with request_ := r }).process env).2.request_
          = (env.parse
              { state_ := PARSE_STATE.REQUEST_LINE, method_ := "", path_ := "",
                version_ := "", body_ := "", header_ := [], post_ := [] }
              c.readBuff_).2.1) := by
  refine ⟨rfl, ?_⟩
  intro h
  have h1 : ¬ c.readBuff_.ReadableBytes ≤ 0 := by omega
  unfold HttpConn.process
  simp only [h1, if_false, HttpRequest.Init]
  split <;> split <;> rfl

/-! ### C5 and C6: when the loop of `write` is left -/

/-- One pass of the loop of `write` that sends `len` bytes, `0 < len` and `len`
at most the bytes left: the loop goes on to the next `writev` call when
`isET || ToWriteBytes() > 10240` holds after the update, and returns `len`
without storing an errno otherwise. -/
theorem writeLoop_pass (isET : Bool) (env : WriteEnv) (fuel k : Nat) (c : HttpConn) (len : Int)
    (hsum : c.iov0.iov_len + c.iov1.iov_len < 2 ^ 64)
    (hpos : 0 < len) (hle : len ≤ (c.iov0.iov_len + c.iov1.iov_len : Nat))
    (hw : env.writev k c.passed = len) :
    HttpConn.writeLoop isET env (fuel + 1) k c
      = if isET || decide ((c.advance len).ToWriteBytes > 10240)
        then HttpConn.writeLoop isET env fuel (k + 1) (c.advance len)
        else some { ret := len, savedErrno := none, calls := k + 1, conn := c.advance len } := by
  have h1 : ¬ len ≤ 0 := by omega
  have h2 : sizeAdd c.iov0.iov_len c.iov1.iov_len ≠ 0 := by
    rw [sizeAdd_of_lt _ _ hsum]; omega
  simp only [HttpConn.writeLoop, hw, h1, h2, if_false]

/-- The last bytes in level-triggered mode: when a `writev` call sends all the
bytes left, `write` returns its count after that one call and stores no
errno. -/
theorem write_LT_last_bytes (env : WriteEnv) (fuel : Nat) (c : HttpConn)
    (hsum : c.iov0.iov_len + c.iov1.iov_len < 2 ^ 64)
    (hpos : 0 < c.iov0.iov_len + c.iov1.iov_len)
    (hw : env.writev 0 c.passed = (c.iov0.iov_len + c.iov1.iov_len : Nat)) :
    c.write false env (fuel + 1)
      = some { ret := (c.iov0.iov_len + c.iov1.iov_len : Nat), savedErrno := none, calls := 1,
               conn := c.advance (c.iov0.iov_len + c.iov1.iov_len : Nat) } := by
  have hv := advance_vectors c (c.iov0.iov_len + c.iov1.iov_len : Nat) hsum (by omega) le_rfl
  have hz : (c.advance (c.iov0.iov_len + c.iov1.iov_len : Nat)).ToWriteBytes = 0 := by
    unfold HttpConn.ToWriteBytes
    have h5 := hv.2.2.2.2.1
    simp only [Int.toNat_ofNat] at h5
    rw [sizeAdd_of_lt _ _ (by omega)]
    have : (c.advance (c.iov0.iov_len + c.iov1.iov_len : Nat)).iov0.iov_len
        + (c.advance (c.iov0.iov_len + c.iov1.iov_len : Nat)).iov1.iov_len = 0 := by omega
    rw [this]; rfl
  unfold HttpConn.write
  rw [writeLoop_pass false env fuel 0 c _ hsum (by omega) le_rfl hw, hz]
  rfl

/-- The last bytes in edge-triggered mode: when a `writev` call sends all the
bytes left, `write` makes one more `writev` call, on vectors of length zero,
and returns what that second call returns. -/
theorem write_ET_last_bytes (env : WriteEnv) (fuel : Nat) (c : HttpConn)
    (hsum : c.iov0.iov_len + c.iov1.iov_len < 2 ^ 64)
    (hpos : 0 < c.iov0.iov_len + c.iov1.iov_len)
    (hw : env.writev 0 c.passed = (c.iov0.iov_len + c.iov1.iov_len : Nat)) :
    ∃ r, c.write true env (fuel + 2) = some r ∧ r.calls = 2
      ∧ r.ret = env.writev 1 (c.advance (c.iov0.iov_len + c.iov1.iov_len : Nat)).passed
      ∧ (r.ret ≤ 0 → r.savedErrno = some (env.errno 1)) := by
  have hv := advance_vectors c (c.iov0.iov_len + c.iov1.iov_len : Nat) hsum (by omega) le_rfl
  have h5 := hv.2.2.2.2.1
  simp only [Int.toNat_ofNat] at h5
  have hz : sizeAdd (c.advance (c.iov0.iov_len + c.iov1.iov_len : Nat)).iov0.iov_len
      (c.advance (c.iov0.iov_len + c.iov1.iov_len : Nat)).iov1.iov_len = 0 := by
    rw [sizeAdd_of_lt _ _ (by omega)]; omega
  unfold HttpConn.write
  rw [writeLoop_pass true env (fuel + 1) 0 c _ hsum (by omega) le_rfl hw]
  simp only [Bool.true_or, if_true, HttpConn.writeLoop, hz]
  split
  · exact ⟨_, rfl, rfl, rfl, fun _ => rfl⟩
  · rename_i hn
    exact ⟨_, rfl, rfl, rfl, fun h => absurd h hn⟩

/-- C5 on the code, edge-triggered mode, a response of 5 header bytes and no
file, a socket that takes all it is given: the first `writev` sends the 5
bytes; `write` then calls `writev` a second time, returns that call's 0 and
stores its errno. In level-triggered mode the same input ends after the first
call with 5 and no stored errno. -/
theorem write_ET_last_bytes_eval :
    ((HttpConn.sample 5 0).write true (WriteEnv.sendAtMost 1000) 3).map
        (fun r => (r.ret, r.savedErrno, r.calls, r.conn.iov0.iov_len, r.conn.iov1.iov_len))
      = some (0, some 11, 2, 0, 0)
    ∧ ((HttpConn.sample 5 0).write false (WriteEnv.sendAtMost 1000) 3).map
        (fun r => (r.ret, r.savedErrno, r.calls, r.conn.iov0.iov_len, r.conn.iov1.iov_len))
      = some (5, none, 1, 0, 0) := by
  decide

/-- The threshold of the level-triggered loop, for fewer than `2 ^ 31` bytes
left: after a pass that sends `len` bytes and leaves `r` bytes, the next
`writev` call is made when `r > 10240`, and `write` returns when
`r <= 10240`. -/
theorem write_LT_threshold (env : WriteEnv) (fuel k : Nat) (c : HttpConn) (len : Int) (r : Nat)
    (hsum : c.iov0.iov_len + c.iov1.iov_len < 2 ^ 64)
    (hpos : 0 < len) (hle : len ≤ (c.iov0.iov_len + c.iov1.iov_len : Nat))
    (hw : env.writev k c.passed = len)
    (hr : (r : Int) = (c.iov0.iov_len + c.iov1.iov_len : Nat) - len)
    (hsmall : r < 2 ^ 31) :
    (10240 < r →
      HttpConn.writeLoop false env (fuel + 1) k c
        = HttpConn.writeLoop false env fuel (k + 1) (c.advance len))
    ∧ (r ≤ 10240 →
      HttpConn.writeLoop false env (fuel + 1) k c
        = some { ret := len, savedErrno := none, calls := k + 1, conn := c.advance len }) := by
  have hv := (advance_vectors c len hsum hpos hle).2.2.2.2.1
  have ht : (c.advance len).ToWriteBytes = r := by
    unfold HttpConn.ToWriteBytes
    rw [sizeAdd_of_lt _ _ (by omega), toInt32_of_lt _ (by omega)]
    omega
  rw [writeLoop_pass false env fuel k c len hsum hpos hle hw, ht]
  constructor
  · intro h
    have : ((r : Int) > 10240) := by omega
    simp [this]
  · intro h
    have : ¬ ((r : Int) > 10240) := by omega
    simp [this]

/-- C6 on the code, level-triggered mode, a response of 100 header bytes and a
file of `2 ^ 31` bytes, a socket that takes 50 bytes a call: the first pass
leaves `2 ^ 31 + 50` bytes unsent, more than 10240, and `write` returns after
that one `writev` call, `ToWriteBytes()` being negative. -/
theorem write_LT_large_file_eval :
    ((HttpConn.sample 100 (2 ^ 31)).write false (WriteEnv.sendAtMost 50) 5).map
        (fun r => (r.ret, r.savedErrno, r.calls,
                   r.conn.iov0.iov_len + r.conn.iov1.iov_len, r.conn.ToWriteBytes))
      = some (50, none, 1, 2 ^ 31 + 50, -2147483598)
    ∧ 10240 < 2 ^ 31 + 50 := by
  decide

/-! ### C7: `read` -/

/-- The edge-triggered loop of `read` started at call number `k`: when the
results from `k` on are positive up to, and not at, call `k + d`, and the fuel
exceeds `d`, the loop ends at call `k + d` and returns its result. -/
theorem readLoop_ET_first_nonpos (env : ReadEnv) (d : Nat) :
    ∀ (k fuel : Nat) (c : HttpConn),
      (∀ j, j < d → 0 < env.result (k + j)) → env.result (k + d) ≤ 0 → d < fuel →
      ∃ r, HttpConn.readLoop true env fuel k c = some r
        ∧ r.ret = env.result (k + d) ∧ r.calls = k + d + 1 := by
  induction d with
  | zero =>
    intro k fuel c _ hk hf
    obtain ⟨f, rfl⟩ : ∃ f, fuel = f + 1 := ⟨fuel - 1, by omega⟩
    have hk0 : env.result k ≤ 0 := by simpa using hk
    have h : HttpConn.readLoop true env (f + 1) k c
        = some { ret := env.result k, calls := k + 1,
                 conn := { c with readBuff_ := env.effect k c.readBuff_ } } := by
      simp only [HttpConn.readLoop, hk0, if_true]
    exact ⟨_, h, rfl, rfl⟩
  | succ n ih =>
    intro k fuel c hpos hk hf
    obtain ⟨f, rfl⟩ : ∃ f, fuel = f + 1 := ⟨fuel - 1, by omega⟩
    have h0 : ¬ env.result k ≤ 0 := by
      have := hpos 0 (by omega)
      simp only [Nat.add_zero] at this
      omega
    have hstep : HttpConn.readLoop true env (f + 1) k c
        = HttpConn.readLoop true env f (k + 1)
            { c with readBuff_ := env.effect k c.readBuff_ } := by
      simp only [HttpConn.readLoop, h0, if_false, if_true]
    obtain ⟨r, hr, hret, hcalls⟩ := ih (k + 1) f { c with readBuff_ := env.effect k c.readBuff_ }
      (fun j hj => by
        have := hpos (j + 1) (by omega)
        rwa [show k + 1 + j = k + (j + 1) by omega])
      (by rwa [show k + 1 + n = k + (n + 1) by omega])
      (by omega)
    refine ⟨r, by rw [hstep, hr], ?_, ?_⟩
    · rw [hret]; congr 1; omega
    · rw [hcalls]; omega

/-- Whatever the edge-triggered loop of `read` returns is not positive. -/
theorem readLoop_ET_ret_nonpos (env : ReadEnv) (fuel : Nat) :
    ∀ (k : Nat) (c : HttpConn) (r : ReadResult),
      HttpConn.readLoop true env fuel k c = some r → r.ret ≤ 0 := by
  induction fuel with
  | zero => intro k c r h; simp [HttpConn.readLoop] at h
  | succ f ih =>
    intro k c r h
    by_cases h0 : env.result k ≤ 0
    · simp only [HttpConn.readLoop, h0, if_true, Option.some.injEq] at h
      rw [← h]; exact h0
    · simp only [HttpConn.readLoop, h0, if_false, if_true] at h
      exact ih _ _ _ h

/-- C7: for every sequence `env.result` of `ReadFd` results: in level-triggered
mode `read` calls `ReadFd` once and returns its result; in edge-triggered mode,
`k` being the first call whose result is `<= 0`, `read` makes the `k + 1` calls
up to that one and returns its result; and no value returned in edge-triggered
mode is positive. -/
theorem read_result (env : ReadEnv) (c : HttpConn) :
    (∀ fuel, 0 < fuel →
      ∃ r, c.read false env fuel = some r ∧ r.ret = env.result 0 ∧ r.calls = 1)
    ∧ (∀ k fuel, (∀ j, j < k → 0 < env.result j) → env.result k ≤ 0 → k < fuel →
      ∃ r, c.read true env fuel = some r ∧ r.ret = env.result k ∧ r.calls = k + 1)
    ∧ (∀ (n : Nat) (r : ReadResult), c.read true env n = some r → r.ret ≤ 0) := by
  refine ⟨?_, ?_, ?_⟩
  · intro fuel hfuel
    obtain ⟨f, rfl⟩ : ∃ f, fuel = f + 1 := ⟨fuel - 1, by omega⟩
    unfold HttpConn.read
    have h : HttpConn.readLoop false env (f + 1) 0 c
        = some { ret := env.result 0, calls := 1,
                 conn := { c with readBuff_ := env.effect 0 c.readBuff_ } } := by
      by_cases h0 : env.result 0 ≤ 0
      · simp only [HttpConn.readLoop, h0, if_true]
      · simp only [HttpConn.readLoop, h0, if_false, Bool.false_eq_true]
    exact ⟨_, h, rfl, rfl⟩
  · intro k fuel hpos hk hfuel
    obtain ⟨r, hr, hret, hcalls⟩ := readLoop_ET_first_nonpos env k 0 fuel c
      (fun j hj => by simpa using hpos j hj) (by simpa using hk) hfuel
    exact ⟨r, hr, by simpa using hret, by simpa using hcalls⟩
  · intro n r h
    exact readLoop_ET_ret_nonpos env n 0 c r h

/-- C7 at a socket with three batches of data (results 100, 40, 7, -1): one
call and 100 in level-triggered mode, four calls and -1 in edge-triggered
mode. -/
theorem read_result_witness :
    (∃ r, (HttpConn.sample 0 0).read false ReadEnv.threeBatches 4 = some r
        ∧ r.ret = 100 ∧ r.calls = 1)
    ∧ (∃ r, (HttpConn.sample 0 0).read true ReadEnv.threeBatches 4 = some r
        ∧ r.ret = -1 ∧ r.calls = 4) :=
  ⟨(read_result ReadEnv.threeBatches (HttpConn.sample 0 0)).1 4 (by decide),
   (read_result ReadEnv.threeBatches (HttpConn.sample 0 0)).2.1 3 4 (by decide) (by decide)
     (by decide)⟩

/-! ### C8: `Close` twice -/

/-- C8: for every connection state and counter value, a second `Close` changes
nothing: the object (its closed flag included) and `userCount` are as after the
first call, the second call closes no descriptor, the two calls together close
at most one descriptor and lower the counter by at most one. -/
theorem Close_idempotent (c : HttpConn) (u : Int) :
    ((c.Close u).conn.Close (c.Close u).userCount).conn = (c.Close u).conn
    ∧ ((c.Close u).conn.Close (c.Close u).userCount).conn.isClose_ = true
    ∧ ((c.Close u).conn.Close (c.Close u).userCount).userCount = (c.Close u).userCount
    ∧ ((c.Close u).conn.Close (c.Close u).userCount).closed = []
    ∧ ((c.Close u).closed ++ ((c.Close u).conn.Close (c.Close u).userCount).closed).length ≤ 1
    ∧ u - 1 ≤ ((c.Close u).conn.Close (c.Close u).userCount).userCount
    ∧ ((c.Close u).conn.Close (c.Close u).userCount).userCount ≤ u := by
  cases h : c.isClose_ <;>
    simp [HttpConn.Close, HttpResponse.UnmapFile, h]

/-! ### C9: handles in use plus free handles -/

/-- The loop of `Init`, when it ends, has pushed one handle per iteration. -/
theorem initLoop_length (env : MySqlEnv) (r : Nat) :
    ∀ (i : Nat) (q q1 : List Nat),
      SqlConnPool.initLoop env r i q = some q1 → q1.length = q.length + r := by
  induction r with
  | zero =>
    intro i q q1 h
    simp only [SqlConnPool.initLoop, Option.some.injEq] at h
    rw [← h]; rfl
  | succ n ih =>
    intro i q q1 h
    by_cases h0 : env.mysql_init i = 0
    · simp [SqlConnPool.initLoop, h0] at h
    · simp only [SqlConnPool.initLoop, h0, if_false] at h
      rw [ih _ _ _ h, List.length_append, List.length_singleton]
      omega

/-- One call that respects the discipline neither blocks nor fails, and keeps
the pool balanced. -/
theorem call_keeps_balance (size : Nat) (s : PoolUse) (op : PoolCall)
    (hb : s.balanced size) (ho : s.onlyHeld [op] = true) :
    ∃ s1, s.call op = some s1 ∧ s1.balanced size := by
  obtain ⟨⟨mx, uc, fc, q, sem⟩, held⟩ := s
  obtain ⟨h1, h2, h3⟩ := hb
  simp only at h1 h2 h3
  cases op with
  | GetConn =>
    cases q with
    | nil =>
      refine ⟨_, rfl, ?_⟩
      simp only [PoolUse.balanced, if_true]
      exact ⟨h1, h2, h3⟩
    | cons x rest =>
      have hs : sem ≠ 0 := by rw [h3]; simp
      refine ⟨{ pool := { MAX_CONN_ := mx, useCount_ := uc + 1, freeCount_ := fc - 1,
                          connQue_ := rest, semId_ := sem - 1 },
                held := x :: held }, ?_, ?_⟩
      · simp [PoolUse.call, SqlConnPool.GetConn, hs]
      · simp only [PoolUse.balanced, List.length_cons] at h2 h3 ⊢
        refine ⟨?_, ?_, ?_⟩
        · push_cast; omega
        · omega
        · omega
  | FreeConn sql =>
    simp only [PoolUse.onlyHeld, Bool.and_eq_true, decide_eq_true_eq] at ho
    obtain ⟨⟨hne, hmem⟩, -⟩ := ho
    refine ⟨{ pool := { MAX_CONN_ := mx, useCount_ := uc - 1, freeCount_ := fc + 1,
                        connQue_ := q ++ [sql], semId_ := sem + 1 },
              held := held.erase sql }, ?_, ?_⟩
    · simp [PoolUse.call, SqlConnPool.FreeConn, hne]
    · have hlen : (held.erase sql).length = held.length - 1 := List.length_erase_of_mem hmem
      have hpos : 0 < held.length := List.length_pos_of_mem hmem
      simp only [PoolUse.balanced, List.length_append, List.length_singleton, hlen]
      refine ⟨?_, ?_, ?_⟩
      · omega
      · omega
      · omega

/-- A sequence of calls that respects the discipline runs to its end and keeps
the pool balanced. -/
theorem run_keeps_balance (size : Nat) (ops : List PoolCall) :
    ∀ s : PoolUse, s.balanced size → s.onlyHeld ops = true →
      ∃ s1, s.run ops = some s1 ∧ s1.balanced size := by
  induction ops with
  | nil => intro s hb _; exact ⟨s, rfl, hb⟩
  | cons op ops ih =>
    intro s hb ho
    have ho1 : s.onlyHeld [op] = true := by
      simp only [PoolUse.onlyHeld, Bool.and_eq_true] at ho ⊢
      refine ⟨ho.1, ?_⟩
      cases hc : s.call op <;> rfl
    obtain ⟨s1, hcall, hb1⟩ := call_keeps_balance size s op hb ho1
    have ho2 : s1.onlyHeld ops = true := by
      simp only [PoolUse.onlyHeld, Bool.and_eq_true, hcall] at ho
      exact ho.2
    obtain ⟨s2, hrun, hb2⟩ := ih s1 hb1 ho2
    exact ⟨s2, by simp [PoolUse.run, hcall, hrun], hb2⟩

/-- C9: after one `Init(connSize)` on a constructed pool (no `ClosePool`), for
every sequence of `GetConn` and `FreeConn` calls in which `FreeConn` is only
given handles currently held, no call blocks or fails, and afterwards
`useCount_` plus `GetFreeConnCount()` equals `connSize`. -/
theorem pool_used_plus_free (p0 p : SqlConnPool) (env : MySqlEnv) (connSize : Int)
    (ops : List PoolCall)
    (hint : connSize < 2 ^ 31)
    (hinit : p0.new.Init env connSize = some p)
    (hheld : ({ pool := p, held := [] } : PoolUse).onlyHeld ops = true) :
    ∃ s, ({ pool := p, held := [] } : PoolUse).run ops = some s
      ∧ s.pool.useCount_ + s.pool.GetFreeConnCount = connSize := by
  have hpos : connSize > 0 := by
    by_contra hc
    simp [SqlConnPool.Init, hc] at hinit
  simp only [SqlConnPool.Init, hpos, if_true, SqlConnPool.new] at hinit
  cases hq : SqlConnPool.initLoop env connSize.toNat 0 [] with
  | none => simp [hq] at hinit
  | some q =>
    simp only [hq, Option.some.injEq] at hinit
    have hlen := initLoop_length env connSize.toNat 0 [] q hq
    simp only [List.length_nil, Nat.zero_add] at hlen
    have hb : ({ pool := p, held := [] } : PoolUse).balanced connSize.toNat := by
      rw [← hinit]
      simp only [PoolUse.balanced, List.length_nil, Nat.zero_add]
      exact ⟨rfl, hlen, hlen.symm⟩
    obtain ⟨s, hrun, h1, h2, -⟩ := run_keeps_balance connSize.toNat ops _ hb hheld
    refine ⟨s, hrun, ?_⟩
    have hq31 : s.pool.connQue_.length < 2 ^ 31 := by omega
    have hmod : s.pool.connQue_.length % SIZE_MOD = s.pool.connQue_.length := by
      unfold SIZE_MOD; omega
    unfold SqlConnPool.GetFreeConnCount
    rw [hmod, toInt32_of_lt _ hq31, h1]
    omega

/-- C9 at a pool of 3 handles: two taken, one given back, one more taken, then
both given back. -/
theorem pool_used_plus_free_witness :
    SqlConnPool.raw.new.Init MySqlEnv.allConnect 3
      = some { MAX_CONN_ := 3, useCount_ := 0, freeCount_ := 0,
               connQue_ := [1000, 1001, 1002], semId_ := 3 }
    ∧ ∃ s, ({ pool := { MAX_CONN_ := 3, useCount_ := 0, freeCount_ := 0,
                        connQue_ := [1000, 1001, 1002], semId_ := 3 },
              held := [] } : PoolUse).run
          [PoolCall.GetConn, PoolCall.GetConn, PoolCall.FreeConn 1000, PoolCall.GetConn,
           PoolCall.FreeConn 1001, PoolCall.FreeConn 1002] = some s
      ∧ s.pool.useCount_ + s.pool.GetFreeConnCount = 3 :=
  ⟨by decide,
   pool_used_plus_free SqlConnPool.raw _ MySqlEnv.allConnect 3 _ (by decide) (by decide)
     (by decide)⟩

/-! ### C10: `GetConn` on an empty queue -/

/-- C10: `GetConn` called when the free queue is empty returns the null handle
without a `sem_wait` call, and leaves the pool (queue, semaphore value, use and
free counters) as it was. -/
theorem GetConn_empty (p : SqlConnPool) (h : p.connQue_ = []) :
    p.GetConn = some { sql := 0, pool := p, semWaits := 0 } := by
  unfold SqlConnPool.GetConn
  rw [h]

/-- C10 at a pool of one handle whose handle is taken: the second `GetConn`
finds the queue empty. -/
theorem GetConn_empty_witness :
    ({ MAX_CONN_ := 1, useCount_ := 1, freeCount_ := -1, connQue_ := [], semId_ := 0 }
        : SqlConnPool).connQue_ = []
    ∧ ({ MAX_CONN_ := 1, useCount_ := 1, freeCount_ := -1, connQue_ := [], semId_ := 0 }
        : SqlConnPool).GetConn
      = some { sql := 0,
               pool := { MAX_CONN_ := 1, useCount_ := 1, freeCount_ := -1, connQue_ := [],
                         semId_ := 0 },
               semWaits := 0 } :=
  ⟨rfl, GetConn_empty _ rfl⟩

/-! ### C11: the bound of the queue -/

/-- One event keeps the capacity and keeps the queue within it. -/
theorem step_keeps_bound {T : Type} (s s1 : DequeSys T) (e : DequeEvent T)
    (o : DequeOutcome T) (h : s.q.deq_.length ≤ s.q.capacity_)
    (hs : s.step e = some (s1, o)) :
    s1.q.deq_.length ≤ s1.q.capacity_ ∧ s1.q.capacity_ = s.q.capacity_ := by
  obtain ⟨⟨d, cap, cl⟩, sl⟩ := s
  simp only at h
  cases e with
  | push_back x =>
    simp only [DequeSys.step, BlockDeque.push_back, BlockDeque.push_back_loop,
      Option.some.injEq] at hs
    by_cases hf : d.length ≥ cap
    · simp only [hf, if_true, DequeSys.afterPush, Prod.mk.injEq] at hs
      rw [← hs.1]; exact ⟨h, rfl⟩
    · simp only [hf, if_false, DequeSys.afterPush, Prod.mk.injEq] at hs
      rw [← hs.1]
      exact ⟨by simp only [List.length_append, List.length_singleton]; omega, rfl⟩
  | push_front x =>
    simp only [DequeSys.step, BlockDeque.push_front, BlockDeque.push_front_loop,
      Option.some.injEq] at hs
    by_cases hf : d.length ≥ cap
    · simp only [hf, if_true, DequeSys.afterPush, Prod.mk.injEq] at hs
      rw [← hs.1]; exact ⟨h, rfl⟩
    · simp only [hf, if_false, DequeSys.afterPush, Prod.mk.injEq] at hs
      rw [← hs.1]
      exact ⟨by simp only [List.length_cons]; omega, rfl⟩
  | pop =>
    simp only [DequeSys.step, BlockDeque.pop, BlockDeque.pop_loop, Option.some.injEq] at hs
    cases d with
    | nil =>
      simp only [DequeSys.afterPop, Prod.mk.injEq] at hs
      rw [← hs.1]; exact ⟨h, rfl⟩
    | cons y rest =>
      simp only [DequeSys.afterPop, Prod.mk.injEq] at hs
      rw [← hs.1]
      simp only [List.length_cons] at h
      exact ⟨by show rest.length ≤ cap; omega, rfl⟩
  | clear =>
    simp only [DequeSys.step, BlockDeque.clear, Option.some.injEq, Prod.mk.injEq] at hs
    rw [← hs.1]; exact ⟨Nat.zero_le _, rfl⟩
  | Close =>
    simp only [DequeSys.step, BlockDeque.Close, Option.some.injEq, Prod.mk.injEq] at hs
    rw [← hs.1]; exact ⟨Nat.zero_le _, rfl⟩
  | wake i =>
    simp only [DequeSys.step] at hs
    cases hw : sl[i]? with
    | none => simp [hw] at hs
    | some w =>
      cases w with
      | push_back x =>
        simp only [hw, BlockDeque.push_back_wake, BlockDeque.push_back_loop,
          Option.some.injEq] at hs
        cases cl
        · by_cases hf : d.length ≥ cap
          · simp only [Bool.false_eq_true, hf, if_true, if_false, DequeSys.afterPush,
              Prod.mk.injEq] at hs
            rw [← hs.1]; exact ⟨h, rfl⟩
          · simp only [Bool.false_eq_true, hf, if_false, DequeSys.afterPush,
              Prod.mk.injEq] at hs
            rw [← hs.1]
            exact ⟨by simp only [List.length_append, List.length_singleton]; omega, rfl⟩
        · simp only [if_true, DequeSys.afterPush, Prod.mk.injEq] at hs
          rw [← hs.1]; exact ⟨h, rfl⟩
      | push_front x =>
        simp only [hw, BlockDeque.push_front_wake, BlockDeque.push_front_loop,
          Option.some.injEq] at hs
        cases cl
        · by_cases hf : d.length ≥ cap
          · simp only [Bool.false_eq_true, hf, if_true, if_false, DequeSys.afterPush,
              Prod.mk.injEq] at hs
            rw [← hs.1]; exact ⟨h, rfl⟩
          · simp only [Bool.false_eq_true, hf, if_false, DequeSys.afterPush,
              Prod.mk.injEq] at hs
            rw [← hs.1]
            exact ⟨by simp only [List.length_cons]; omega, rfl⟩
        · simp only [if_true, DequeSys.afterPush, Prod.mk.injEq] at hs
          rw [← hs.1]; exact ⟨h, rfl⟩
      | pop =>
        simp only [hw, BlockDeque.pop_wake, BlockDeque.pop_loop, Option.some.injEq] at hs
        cases cl
        · cases d with
          | nil =>
            simp only [Bool.false_eq_true, if_false, DequeSys.afterPop, Prod.mk.injEq] at hs
            rw [← hs.1]; exact ⟨h, rfl⟩
          | cons y rest =>
            simp only [Bool.false_eq_true, if_false, DequeSys.afterPop, Prod.mk.injEq] at hs
            rw [← hs.1]
            simp only [List.length_cons] at h
            exact ⟨by show rest.length ≤ cap; omega, rfl⟩
        · simp only [if_true, DequeSys.afterPop, Prod.mk.injEq] at hs
          rw [← hs.1]; exact ⟨h, rfl⟩

/-- A sequence of events keeps the capacity and keeps the queue within it. -/
theorem run_keeps_bound {T : Type} (events : List (DequeEvent T)) :
    ∀ (s s1 : DequeSys T) (os : List (DequeOutcome T)),
      s.q.deq_.length ≤ s.q.capacity_ → s.run events = some (s1, os) →
      s1.q.deq_.length ≤ s1.q.capacity_ ∧ s1.q.capacity_ = s.q.capacity_ := by
  induction events with
  | nil =>
    intro s s1 os h hr
    simp only [DequeSys.run, Option.some.injEq, Prod.mk.injEq] at hr
    rw [← hr.1]; exact ⟨h, rfl⟩
  | cons e es ih =>
    intro s s1 os h hr
    simp only [DequeSys.run] at hr
    cases hst : s.step e with
    | none => simp [hst] at hr
    | some p =>
      obtain ⟨s2, o⟩ := p
      simp only [hst] at hr
      cases hrest : s2.run es with
      | none => simp [hrest] at hr
      | some p2 =>
        obtain ⟨s3, os3⟩ := p2
        simp only [hrest, Option.some.injEq, Prod.mk.injEq] at hr
        obtain ⟨hb, hc⟩ := step_keeps_bound s s2 e o h hst
        obtain ⟨hb3, hc3⟩ := ih s2 s3 os3 hb hrest
        rw [← hr.1]
        exact ⟨hb3, by rw [hc3, hc]⟩

/-- C11: in every state reached from the constructor by `push_back`,
`push_front`, `pop`, `clear` and `Close` calls of any threads (a push inserting
only after its wait loop is left), `size() <= capacity()`, the capacity is the
one given to the constructor, and `full()` holds exactly when
`size() == capacity()`. -/
theorem size_le_capacity {T : Type} (MaxCapacity : Nat) (q0 : BlockDeque T)
    (events : List (DequeEvent T)) (s : DequeSys T) (os : List (DequeOutcome T))
    (hnew : BlockDeque.new MaxCapacity = some q0)
    (hrun : (DequeSys.start q0).run events = some (s, os)) :
    s.q.size ≤ s.q.capacity ∧ s.q.capacity = MaxCapacity
    ∧ (s.q.full = true ↔ s.q.size = s.q.capacity) := by
  have hq0 : q0.deq_ = [] ∧ q0.capacity_ = MaxCapacity := by
    unfold BlockDeque.new at hnew
    by_cases hc : MaxCapacity > 0
    · simp only [hc, if_true, Option.some.injEq] at hnew
      rw [← hnew]; exact ⟨rfl, rfl⟩
    · simp [hc] at hnew
  obtain ⟨hb, hc⟩ := run_keeps_bound events (DequeSys.start q0) s os
    (by simp [DequeSys.start, hq0.1]) hrun
  simp only [DequeSys.start] at hc
  simp only [BlockDeque.size, BlockDeque.capacity, BlockDeque.full, decide_eq_true_eq]
  refine ⟨hb, by rw [hc, hq0.2], ?_⟩
  omega

/-- C11 at a queue of capacity 2: two pushes fill it, a third push sleeps, a pop
makes room, the sleeper wakes and inserts, and the queue is full again. -/
theorem size_le_capacity_witness :
    BlockDeque.new 2 = some ({ deq_ := [], capacity_ := 2, isClose_ := false } : BlockDeque Nat)
    ∧ (DequeSys.start ({ deq_ := [], capacity_ := 2, isClose_ := false } : BlockDeque Nat)).run
        [DequeEvent.push_back 7, DequeEvent.push_front 8, DequeEvent.push_back 9,
         DequeEvent.pop, DequeEvent.wake 0]
      = some ({ q := { deq_ := [7, 9], capacity_ := 2, isClose_ := false }, asleep := [] },
              [DequeOutcome.pushedBack 7, DequeOutcome.pushedFront 8, DequeOutcome.slept,
               DequeOutcome.popped 8, DequeOutcome.pushedBack 9])
    ∧ (({ deq_ := [7, 9], capacity_ := 2, isClose_ := false } : BlockDeque Nat).size
        ≤ ({ deq_ := [7, 9], capacity_ := 2, isClose_ := false } : BlockDeque Nat).capacity
      ∧ ({ deq_ := [7, 9], capacity_ := 2, isClose_ := false } : BlockDeque Nat).capacity = 2
      ∧ (({ deq_ := [7, 9], capacity_ := 2, isClose_ := false } : BlockDeque Nat).full = true
          ↔ ({ deq_ := [7, 9], capacity_ := 2, isClose_ := false } : BlockDeque Nat).size
              = ({ deq_ := [7, 9], capacity_ := 2, isClose_ := false }
                  : BlockDeque Nat).capacity)) :=
  ⟨by decide, by decide,
   size_le_capacity 2 { deq_ := [], capacity_ := 2, isClose_ := false }
     [DequeEvent.push_back 7, DequeEvent.push_front 8, DequeEvent.push_back 9,
      DequeEvent.pop, DequeEvent.wake 0]
     { q := { deq_ := [7, 9], capacity_ := 2, isClose_ := false }, asleep := [] }
     [DequeOutcome.pushedBack 7, DequeOutcome.pushedFront 8, DequeOutcome.slept,
      DequeOutcome.popped 8, DequeOutcome.pushedBack 9]
     (by decide) (by decide)⟩

/-! ### C14: the queue after `Close` -/

/-- No event takes the closed flag back. -/
theorem step_keeps_closed {T : Type} (s s1 : DequeSys T) (e : DequeEvent T)
    (o : DequeOutcome T) (h : s.q.isClose_ = true) (hs : s.step e = some (s1, o)) :
    s1.q.isClose_ = true := by
  obtain ⟨⟨d, cap, cl⟩, sl⟩ := s
  simp only at h
  subst h
  cases e with
  | push_back x =>
    simp only [DequeSys.step, BlockDeque.push_back, BlockDeque.push_back_loop,
      Option.some.injEq] at hs
    by_cases hf : d.length ≥ cap
    · simp only [hf, if_true, DequeSys.afterPush, Prod.mk.injEq] at hs
      rw [← hs.1]
    · simp only [hf, if_false, DequeSys.afterPush, Prod.mk.injEq] at hs
      rw [← hs.1]
  | push_front x =>
    simp only [DequeSys.step, BlockDeque.push_front, BlockDeque.push_front_loop,
      Option.some.injEq] at hs
    by_cases hf : d.length ≥ cap
    · simp only [hf, if_true, DequeSys.afterPush, Prod.mk.injEq] at hs
      rw [← hs.1]
    · simp only [hf, if_false, DequeSys.afterPush, Prod.mk.injEq] at hs
      rw [← hs.1]
  | pop =>
    simp only [DequeSys.step, BlockDeque.pop, BlockDeque.pop_loop, Option.some.injEq] at hs
    cases d with
    | nil =>
      simp only [DequeSys.afterPop, Prod.mk.injEq] at hs
      rw [← hs.1]
    | cons y rest =>
      simp only [DequeSys.afterPop, Prod.mk.injEq] at hs
      rw [← hs.1]
  | clear =>
    simp only [DequeSys.step, BlockDeque.clear, Option.some.injEq, Prod.mk.injEq] at hs
    rw [← hs.1]
  | Close =>
    simp only [DequeSys.step, BlockDeque.Close, Option.some.injEq, Prod.mk.injEq] at hs
    rw [← hs.1]
  | wake i =>
    simp only [DequeSys.step] at hs
    cases hw : sl[i]? with
    | none => simp [hw] at hs
    | some w =>
      cases w with
      | push_back x =>
        simp only [hw, BlockDeque.push_back_wake, if_true, DequeSys.afterPush,
          Option.some.injEq, Prod.mk.injEq] at hs
        rw [← hs.1]
      | push_front x =>
        simp only [hw, BlockDeque.push_front_wake, if_true, DequeSys.afterPush,
          Option.some.injEq, Prod.mk.injEq] at hs
        rw [← hs.1]
      | pop =>
        simp only [hw, BlockDeque.pop_wake, if_true, DequeSys.afterPop,
          Option.some.injEq, Prod.mk.injEq] at hs
        rw [← hs.1]

/-- No sequence of events takes the closed flag back. -/
theorem run_keeps_closed {T : Type} (events : List (DequeEvent T)) :
    ∀ (s s1 : DequeSys T) (os : List (DequeOutcome T)),
      s.q.isClose_ = true → s.run events = some (s1, os) → s1.q.isClose_ = true := by
  induction events with
  | nil =>
    intro s s1 os h hr
    simp only [DequeSys.run, Option.some.injEq, Prod.mk.injEq] at hr
    rw [← hr.1]; exact h
  | cons e es ih =>
    intro s s1 os h hr
    simp only [DequeSys.run] at hr
    cases hst : s.step e with
    | none => simp [hst] at hr
    | some p =>
      obtain ⟨s2, o⟩ := p
      simp only [hst] at hr
      cases hrest : s2.run es with
      | none => simp [hrest] at hr
      | some p2 =>
        obtain ⟨s3, os3⟩ := p2
        simp only [hrest, Option.some.injEq, Prod.mk.injEq] at hr
        rw [← hr.1]
        exact ih s2 s3 os3 (step_keeps_closed s s2 e o h hst) hrest

/-- C14: after `Close` the queue is empty and its closed flag is set; and
whatever happens next, a `pop` that slept on the empty queue and wakes returns
false without an item, and a `push_back` or `push_front` that slept on the full
queue and wakes returns without inserting: the queue is as the wake-up found
it. -/
theorem Close_then_wake {T : Type} (s0 : DequeSys T) :
    (s0.q.Close).deq_ = [] ∧ (s0.q.Close).isClose_ = true
    ∧ s0.step DequeEvent.Close = some ({ s0 with q := s0.q.Close }, DequeOutcome.closed)
    ∧ ∀ (events : List (DequeEvent T)) (s1 : DequeSys T) (os : List (DequeOutcome T)),
        ({ s0 with q := s0.q.Close } : DequeSys T).run events = some (s1, os) →
        s1.q.isClose_ = true
        ∧ s1.q.pop_wake = Call.returned s1.q (false, none)
        ∧ (∀ x, s1.q.push_back_wake x = Call.returned s1.q false)
        ∧ (∀ x, s1.q.push_front_wake x = Call.returned s1.q false)
        ∧ ∀ (i : Nat) (w : Sleeper T), s1.asleep[i]? = some w →
            ∃ s2, s1.step (DequeEvent.wake i)
                = some (s2, match w with
                            | Sleeper.pop => DequeOutcome.popFailed
                            | _ => DequeOutcome.pushGivenUp)
              ∧ s2.q = s1.q := by
  refine ⟨rfl, rfl, rfl, ?_⟩
  intro events s1 os hrun
  have hc : s1.q.isClose_ = true :=
    run_keeps_closed events _ s1 os rfl hrun
  refine ⟨hc, ?_, ?_, ?_, ?_⟩
  · simp [BlockDeque.pop_wake, hc]
  · intro x; simp [BlockDeque.push_back_wake, hc]
  · intro x; simp [BlockDeque.push_front_wake, hc]
  · intro i w hw
    cases w with
    | push_back x =>
      exact ⟨{ q := s1.q, asleep := s1.asleep.eraseIdx i }, by simp [DequeSys.step, hw, BlockDeque.push_back_wake, hc,
        DequeSys.afterPush], rfl⟩
    | push_front x =>
      exact ⟨{ q := s1.q, asleep := s1.asleep.eraseIdx i }, by simp [DequeSys.step, hw, BlockDeque.push_front_wake, hc,
        DequeSys.afterPush], rfl⟩
    | pop =>
      exact ⟨{ q := s1.q, asleep := s1.asleep.eraseIdx i }, by simp [DequeSys.step, hw, BlockDeque.pop_wake, hc, DequeSys.afterPop], rfl⟩

/-- C14 at a queue of capacity 1 with one item, a push asleep on the full
queue, and (after a pop and a second pop on the empty queue) a pop asleep:
`Close` empties it; the woken push and the woken pop both return with the queue
still empty. -/
theorem Close_then_wake_eval :
    (DequeSys.start ({ deq_ := [], capacity_ := 1, isClose_ := false } : BlockDeque Nat)).run
        [DequeEvent.push_back 1, DequeEvent.push_back 2, DequeEvent.push_back 3,
         DequeEvent.pop, DequeEvent.wake 0, DequeEvent.pop, DequeEvent.pop,
         DequeEvent.Close, DequeEvent.wake 0, DequeEvent.wake 0]
      = some ({ q := { deq_ := [], capacity_ := 1, isClose_ := true }, asleep := [] },
              [DequeOutcome.pushedBack 1, DequeOutcome.slept, DequeOutcome.slept,
               DequeOutcome.popped 1, DequeOutcome.pushedBack 2, DequeOutcome.popped 2,
               DequeOutcome.slept, DequeOutcome.closed, DequeOutcome.pushGivenUp,
               DequeOutcome.popFailed]) := by
  decide

/-- C14 at a full queue of capacity 1 with a `push_back` asleep on it: `Close`
leaves the queue empty with the closed flag set, and the push that wakes then
returns without inserting, as would a `push_front` or a `pop` woken there. -/
theorem Close_then_wake_witness :
    (({ q := { deq_ := [2], capacity_ := 1, isClose_ := false },
        asleep := [Sleeper.push_back 3] } : DequeSys Nat).q.Close).deq_ = []
    ∧ (({ q := { deq_ := [2], capacity_ := 1, isClose_ := false },
          asleep := [Sleeper.push_back 3] } : DequeSys Nat).q.Close).isClose_ = true
    ∧ ({ q := { deq_ := [2], capacity_ := 1, isClose_ := false },
         asleep := [Sleeper.push_back 3] } : DequeSys Nat).run
          [DequeEvent.Close, DequeEvent.wake 0]
        = some ({ q := { deq_ := [], capacity_ := 1, isClose_ := true }, asleep := [] },
                [DequeOutcome.closed, DequeOutcome.pushGivenUp])
    ∧ ({ deq_ := [], capacity_ := 1, isClose_ := true } : BlockDeque Nat).pop_wake
        = Call.returned { deq_ := [], capacity_ := 1, isClose_ := true } (false, none)
    ∧ (∀ x, ({ deq_ := [], capacity_ := 1, isClose_ := true } : BlockDeque Nat).push_back_wake x
        = Call.returned { deq_ := [], capacity_ := 1, isClose_ := true } false)
    ∧ (∀ x, ({ deq_ := [], capacity_ := 1, isClose_ := true } : BlockDeque Nat).push_front_wake x
        = Call.returned { deq_ := [], capacity_ := 1, isClose_ := true } false) :=
  ⟨(Close_then_wake ({ q := { deq_ := [2], capacity_ := 1, isClose_ := false },
                       asleep := [Sleeper.push_back 3] } : DequeSys Nat)).1,
   (Close_then_wake ({ q := { deq_ := [2], capacity_ := 1, isClose_ := false },
                       asleep := [Sleeper.push_back 3] } : DequeSys Nat)).2.1,
   by decide,
   ((Close_then_wake ({ q := { deq_ := [2], capacity_ := 1, isClose_ := false },
                        asleep := [Sleeper.push_back 3] } : DequeSys Nat)).2.2.2
      [DequeEvent.wake 0]
      { q := { deq_ := [], capacity_ := 1, isClose_ := true }, asleep := [] }
      [DequeOutcome.pushGivenUp] (by decide)).2.1,
   ((Close_then_wake ({ q := { deq_ := [2], capacity_ := 1, isClose_ := false },
                        asleep := [Sleeper.push_back 3] } : DequeSys Nat)).2.2.2
      [DequeEvent.wake 0]
      { q := { deq_ := [], capacity_ := 1, isClose_ := true }, asleep := [] }
      [DequeOutcome.pushGivenUp] (by decide)).2.2.1,
   ((Close_then_wake ({ q := { deq_ := [2], capacity_ := 1, isClose_ := false },
                        asleep := [Sleeper.push_back 3] } : DequeSys Nat)).2.2.2
      [DequeEvent.wake 0]
      { q := { deq_ := [], capacity_ := 1, isClose_ := true }, asleep := [] }
      [DequeOutcome.pushGivenUp] (by decide)).2.2.2.1⟩

/-! ### C13: the queue and its reference list -/

/-- One event that is neither `clear` nor `Close`: the reference list follows
the outcome to the new contents, and with no insertion at the front the items
popped so far followed by the contents are the old contents followed by the
items inserted at the back. -/
theorem step_refines {T : Type} [DecidableEq T] (s s1 : DequeSys T) (e : DequeEvent T)
    (o : DequeOutcome T) (he : e.keepsItems = true) (hs : s.step e = some (s1, o)) :
    (∀ os, RefList.follow { items := s.q.deq_ } (o :: os)
        = RefList.follow { items := s1.q.deq_ } os)
    ∧ (DequeOutcome.noFront [o] = true →
        DequeOutcome.poppedItems [o] ++ s1.q.deq_ = s.q.deq_ ++ DequeOutcome.backItems [o]) := by
  obtain ⟨⟨d, cap, cl⟩, sl⟩ := s
  cases e with
  | push_back x =>
    simp only [DequeSys.step, BlockDeque.push_back, BlockDeque.push_back_loop,
      Option.some.injEq] at hs
    by_cases hf : d.length ≥ cap
    · simp only [hf, if_true, DequeSys.afterPush, Prod.mk.injEq] at hs
      obtain ⟨h1, h2⟩ := hs
      subst h1; subst h2
      simp [RefList.follow, DequeOutcome.poppedItems, DequeOutcome.backItems]
    · simp only [hf, if_false, DequeSys.afterPush, Prod.mk.injEq] at hs
      obtain ⟨h1, h2⟩ := hs
      subst h1; subst h2
      simp [RefList.follow, RefList.push_back, DequeOutcome.poppedItems,
        DequeOutcome.backItems]
  | push_front x =>
    simp only [DequeSys.step, BlockDeque.push_front, BlockDeque.push_front_loop,
      Option.some.injEq] at hs
    by_cases hf : d.length ≥ cap
    · simp only [hf, if_true, DequeSys.afterPush, Prod.mk.injEq] at hs
      obtain ⟨h1, h2⟩ := hs
      subst h1; subst h2
      simp [RefList.follow, DequeOutcome.poppedItems, DequeOutcome.backItems]
    · simp only [hf, if_false, DequeSys.afterPush, Prod.mk.injEq] at hs
      obtain ⟨h1, h2⟩ := hs
      subst h1; subst h2
      simp [RefList.follow, RefList.push_front, DequeOutcome.noFront]
  | pop =>
    simp only [DequeSys.step, BlockDeque.pop, BlockDeque.pop_loop, Option.some.injEq] at hs
    cases d with
    | nil =>
      simp only [DequeSys.afterPop, Prod.mk.injEq] at hs
      obtain ⟨h1, h2⟩ := hs
      subst h1; subst h2
      simp [RefList.follow, DequeOutcome.poppedItems, DequeOutcome.backItems]
    | cons y rest =>
      simp only [DequeSys.afterPop, Prod.mk.injEq] at hs
      obtain ⟨h1, h2⟩ := hs
      subst h1; subst h2
      simp [RefList.follow, RefList.pop, DequeOutcome.poppedItems, DequeOutcome.backItems]
  | clear => simp [DequeEvent.keepsItems] at he
  | Close => simp [DequeEvent.keepsItems] at he
  | wake i =>
    simp only [DequeSys.step] at hs
    cases hw : sl[i]? with
    | none => simp [hw] at hs
    | some w =>
      cases w with
      | push_back x =>
        simp only [hw, BlockDeque.push_back_wake, BlockDeque.push_back_loop,
          Option.some.injEq] at hs
        cases cl
        · by_cases hf : d.length ≥ cap
          · simp only [Bool.false_eq_true, hf, if_true, if_false, DequeSys.afterPush,
              Prod.mk.injEq] at hs
            obtain ⟨h1, h2⟩ := hs
            subst h1; subst h2
            simp [RefList.follow, DequeOutcome.poppedItems, DequeOutcome.backItems]
          · simp only [Bool.false_eq_true, hf, if_false, DequeSys.afterPush,
              Prod.mk.injEq] at hs
            obtain ⟨h1, h2⟩ := hs
            subst h1; subst h2
            simp [RefList.follow, RefList.push_back, DequeOutcome.poppedItems,
              DequeOutcome.backItems]
        · simp only [if_true, DequeSys.afterPush, Prod.mk.injEq] at hs
          obtain ⟨h1, h2⟩ := hs
          subst h1; subst h2
          simp [RefList.follow, DequeOutcome.poppedItems, DequeOutcome.backItems]
      | push_front x =>
        simp only [hw, BlockDeque.push_front_wake, BlockDeque.push_front_loop,
          Option.some.injEq] at hs
        cases cl
        · by_cases hf : d.length ≥ cap
          · simp only [Bool.false_eq_true, hf, if_true, if_false, DequeSys.afterPush,
              Prod.mk.injEq] at hs
            obtain ⟨h1, h2⟩ := hs
            subst h1; subst h2
            simp [RefList.follow, DequeOutcome.poppedItems, DequeOutcome.backItems]
          · simp only [Bool.false_eq_true, hf, if_false, DequeSys.afterPush,
              Prod.mk.injEq] at hs
            obtain ⟨h1, h2⟩ := hs
            subst h1; subst h2
            simp [RefList.follow, RefList.push_front, DequeOutcome.noFront]
        · simp only [if_true, DequeSys.afterPush, Prod.mk.injEq] at hs
          obtain ⟨h1, h2⟩ := hs
          subst h1; subst h2
          simp [RefList.follow, DequeOutcome.poppedItems, DequeOutcome.backItems]
      | pop =>
        simp only [hw, BlockDeque.pop_wake, BlockDeque.pop_loop, Option.some.injEq] at hs
        cases cl
        · cases d with
          | nil =>
            simp only [Bool.false_eq_true, if_false, DequeSys.afterPop, Prod.mk.injEq] at hs
            obtain ⟨h1, h2⟩ := hs
            subst h1; subst h2
            simp [RefList.follow, DequeOutcome.poppedItems, DequeOutcome.backItems]
          | cons y rest =>
            simp only [Bool.false_eq_true, if_false, DequeSys.afterPop, Prod.mk.injEq] at hs
            obtain ⟨h1, h2⟩ := hs
            subst h1; subst h2
            simp [RefList.follow, RefList.pop, DequeOutcome.poppedItems,
              DequeOutcome.backItems]
        · simp only [if_true, DequeSys.afterPop, Prod.mk.injEq] at hs
          obtain ⟨h1, h2⟩ := hs
          subst h1; subst h2
          simp [RefList.follow, DequeOutcome.poppedItems, DequeOutcome.backItems]

/-- The items popped split at the first outcome. -/
theorem poppedItems_cons {T : Type} (o : DequeOutcome T) (os : List (DequeOutcome T)) :
    DequeOutcome.poppedItems (o :: os)
      = DequeOutcome.poppedItems [o] ++ DequeOutcome.poppedItems os := by
  cases o <;> simp [DequeOutcome.poppedItems]

/-- The items inserted at the back split at the first outcome. -/
theorem backItems_cons {T : Type} (o : DequeOutcome T) (os : List (DequeOutcome T)) :
    DequeOutcome.backItems (o :: os)
      = DequeOutcome.backItems [o] ++ DequeOutcome.backItems os := by
  cases o <;> simp [DequeOutcome.backItems]

/-- No insertion at the front splits at the first outcome. -/
theorem noFront_cons {T : Type} (o : DequeOutcome T) (os : List (DequeOutcome T))
    (h : DequeOutcome.noFront (o :: os) = true) :
    DequeOutcome.noFront [o] = true ∧ DequeOutcome.noFront os = true := by
  cases o <;> simp_all [DequeOutcome.noFront]

/-- A sequence of events without `clear` and `Close`: the reference list
follows the outcomes to the final contents, and with no insertion at the front
the queue is first in, first out. -/
theorem run_refines {T : Type} [DecidableEq T] (events : List (DequeEvent T)) :
    ∀ (s s1 : DequeSys T) (os : List (DequeOutcome T)),
      (∀ e, e ∈ events → e.keepsItems = true) → s.run events = some (s1, os) →
      RefList.follow { items := s.q.deq_ } os = some { items := s1.q.deq_ }
      ∧ (DequeOutcome.noFront os = true →
          DequeOutcome.poppedItems os ++ s1.q.deq_
            = s.q.deq_ ++ DequeOutcome.backItems os) := by
  induction events with
  | nil =>
    intro s s1 os _ hr
    simp only [DequeSys.run, Option.some.injEq, Prod.mk.injEq] at hr
    obtain ⟨h1, h2⟩ := hr
    subst h1; subst h2
    simp [RefList.follow, DequeOutcome.poppedItems, DequeOutcome.backItems]
  | cons e es ih =>
    intro s s1 os hev hr
    simp only [DequeSys.run] at hr
    cases hst : s.step e with
    | none => simp [hst] at hr
    | some p =>
      obtain ⟨s2, o⟩ := p
      simp only [hst] at hr
      cases hrest : s2.run es with
      | none => simp [hrest] at hr
      | some p2 =>
        obtain ⟨s3, os3⟩ := p2
        simp only [hrest, Option.some.injEq, Prod.mk.injEq] at hr
        obtain ⟨h1, h2⟩ := hr
        subst h1; subst h2
        obtain ⟨hf, hq⟩ := step_refines s s2 e o (hev e (List.mem_cons_self e es)) hst
        obtain ⟨hf3, hq3⟩ := ih s2 s3 os3
          (fun e1 he1 => hev e1 (List.mem_cons_of_mem e he1)) hrest
        refine ⟨by rw [hf os3, hf3], ?_⟩
        intro hno
        obtain ⟨hno1, hno2⟩ := noFront_cons o os3 hno
        rw [poppedItems_cons, backItems_cons, List.append_assoc, hq3 hno2,
          ← List.append_assoc, hq hno1, List.append_assoc]

/-- `Log::init` on a constructed logger with `maxQueueSize > 0` builds the
queue with the default capacity of `BlockDeque`, 1000, whatever
`maxQueueSize` is. -/
theorem init_queue_capacity (l l1 : Log) (fs : LogFs) (t : LogTime) (level : Int)
    (path suffix : String) (maxQueueSize : Int) (ops : List FileOp)
    (hpos : maxQueueSize > 0)
    (hinit : l.new.init fs t level path suffix maxQueueSize = some (l1, ops)) :
    l1.isAsync_ = true
    ∧ l1.deque_ = some { deq_ := [], capacity_ := 1000, isClose_ := false } := by
  simp only [Log.init, Log.new, hpos, if_true, Option.isNone_none, Log.flush,
    BlockDeque.new, BlockDeque.defaultCapacity] at hinit
  split at hinit
  · simp only [Option.some.injEq, Prod.mk.injEq] at hinit
    rw [← hinit.1]
    exact ⟨rfl, rfl⟩
  · split at hinit
    · simp only [Option.some.injEq, Prod.mk.injEq] at hinit
      rw [← hinit.1]
      exact ⟨rfl, rfl⟩
    · simp at hinit

/-- C12 on the code, at `init(1, "./log", ".log", 5)` on a constructed logger:
the queue gets the capacity 1000, not 5; six `write` calls made before the
writer thread runs leave six lines in the queue. -/
theorem init_queue_capacity_eval :
    (Log.raw.new.init LogFs.allOpen LogTime.jan15 1 "./log" ".log" 5).map
        (fun r => (r.1.isAsync_, r.1.deque_.map (fun q => (q.capacity, q.size))))
      = some (true, some (1000, 0))
    ∧ ((Log.raw.new.init LogFs.allOpen LogTime.jan15 1 "./log" ".log" 5).bind
        (fun r => r.1.writes LogFs.allOpen
          [{ time := LogTime.jan15, level := 1, msg := "a" },
           { time := LogTime.jan15, level := 1, msg := "b" },
           { time := LogTime.jan15, level := 1, msg := "c" },
           { time := LogTime.jan15, level := 1, msg := "d" },
           { time := LogTime.jan15, level := 1, msg := "e" },
           { time := LogTime.jan15, level := 1, msg := "f" }])).map
        (fun r => r.1.deque_.map (fun q => (q.capacity, q.size)))
      = some (some (1000, 6)) := by
  decide

/-! ### The two blocks of `Log::write` -/

/-- `flush` on a logger with an open file whose queue is there when it is
asynchronous. -/
theorem flush_open (l : Log) (f : String)
    (hq : l.isAsync_ = true → l.deque_.isSome = true) (hf : l.fp_ = some f) :
    l.flush = some [FileOp.fflush f] := by
  unfold Log.flush
  have h : (l.isAsync_ && l.deque_.isNone) = false := by
    cases ha : l.isAsync_
    · rfl
    · have := hq ha
      cases hd : l.deque_ <;> simp_all
  simp [h, hf]

/-- The first block of `write` on a logger with the file `f` open, every
`fopen` succeeding: when a new file is due, `f` is flushed and closed and the
new name is opened; otherwise nothing happens. -/
theorem rotate_open (l : Log) (fs : LogFs) (t : LogTime) (f : String)
    (hq : l.isAsync_ = true → l.deque_.isSome = true) (hf : l.fp_ = some f)
    (hfs : ∀ n, fs.fopen n = true) :
    l.rotate fs t
      = if l.needsNewFile t then
          some ({ (if l.toDay_ ≠ t.tm_mday then
                    { l with toDay_ := t.tm_mday, lineCount_ := 0 } else l) with
                  fp_ := some (l.newFileName t) },
                [FileOp.fflush f, FileOp.fclose f, FileOp.fopen (l.newFileName t)])
        else some (l, []) := by
  unfold Log.rotate
  by_cases hn : l.needsNewFile t = true
  · simp only [hn, if_true]
    by_cases hday : l.toDay_ ≠ t.tm_mday
    · have hfl : ({ l with toDay_ := t.tm_mday, lineCount_ := 0 } : Log).flush
          = some [FileOp.fflush f] := flush_open _ f hq hf
      simp only [hday, if_true, ne_eq, not_false_eq_true]
      rw [hfl]
      simp only [hf, hfs, if_true]
      rfl
    · have hfl : l.flush = some [FileOp.fflush f] := flush_open _ f hq hf
      simp only [hday, if_false]
      rw [hfl]
      simp only [hf, hfs, if_true]
      rfl
  · simp only [hn, Bool.false_eq_true, if_false]

/-- The second block of `write` when the line goes to the queue: the logger is
asynchronous, its queue is not full, and the call has stored every byte of the
string it pushes. -/
theorem emit_push (l : Log) (t : LogTime) (level : Int) (msg : String)
    (q : BlockDeque String) (hasync : l.isAsync_ = true) (hq : l.deque_ = some q)
    (hfull : q.full = false) (hk : l.pushKnown t msg = true) :
    l.emit t level msg
      = some { log := { l with lineCount_ := l.lineCount_ + 1,
                               deque_ := some { q with deq_ := q.deq_
                                                  ++ [l.lineText t level msg] },
                               buff_ := (l.lineBuffer t msg).RetrieveAll.RetrieveAll,
                               text_ := "" },
               ops := [], hasWritten := l.hasWrittenCalls t msg } := by
  have hnf : ¬ q.deq_.length ≥ q.capacity_ := by
    simpa [BlockDeque.full] using hfull
  simp only [Log.emit, hq, hasync, hfull, hk, Bool.not_false, Bool.and_self, if_true,
    BlockDeque.push_back, BlockDeque.push_back_loop, hnf, if_false]

/-- The second block of `write` when the line goes to the file `f`: the logger
is synchronous, or has no queue, or its queue is full, and the C string that
`fputs` gets ends within the bytes the call has stored. -/
theorem emit_direct (l : Log) (t : LogTime) (level : Int) (msg : String) (f : String)
    (hf : l.fp_ = some f)
    (hd : l.isAsync_ = false ∨ l.deque_ = none ∨ ∃ q, l.deque_ = some q ∧ q.full = true)
    (hk : l.directKnown t msg = true) :
    l.emit t level msg
      = some { log := { l with lineCount_ := l.lineCount_ + 1,
                               buff_ := (l.lineBuffer t msg).RetrieveAll, text_ := "" },
               ops := [FileOp.fputs f (cstr (l.lineText t level msg))],
               hasWritten := l.hasWrittenCalls t msg } := by
  unfold Log.emit
  cases hdq : l.deque_ with
  | none => simp only [hf, hk, if_true]
  | some q =>
    have hc : (l.isAsync_ && !q.full) = false := by
      rcases hd with h | h | ⟨q1, h1, h2⟩
      · simp [h]
      · rw [h] at hdq; cases hdq
      · rw [h1] at hdq
        cases hdq
        simp [h2]
    simp only [hc, Bool.false_eq_true, if_false, hf, hk, if_true]

/-- The first block of `write` on a logger with an open file, every `fopen`
succeeding: it returns, leaves a file open, does not touch the buffer, the
mode or the queue, and makes no `fputs`. -/
theorem rotate_keeps (l : Log) (fs : LogFs) (t : LogTime) (f : String)
    (hq : l.isAsync_ = true → l.deque_.isSome = true) (hf : l.fp_ = some f)
    (hfs : ∀ n, fs.fopen n = true) :
    ∃ l1 rot f1, l.rotate fs t = some (l1, rot) ∧ l1.fp_ = some f1
      ∧ l1.buff_ = l.buff_ ∧ l1.text_ = l.text_ ∧ l1.isAsync_ = l.isAsync_
      ∧ l1.deque_ = l.deque_ ∧ (∀ op, op ∈ rot → op.isFputs = false) := by
  rw [rotate_open l fs t f hq hf hfs]
  by_cases hn : l.needsNewFile t = true
  · simp only [hn, if_true]
    refine ⟨_, _, l.newFileName t, rfl, rfl, ?_, ?_, ?_, ?_, ?_⟩
    · split <;> rfl
    · split <;> rfl
    · split <;> rfl
    · split <;> rfl
    · intro op hop
      simp only [List.mem_cons, List.mem_singleton, List.not_mem_nil, or_false] at hop
      rcases hop with h | h | h <;> rw [h] <;> rfl
  · simp only [hn, Bool.false_eq_true, if_false]
    exact ⟨l, [], f, rfl, hf, rfl, rfl, rfl, rfl, by simp⟩

/-! ### C15: where `write` puts the line in asynchronous mode -/

/-- A text shorter than the size handed to `snprintf` is stored whole. -/
theorem stored_fits (size : Nat) (s : String) (h : s.length < size) : stored size s = s := by
  unfold stored
  rw [if_pos h]

/-- On an empty buffer, with a time stamp of fewer than 128 bytes and a message
of fewer bytes than `WritableBytes()`, the bytes the call has stored are the
formatted line, every byte of the string pushed has been stored, and the C
string that `fputs` gets ends within it. -/
theorem lineText_fits (l : Log) (t : LogTime) (level : Int) (msg : String)
    (hempty : l.text_ = "") (hstamp : (Log.stampText t).length < 128)
    (hmsg : msg.length < l.msgRoom t) :
    l.lineText t level msg = Log.formatted t level msg
    ∧ l.pushKnown t msg = true ∧ l.directKnown t msg = true := by
  refine ⟨?_, ?_, ?_⟩
  · unfold Log.lineText Log.formatted
    rw [hempty, stored_fits 128 _ hstamp, stored_fits _ msg hmsg, String.empty_append]
  · simp only [Log.pushKnown, Bool.and_eq_true, decide_eq_true_eq]
    omega
  · simp only [Log.directKnown, Bool.or_eq_true, decide_eq_true_eq]
    omega

/-- C15, as stated, fails: an asynchronous logger (`init` with queue size 1024)
whose queue is full: the `write` call pushes nothing (the queue still holds
its 1000 lines) and the calling thread itself makes the `fputs` of the line to
the log file. -/
theorem write_full_queue_counterexample :
    (((Log.raw.new.init LogFs.allOpen LogTime.jan15 1 "./log" ".log" 1024).map
        (fun r => r.1.withFullQueue)).bind
        (fun l => l.write LogFs.allOpen LogTime.jan15 1 "hello")).map
        (fun w => (w.ops, w.log.isAsync_, w.log.deque_.map (fun q => (q.size, q.full))))
      = some ([FileOp.fputs "./log/2024_01_15.log"
                 "2024-01-15 10:20:30.000123 [info] : hello\n"],
              true, some (1000, true)) := by
  set_option maxRecDepth 100000 in decide

/-- C15, amended: in asynchronous mode, with the log file open, every `fopen`
succeeding, the buffer of the logger empty before the call, a time stamp of
fewer than 128 bytes and a message of fewer bytes than the `WritableBytes()`
handed to `vsnprintf`, a `Log::write` call returns, and when the queue is not
full it pushes its formatted line onto the back of the queue and the calling
thread makes no `fputs`; when the queue is full it pushes nothing (so it never
sleeps in the push) and the calling thread itself writes the formatted line to
the log file, with one `fputs` after the file operations of a change of
file. -/
theorem write_async (l : Log) (fs : LogFs) (t : LogTime) (level : Int) (msg : String)
    (q : BlockDeque String) (f : String)
    (hasync : l.isAsync_ = true) (hq : l.deque_ = some q) (hf : l.fp_ = some f)
    (hfs : ∀ n, fs.fopen n = true)
    (hempty : l.text_ = "") (hstamp : (Log.stampText t).length < 128)
    (hmsg : msg.length < l.msgRoom t) :
    ∃ w, l.write fs t level msg = some w
      ∧ (q.full = false →
          w.log.deque_ = some { q with deq_ := q.deq_ ++ [Log.formatted t level msg] }
          ∧ ∀ op, op ∈ w.ops → op.isFputs = false)
      ∧ (q.full = true →
          w.log.deque_ = some q
          ∧ ∃ f1 rot, w.ops = rot ++ [FileOp.fputs f1 (cstr (Log.formatted t level msg))]
              ∧ w.log.fp_ = some f1 ∧ ∀ op, op ∈ rot → op.isFputs = false) := by
  obtain ⟨l1, rot, f1, hrot, hf1, hb, ht, ha, hd, hno⟩ :=
    rotate_keeps l fs t f (fun _ => by simp [hq]) hf hfs
  have hroom : l1.msgRoom t = l.msgRoom t := by
    simp only [Log.msgRoom, hb]
  obtain ⟨hline, hpk, hdk⟩ :=
    lineText_fits l1 t level msg (by rw [ht, hempty]) hstamp (by rw [hroom]; exact hmsg)
  have hw : l.write fs t level msg
      = (l1.emit t level msg).map (fun w => { w with ops := rot ++ w.ops }) := by
    simp only [Log.write, hrot]
    cases l1.emit t level msg <;> rfl
  rw [hw]
  cases hfull : q.full
  · rw [emit_push l1 t level msg q (by rw [ha, hasync]) (by rw [hd, hq]) hfull hpk]
    refine ⟨_, rfl, ?_, ?_⟩
    · intro _
      refine ⟨by simp only [hline], ?_⟩
      intro op hop
      simp only [List.append_nil] at hop
      exact hno op hop
    · intro h; cases h
  · rw [emit_direct l1 t level msg f1 hf1 (Or.inr (Or.inr ⟨q, by rw [hd, hq], hfull⟩)) hdk]
    refine ⟨_, rfl, ?_, ?_⟩
    · intro h; cases h
    · intro _
      exact ⟨by rw [← hq, ← hd], f1, rot, by simp only [hline], hf1, hno⟩

/-- C15, amended, at an asynchronous logger with one line in its queue of
capacity 1000 and an empty buffer of 1024 bytes (988 writable bytes for the
message "hello"): the formatted line of the call is pushed behind the line in
the queue and the call makes no file operation. -/
theorem write_async_witness :
    (({ Log.raw.new with
          fp_ := some "./log/2024_01_15.log", path_ := "./log", suffix_ := ".log",
          toDay_ := 15, isAsync_ := true,
          deque_ := some { deq_ := ["old\n\x00"], capacity_ := 1000, isClose_ := false } }
        : Log).write LogFs.allOpen LogTime.jan15 2 "hello").map
        (fun w => (w.ops, w.log.deque_.map (fun q => q.deq_)))
      = some ([], some ["old\n\x00", "2024-01-15 10:20:30.000123 [warn] : hello\n\x00"])
    ∧ Log.formatted LogTime.jan15 2 "hello" = "2024-01-15 10:20:30.000123 [warn] : hello\n\x00"
    ∧ ({ Log.raw.new with
          fp_ := some "./log/2024_01_15.log", path_ := "./log", suffix_ := ".log",
          toDay_ := 15, isAsync_ := true,
          deque_ := some { deq_ := ["old\n\x00"], capacity_ := 1000, isClose_ := false } }
        : Log).msgRoom LogTime.jan15 = 988
    ∧ ∃ w, ({ Log.raw.new with
          fp_ := some "./log/2024_01_15.log", path_ := "./log", suffix_ := ".log",
          toDay_ := 15, isAsync_ := true,
          deque_ := some { deq_ := ["old\n\x00"], capacity_ := 1000, isClose_ := false } }
        : Log).write LogFs.allOpen LogTime.jan15 2 "hello" = some w
      ∧ (({ deq_ := ["old\n\x00"], capacity_ := 1000, isClose_ := false }
            : BlockDeque String).full = false →
          w.log.deque_
            = some { ({ deq_ := ["old\n\x00"], capacity_ := 1000, isClose_ := false }
                        : BlockDeque String) with
                     deq_ := ({ deq_ := ["old\n\x00"], capacity_ := 1000, isClose_ := false }
                                : BlockDeque String).deq_
                       ++ [Log.formatted LogTime.jan15 2 "hello"] }
          ∧ ∀ op, op ∈ w.ops → op.isFputs = false)
      ∧ (({ deq_ := ["old\n\x00"], capacity_ := 1000, isClose_ := false }
            : BlockDeque String).full = true →
          w.log.deque_ = some { deq_ := ["old\n\x00"], capacity_ := 1000, isClose_ := false }
          ∧ ∃ f1 rot, w.ops
                = rot ++ [FileOp.fputs f1 (cstr (Log.formatted LogTime.jan15 2 "hello"))]
              ∧ w.log.fp_ = some f1 ∧ ∀ op, op ∈ rot → op.isFputs = false) :=
  ⟨by decide, by decide, by decide,
   write_async _ LogFs.allOpen LogTime.jan15 2 "hello"
     { deq_ := ["old\n\x00"], capacity_ := 1000, isClose_ := false } "./log/2024_01_15.log"
     rfl rfl rfl (fun _ => rfl) rfl (by decide) (by decide)⟩

/-! ### C17: a new date -/

/-- The first block of `write` compares days of the month only: with the file
`f` open and `toDay_` equal to `tm_mday`, whatever the month and the year of
the call, a line count that is 0 or no multiple of 50000 leaves the file and
the line count as they are. -/
theorem rotate_same_mday (l : Log) (fs : LogFs) (t : LogTime)
    (hday : l.toDay_ = t.tm_mday)
    (hcount : l.lineCount_ = 0 ∨ Int.tmod l.lineCount_ Log.MAX_LINES ≠ 0) :
    l.rotate fs t = some (l, []) := by
  have hn : l.needsNewFile t = false := by
    simp only [Log.needsNewFile, hday, ne_eq, not_true_eq_false, decide_False, Bool.false_or,
      Bool.and_eq_false_imp, decide_eq_true_eq, decide_eq_false_iff_not]
    rcases hcount with h | h
    · intro h1; exact absurd h h1
    · intro _; exact h
  simp only [Log.rotate, hn, Bool.false_eq_true, if_false]

/-- The first block of `write` on a day of the month other than `toDay_`, with
the file `f` open and every `fopen` succeeding: `f` is flushed and closed, the
file named for the date of the call (cut to 183 characters) is opened, and the
line count is set to 0. -/
theorem rotate_new_mday (l : Log) (fs : LogFs) (t : LogTime) (f : String)
    (hq : l.isAsync_ = true → l.deque_.isSome = true) (hf : l.fp_ = some f)
    (hfs : ∀ n, fs.fopen n = true) (hday : l.toDay_ ≠ t.tm_mday) :
    l.rotate fs t
      = some ({ l with toDay_ := t.tm_mday, lineCount_ := 0,
                       fp_ := some (snprintf 184
                         (l.path_ ++ "/" ++ (snprintf 36 (Log.dateText t)).1 ++ l.suffix_)).1 },
              [FileOp.fflush f, FileOp.fclose f,
               FileOp.fopen (snprintf 184
                 (l.path_ ++ "/" ++ (snprintf 36 (Log.dateText t)).1 ++ l.suffix_)).1]) := by
  have hn : l.needsNewFile t = true := by
    simp [Log.needsNewFile, hday]
  rw [rotate_open l fs t f hq hf hfs]
  simp only [hn, if_true, ne_eq, hday, not_false_eq_true, Log.newFileName, Log.LOG_NAME_LEN]

/-- C17 on the code: the log is opened on 2024-01-15 and gets a line that day;
the next `write` call comes on 2024-02-15. Its date differs from the date of
the open file, but the call closes and opens nothing: its line goes to
`./log/2024_01_15.log`, which stays the open file, and the line count goes on
from 1 to 2. -/
theorem write_next_month_eval :
    ((Log.raw.new.init LogFs.allOpen LogTime.jan15 1 "./log" ".log" 0).bind
        (fun r => r.1.writes LogFs.allOpen
          [{ time := LogTime.jan15, level := 1, msg := "a" },
           { time := LogTime.feb15, level := 1, msg := "b" }])).map
        (fun r => (r.2.map (fun w => w.ops), r.1.fp_, r.1.lineCount_, r.1.toDay_))
      = some ([[FileOp.fputs "./log/2024_01_15.log"
                  "2024-01-15 10:20:30.000123 [info] : a\n"],
               [FileOp.fputs "./log/2024_01_15.log"
                  "2024-02-15 10:20:30.000123 [info] : b\n"]],
              some "./log/2024_01_15.log", 2, 15) := by
  decide

/-! ### C18: the bounds of the logger's buffer -/

/-- C18 on the code: a synchronous logger with its buffer of 1024 bytes, and a
`write` call whose formatted message has 1000 bytes. The third `HasWritten`
call is handed `m = 1000`, the value `vsnprintf` returned, while
`WritableBytes()` is 988; the write position becomes 1036, beyond the 1024
bytes of the buffer, and 1038 after the line end. -/
theorem write_long_message_eval :
    ((Log.raw.new.init LogFs.allOpen LogTime.jan15 1 "./log" ".log" 0).bind
        (fun r => r.1.write LogFs.allOpen LogTime.jan15 0
          (String.mk (List.replicate 1000 'a')))).map (fun w => w.hasWritten)
      = some [(27, 1024), (9, 997), (1000, 988), (2, 18446744073709551604)]
    ∧ (Log.raw.new.init LogFs.allOpen LogTime.jan15 1 "./log" ".log" 0).map
        (fun r => ((r.1.lineBuffer LogTime.jan15 (String.mk (List.replicate 1000 'a'))).writePos_,
                   (r.1.lineBuffer LogTime.jan15 (String.mk (List.replicate 1000 'a'))).capacity))
      = some (1038, 1024) := by
  set_option maxRecDepth 100000 in decide

/-! ### C19: the vectors after `process` -/

/-- The result of `process` when there is data to parse, through the object it
has built before its last `if`. -/
theorem process_of_built (env : ProcessEnv) (c : HttpConn)
    (h : c.readBuff_.ReadableBytes ≠ 0) :
    c.process env
      = (true,
         if (c.built env).response_.FileLen > 0 && (c.built env).response_.File ≠ 0 then
           { c.built env with
             iov1 := { iov_base := (c.built env).response_.File,
                       iov_len := (c.built env).response_.FileLen },
             iovCnt_ := 2 }
         else c.built env) := by
  have h1 : ¬ c.readBuff_.ReadableBytes ≤ 0 := by omega
  unfold HttpConn.process HttpConn.built
  simp only [h1, if_false]
  by_cases hp : (env.parse c.request_.Init c.readBuff_).1 = true
  · simp only [hp, if_true]
  · simp only [hp, Bool.false_eq_true, if_false]

/-- The vectors `process` leaves when there is data to parse: `iov_[0]` is the
readable span of the write buffer; `iov_[1]` is the mapped region when
`FileLen() > 0` and `File()` is not null, and is left as it was otherwise, with
`iovCnt_` 1. -/
theorem process_vectors (env : ProcessEnv) (c : HttpConn)
    (h : c.readBuff_.ReadableBytes ≠ 0) :
    (c.process env).1 = true
    ∧ (c.process env).2.iov0
        = { iov_base := (c.process env).2.writeBuff_.Peek,
            iov_len := (c.process env).2.writeBuff_.ReadableBytes }
    ∧ ((c.process env).2.response_.FileLen > 0 ∧ (c.process env).2.response_.File ≠ 0 →
        (c.process env).2.iov1
          = { iov_base := (c.process env).2.response_.File,
              iov_len := (c.process env).2.response_.FileLen }
        ∧ (c.process env).2.iovCnt_ = 2)
    ∧ (¬ ((c.process env).2.response_.FileLen > 0 ∧ (c.process env).2.response_.File ≠ 0) →
        (c.process env).2.iov1 = c.iov1 ∧ (c.process env).2.iovCnt_ = 1) := by
  have h0 : (c.built env).iov0
      = { iov_base := (c.built env).writeBuff_.Peek,
          iov_len := (c.built env).writeBuff_.ReadableBytes } := rfl
  have h1 : (c.built env).iov1 = c.iov1 := rfl
  have hcnt : (c.built env).iovCnt_ = 1 := rfl
  rw [process_of_built env c h]
  generalize c.built env = c4 at h0 h1 hcnt ⊢
  by_cases hc : c4.response_.FileLen > 0 ∧ c4.response_.File ≠ 0
  · have hb : (decide (c4.response_.FileLen > 0) && decide (c4.response_.File ≠ 0)) = true := by
      simpa using hc
    rw [if_pos hb]
    exact ⟨rfl, h0, fun _ => ⟨rfl, rfl⟩, fun hn => absurd hc hn⟩
  · have hb : (decide (c4.response_.FileLen > 0) && decide (c4.response_.File ≠ 0)) = false := by
      simpa using hc
    rw [if_neg (by rw [hb]; decide)]
    exact ⟨rfl, h0, fun hy => absurd hy hc, fun _ => ⟨h1, hcnt⟩⟩

/-- C19 on the code: a connection object taken into use again after a transfer
cut off with 50000 file bytes unsent, and a request answered with 120 header
bytes and an empty file. `process` returns true with `iov_[0]` the 120 readable
bytes of the write buffer, `FileLen()` 0 and `iovCnt_` 1, but `iov_[1]` still
holds the old 50000 bytes, so `ToWriteBytes()` is 50120 and not 120. -/
theorem process_stale_vector_eval :
    (HttpConn.reused.process ProcessEnv.emptyFile).1 = true
    ∧ (HttpConn.reused.process ProcessEnv.emptyFile).2.iov0
        = { iov_base := 4096, iov_len := 120 }
    ∧ (HttpConn.reused.process ProcessEnv.emptyFile).2.writeBuff_.ReadableBytes = 120
    ∧ (HttpConn.reused.process ProcessEnv.emptyFile).2.response_.FileLen = 0
    ∧ (HttpConn.reused.process ProcessEnv.emptyFile).2.iovCnt_ = 1
    ∧ (HttpConn.reused.process ProcessEnv.emptyFile).2.iov1
        = { iov_base := 2 ^ 40, iov_len := 50000 }
    ∧ (HttpConn.reused.process ProcessEnv.emptyFile).2.ToWriteBytes = 50120
    ∧ (HttpConn.reused.process ProcessEnv.emptyFile).2.ToWriteBytes
        ≠ ((HttpConn.reused.process ProcessEnv.emptyFile).2.writeBuff_.ReadableBytes : Int)
          + (HttpConn.reused.process ProcessEnv.emptyFile).2.response_.FileLen := by
  decide

/-! ### C20: `write` comes to an end -/

/-- A pass of the loop of `write` leaves `iovCnt_` alone. -/
theorem advance_iovCnt (c : HttpConn) (len : Int) : (c.advance len).iovCnt_ = c.iovCnt_ := by
  unfold HttpConn.advance
  dsimp only
  split_ifs <;> rfl

/-- A pass of the loop of `write` that sends `len` bytes, `1 <= len` and `len`
at most the bytes passed to `writev`: the vectors passed next hold `len` bytes
less, and the two lengths stay `size_t` values. -/
theorem advance_total (c : HttpConn) (len : Int)
    (h0 : c.iov0.iov_len < 2 ^ 64) (h1 : c.iov1.iov_len < 2 ^ 64)
    (hpos : 1 ≤ len) (hle : len ≤ (WriteEnv.total c.passed : Int)) (h63 : len < 2 ^ 63) :
    WriteEnv.total (c.advance len).passed + len.toNat = WriteEnv.total c.passed
    ∧ (c.advance len).iov0.iov_len < 2 ^ 64 ∧ (c.advance len).iov1.iov_len < 2 ^ 64 := by
  obtain ⟨n, rfl⟩ : ∃ n : Nat, len = (n : Int) := ⟨len.toNat, by omega⟩
  have hn : toSize (n : Int) = n := by
    rw [toSize_of_range (n : Int) (by omega) (by omega)]; rfl
  simp only [HttpConn.passed, WriteEnv.total, advance_iovCnt, Int.toNat_ofNat] at hle ⊢
  obtain ⟨fd, addr, cl, cnt, ⟨b0, l0⟩, ⟨b1, l1⟩, rb, wb, rq, rs⟩ := c
  simp only at h0 h1 hle ⊢
  generalize cnt.toNat = m at hle ⊢
  unfold HttpConn.advance
  simp only [hn]
  rcases m with _ | _ | m
  · simp at hle; omega
  · simp only [Nat.zero_add, List.take_succ_cons, List.take_zero, List.map_cons, List.map_nil,
      List.sum_cons, List.sum_nil, Nat.add_zero] at hle ⊢
    have hgt : ¬ n > l0 := by omega
    have hd : sizeSub l0 n = l0 - n := sizeSub_of_le _ _ (by omega) (by omega)
    simp only [hgt, if_false, hd]
    omega
  · simp only [List.take_succ_cons, List.take_nil, List.map_cons, List.map_nil,
      List.sum_cons, List.sum_nil, Nat.add_zero] at hle ⊢
    by_cases hgt : n > l0
    · have hd : sizeSub n l0 = n - l0 := sizeSub_of_le _ _ (by omega) (by omega)
      have hd1 : sizeSub l1 (n - l0) = l1 - (n - l0) := sizeSub_of_le _ _ (by omega) (by omega)
      simp only [hgt, if_true, hd, hd1]
      by_cases hz : l0 = 0
      · subst hz
        simp only [ne_eq, not_true_eq_false, if_false]
        omega
      · simp only [ne_eq, hz, not_false_eq_true, if_true]
        omega
    · have hd : sizeSub l0 n = l0 - n := sizeSub_of_le _ _ (by omega) (by omega)
      simp only [hgt, if_false, hd]
      omega

/-- One turn of the loop of `write` under the model of `writev`: either the
loop is left after this call, or the call sent between 1 and all of the bytes
passed and the loop goes on from the advanced vectors. -/
theorem writeLoop_turn (isET : Bool) (env : WriteEnv) (k : Nat) (c : HttpConn)
    (hmodel : ∀ j vs, env.writev j vs ≤ 0
      ∨ (1 ≤ env.writev j vs ∧ env.writev j vs ≤ (WriteEnv.total vs : Int))) :
    (∃ r, r.calls = k + 1 ∧ ∀ f, HttpConn.writeLoop isET env (f + 1) k c = some r)
    ∨ (1 ≤ env.writev k c.passed ∧ env.writev k c.passed ≤ (WriteEnv.total c.passed : Int)
        ∧ ∀ f, HttpConn.writeLoop isET env (f + 1) k c
            = HttpConn.writeLoop isET env f (k + 1) (c.advance (env.writev k c.passed))) := by
  by_cases hlen : env.writev k c.passed ≤ 0
  · left
    exact ⟨{ ret := env.writev k c.passed, savedErrno := some (env.errno k), calls := k + 1,
             conn := c }, rfl, fun f => by simp only [HttpConn.writeLoop, hlen, if_true]⟩
  · by_cases hz : sizeAdd c.iov0.iov_len c.iov1.iov_len = 0
    · left
      exact ⟨{ ret := env.writev k c.passed, savedErrno := none, calls := k + 1, conn := c },
        rfl, fun f => by simp only [HttpConn.writeLoop, hlen, hz, if_true, if_false]⟩
    · by_cases hcont : (isET || decide
          ((c.advance (env.writev k c.passed)).ToWriteBytes > 10240)) = true
      · right
        rcases hmodel k c.passed with h | ⟨h1, h2⟩
        · exact absurd h hlen
        · exact ⟨h1, h2, fun f => by
            simp only [HttpConn.writeLoop, hlen, hz, hcont, if_true, if_false]⟩
      · left
        exact ⟨{ ret := env.writev k c.passed, savedErrno := none, calls := k + 1,
                 conn := c.advance (env.writev k c.passed) }, rfl, fun f => by
            simp only [HttpConn.writeLoop, hlen, hz, hcont, if_false, Bool.false_eq_true]⟩

/-- The loop of `write` under the model of `writev`, with at most `n` bytes in
the vectors passed: it is left after at most `n + 1` further calls, and any
fuel above `n` gives the result. -/
theorem writeLoop_terminates (isET : Bool) (env : WriteEnv)
    (hret : ∀ j vs, env.writev j vs < 2 ^ 63)
    (hmodel : ∀ j vs, env.writev j vs ≤ 0
      ∨ (1 ≤ env.writev j vs ∧ env.writev j vs ≤ (WriteEnv.total vs : Int)))
    (n : Nat) :
    ∀ (c : HttpConn) (k : Nat),
      c.iov0.iov_len < 2 ^ 64 → c.iov1.iov_len < 2 ^ 64 → WriteEnv.total c.passed ≤ n →
      ∃ r, (∀ fuel, n < fuel → HttpConn.writeLoop isET env fuel k c = some r)
        ∧ r.calls ≤ k + n + 1 := by
  induction n with
  | zero =>
    intro c k h0 h1 ht
    rcases writeLoop_turn isET env k c hmodel with ⟨r, hr, hf⟩ | ⟨hp, hle, -⟩
    · refine ⟨r, fun fuel hfuel => ?_, by omega⟩
      obtain ⟨f, rfl⟩ : ∃ f, fuel = f + 1 := ⟨fuel - 1, by omega⟩
      exact hf f
    · omega
  | succ m ih =>
    intro c k h0 h1 ht
    rcases writeLoop_turn isET env k c hmodel with ⟨r, hr, hf⟩ | ⟨hp, hle, hf⟩
    · refine ⟨r, fun fuel hfuel => ?_, by omega⟩
      obtain ⟨f, rfl⟩ : ∃ f, fuel = f + 1 := ⟨fuel - 1, by omega⟩
      exact hf f
    · obtain ⟨hsum, h0a, h1a⟩ := advance_total c (env.writev k c.passed) h0 h1 hp hle
        (hret k c.passed)
      obtain ⟨r, hr, hcalls⟩ := ih (c.advance (env.writev k c.passed)) (k + 1) h0a h1a
        (by omega)
      refine ⟨r, fun fuel hfuel => ?_, by omega⟩
      obtain ⟨f, rfl⟩ : ∃ f, fuel = f + 1 := ⟨fuel - 1, by omega⟩
      rw [hf f]
      exact hr f (by omega)

/-- C20: under a model of `writev` in which every call returns a value `<= 0`
or a count between 1 and the total length of the `iovCnt_` vectors passed (an
`ssize_t`), for every state of the vectors (two `size_t` lengths, any
`iovCnt_`) and both trigger modes, `write` returns after at most
(total bytes in the vectors passed) + 1 `writev` calls: any fuel above that
total gives the result. -/
theorem write_terminates (isET : Bool) (env : WriteEnv) (c : HttpConn)
    (h0 : c.iov0.iov_len < 2 ^ 64) (h1 : c.iov1.iov_len < 2 ^ 64)
    (hret : ∀ j vs, env.writev j vs < 2 ^ 63)
    (hmodel : ∀ j vs, env.writev j vs ≤ 0
      ∨ (1 ≤ env.writev j vs ∧ env.writev j vs ≤ (WriteEnv.total vs : Int))) :
    ∃ r, (∀ fuel, WriteEnv.total c.passed < fuel → c.write isET env fuel = some r)
      ∧ r.calls ≤ WriteEnv.total c.passed + 1 := by
  obtain ⟨r, hr, hcalls⟩ := writeLoop_terminates isET env hret hmodel
    (WriteEnv.total c.passed) c 0 h0 h1 le_rfl
  exact ⟨r, hr, by omega⟩

/-- C20 at a response of 100 header bytes and 60 file bytes on a socket that
takes at most 50 bytes a call: level-triggered mode makes 1 call,
edge-triggered mode 5 calls (50, 50, 50, 10 and 0 bytes); 161 calls are the
bound. -/
theorem write_terminates_witness :
    ((HttpConn.sample 100 60).write false (WriteEnv.sendAtMost 50) 161).map
        (fun r => (r.ret, r.calls)) = some (50, 1)
    ∧ ((HttpConn.sample 100 60).write true (WriteEnv.sendAtMost 50) 161).map
        (fun r => (r.ret, r.calls)) = some (0, 5)
    ∧ ∃ r, (∀ fuel, WriteEnv.total (HttpConn.sample 100 60).passed < fuel →
              (HttpConn.sample 100 60).write true (WriteEnv.sendAtMost 50) fuel = some r)
        ∧ r.calls ≤ WriteEnv.total (HttpConn.sample 100 60).passed + 1 :=
  ⟨by decide, by decide,
   write_terminates true (WriteEnv.sendAtMost 50) (HttpConn.sample 100 60)
     (by decide) (by decide)
     (fun _ vs => by
        show ((min 50 (WriteEnv.total vs) : Nat) : Int) < 2 ^ 63
        omega)
     (fun _ vs => by
        show ((min 50 (WriteEnv.total vs) : Nat) : Int) ≤ 0
          ∨ (1 ≤ ((min 50 (WriteEnv.total vs) : Nat) : Int)
              ∧ ((min 50 (WriteEnv.total vs) : Nat) : Int) ≤ (WriteEnv.total vs : Int))
        omega)⟩

/-! ### C16: the files of one day -/

/-- A text that fits its buffer is stored whole by `snprintf`. -/
theorem snprintf_fits (size : Nat) (s : String) (h : s.length + 1 ≤ size) :
    (snprintf size s).1 = s := by
  unfold snprintf
  have hl : s.data.length ≤ size - 1 := by
    have : s.length = s.data.length := rfl
    omega
  simp only [List.take_of_length_le hl]

/-- The buffer calls of one line on an empty buffer of 1024 bytes, for a time
stamp of `n < 128` bytes and a message of `m` bytes with
`n + 9 + m + 2 <= 1024`: `vsnprintf` is handed `1015 - n` writable bytes, no
call makes space, and `RetrieveAll` leaves the buffer as it was. -/
theorem line_buffer (b : Buffer) (n m : Nat) (hr : b.readPos_ = 0) (hw : b.writePos_ = 0)
    (hc : b.capacity = 1024) (hn : n < 128) (hfit : n + 9 + m + 2 ≤ 1024) :
    ((b.HasWritten n).Append 9).WritableBytes = 1015 - n
    ∧ ((((b.HasWritten n).Append 9).HasWritten m).Append 2).RetrieveAll = b := by
  obtain ⟨d, c, r, w⟩ := b
  simp only at hr hw hc
  subst hr hw hc
  have e1 : sizeAdd 0 n = n := by rw [sizeAdd_of_lt _ _ (by omega)]; omega
  have e2 : sizeSub 1024 n = 1024 - n := sizeSub_of_le _ _ (by omega) (by omega)
  have e3 : sizeAdd n 9 = n + 9 := sizeAdd_of_lt _ _ (by omega)
  have e4 : sizeSub 1024 (n + 9) = 1015 - n := by
    rw [sizeSub_of_le _ _ (by omega) (by omega)]; omega
  have e5 : sizeAdd (n + 9) m = n + 9 + m := sizeAdd_of_lt _ _ (by omega)
  have e6 : sizeSub 1024 (n + 9 + m) = 1024 - (n + 9 + m) :=
    sizeSub_of_le _ _ (by omega) (by omega)
  have c1 : ¬ 1024 - n < 9 := by omega
  have c2 : ¬ 1024 - (n + 9 + m) < 2 := by omega
  simp only [Buffer.HasWritten, Buffer.Append, Buffer.EnsureWriteable, Buffer.WritableBytes,
    Buffer.RetrieveAll, e1, e2, e3, e4, e5, e6, c1, c2, if_false, and_self]

/-- Every level title has 9 bytes. -/
theorem levelTitle_length (level : Int) : (Log.levelTitle level).length = 9 := by
  unfold Log.levelTitle
  split_ifs <;> rfl

/-- The formatted line has the bytes of the time stamp, 9 of the title, those
of the message, and 2 of the line end. -/
theorem formatted_length (t : LogTime) (level : Int) (msg : String) :
    (Log.formatted t level msg).length = (Log.stampText t).length + 9 + msg.length + 2 := by
  unfold Log.formatted
  rw [String.length_append, String.length_append, String.length_append, levelTitle_length]
  rfl

/-- The size of a text as a `size_t`. -/
theorem toSize_length (k : Nat) (s : String) (h : s.length < 2 ^ 64) :
    toSize (snprintf k s).2 = s.length := by
  show toSize (s.length : Int) = s.length
  rw [toSize_of_range _ (by omega) (by omega)]
  omega

/-- The second block of `write` on a logger between two calls with the file
`f` open, for a time stamp of fewer than 128 bytes and a formatted line of at
most 1024 bytes: it returns, adds one to the line count, leaves the open file,
the day, the directory, the suffix and the mode as they are, the queue in
place and the buffer empty again; the calling thread either writes the
formatted line to `f` with one `fputs` or makes no file operation, and in
synchronous mode it writes the line. -/
theorem emit_keeps (l : Log) (t : LogTime) (level : Int) (msg : String) (f : String)
    (hf : l.fp_ = some f) (hidle : l.idle)
    (hstamp : (Log.stampText t).length < 128)
    (hline : (Log.formatted t level msg).length ≤ 1024) :
    ∃ w, l.emit t level msg = some w
      ∧ w.log.lineCount_ = l.lineCount_ + 1 ∧ w.log.fp_ = some f
      ∧ w.log.toDay_ = l.toDay_ ∧ w.log.path_ = l.path_ ∧ w.log.suffix_ = l.suffix_
      ∧ w.log.isAsync_ = l.isAsync_ ∧ w.log.deque_.isSome = l.deque_.isSome
      ∧ w.log.idle
      ∧ (w.ops = [FileOp.fputs f (cstr (Log.formatted t level msg))] ∨ w.ops = [])
      ∧ (l.isAsync_ = false →
          w.ops = [FileOp.fputs f (cstr (Log.formatted t level msg))]) := by
  obtain ⟨he, hr, hw, hc⟩ := hidle
  rw [formatted_length] at hline
  have hn : toSize (snprintf 128 (Log.stampText t)).2 = (Log.stampText t).length :=
    toSize_length _ _ (by omega)
  have hroom : l.msgRoom t = 1015 - (Log.stampText t).length := by
    unfold Log.msgRoom
    rw [hn]
    exact (line_buffer l.buff_ _ msg.length hr hw hc hstamp hline).1
  have hbuf : (l.lineBuffer t msg).RetrieveAll = l.buff_ := by
    unfold Log.lineBuffer
    rw [hn, toSize_length _ msg (by omega)]
    exact (line_buffer l.buff_ _ msg.length hr hw hc hstamp hline).2
  obtain ⟨hline1, hpk, hdk⟩ := lineText_fits l t level msg he hstamp (by rw [hroom]; omega)
  have hidle1 : ∀ b : Buffer, b = l.buff_ →
      b.RetrieveAll.readPos_ = 0 ∧ b.RetrieveAll.writePos_ = 0
        ∧ b.RetrieveAll.capacity = 1024 := by
    intro b hb
    subst hb
    exact ⟨rfl, rfl, hc⟩
  by_cases hpush : l.isAsync_ = true ∧ ∃ q, l.deque_ = some q ∧ q.full = false
  · obtain ⟨ha, q, hq, hfull⟩ := hpush
    rw [emit_push l t level msg q ha hq hfull hpk]
    refine ⟨_, rfl, rfl, hf, rfl, rfl, rfl, rfl, by simp [hq], ?_, Or.inr rfl, ?_⟩
    · refine ⟨rfl, ?_⟩
      show (l.lineBuffer t msg).RetrieveAll.RetrieveAll.readPos_ = 0
        ∧ (l.lineBuffer t msg).RetrieveAll.RetrieveAll.writePos_ = 0
        ∧ (l.lineBuffer t msg).RetrieveAll.RetrieveAll.capacity = 1024
      exact hidle1 _ hbuf
    · intro h
      rw [ha] at h
      cases h
  · have hdir : l.isAsync_ = false ∨ l.deque_ = none
        ∨ ∃ q1, l.deque_ = some q1 ∧ q1.full = true := by
      by_cases ha : l.isAsync_ = true
      · right
        cases hd : l.deque_ with
        | none => exact Or.inl rfl
        | some q =>
          right
          refine ⟨q, rfl, ?_⟩
          cases hfull : q.full
          · exact absurd ⟨ha, q, hd, hfull⟩ hpush
          · rfl
      · left
        simpa using ha
    rw [emit_direct l t level msg f hf hdir hdk, hline1]
    refine ⟨_, rfl, rfl, hf, rfl, rfl, rfl, rfl, rfl, ?_, Or.inl rfl, fun _ => rfl⟩
    refine ⟨rfl, ?_⟩
    show (l.lineBuffer t msg).RetrieveAll.readPos_ = 0
      ∧ (l.lineBuffer t msg).RetrieveAll.writePos_ = 0
      ∧ (l.lineBuffer t msg).RetrieveAll.capacity = 1024
    rw [hbuf]
    exact ⟨hr, hw, hc⟩

/-- The text of a date and the day of the month depend on the calendar date
only. -/
theorem dateText_sameDate (a b : LogTime) (h : a.sameDate b = true) :
    Log.dateText a = Log.dateText b ∧ a.tm_mday = b.tm_mday := by
  simp only [LogTime.sameDate, Bool.and_eq_true, decide_eq_true_eq] at h
  obtain ⟨⟨hy, hm⟩, hd⟩ := h
  exact ⟨by simp only [Log.dateText, hy, hm, hd], hd⟩

/-- One `Log::write` call in the middle of a day, after `i` lines of that day,
with every `fopen` succeeding, the names short enough for their buffers, a time
stamp of fewer than 128 bytes and a formatted line of at most 1024 bytes: the
call returns; the change of file it makes is the one due before line `i`; the
calling thread then either writes the formatted line to the file number
`i / 50000` with one `fputs`, or makes no further file operation, and in
synchronous mode it writes the line; and the logger is in the middle of the day
after `i + 1` lines. -/
theorem write_on_day (l : Log) (fs : LogFs) (t0 : LogTime) (c : LogCall)
    (path suffix : String) (i : Nat)
    (hinv : l.onDay path suffix t0 i) (hfs : ∀ n, fs.fopen n = true)
    (hsame : c.time.sameDate t0 = true)
    (hdate : (Log.dateText t0).length ≤ 35)
    (hstamp : (Log.stampText c.time).length < 128)
    (hline : (Log.formatted c.time c.level c.msg).length ≤ 1024)
    (hfit : i ≠ 0 → i % 50000 = 0 →
      (Log.dayFileNo path suffix t0 ((i / 50000 : Nat) : Int)).length ≤ 183) :
    ∃ w, l.write fs c.time c.level c.msg = some w
      ∧ w.log.onDay path suffix t0 (i + 1)
      ∧ w.log.isAsync_ = l.isAsync_
      ∧ (w.ops = Log.rotationAt path suffix t0 i
            ++ [FileOp.fputs (Log.fileNo path suffix t0 (i / 50000))
                  (cstr (Log.formatted c.time c.level c.msg))]
          ∨ w.ops = Log.rotationAt path suffix t0 i)
      ∧ (l.isAsync_ = false →
          w.ops = Log.rotationAt path suffix t0 i
            ++ [FileOp.fputs (Log.fileNo path suffix t0 (i / 50000))
                  (cstr (Log.formatted c.time c.level c.msg))]) := by
  obtain ⟨hcount, hfp, hday, hpath, hsuf, hq, hidle⟩ := hinv
  obtain ⟨hdt, hmd⟩ := dateText_sameDate c.time t0 hsame
  have hrot := rotate_open l fs c.time _ hq hfp hfs
  have hdayc : l.toDay_ = c.time.tm_mday := by rw [hday, hmd]
  by_cases hr : i ≠ 0 ∧ i % 50000 = 0
  · have hk : i / 50000 ≠ 0 := by omega
    have hn : l.needsNewFile c.time = true := by
      have h1 : ((i : Int) ≠ 0) := by omega
      have h2 : Int.tmod (i : Int) 50000 = 0 := by
        rw [Int.tmod_eq_emod (by omega) (by omega)]
        omega
      simp [Log.needsNewFile, Log.MAX_LINES, hcount, h1, h2]
    have hname : l.newFileName c.time = Log.fileNo path suffix t0 (i / 50000) := by
      have hdiv : Int.tdiv (i : Int) 50000 = ((i / 50000 : Nat) : Int) := by
        rw [Int.tdiv_eq_ediv (by omega) (by omega)]
        omega
      unfold Log.newFileName
      rw [if_neg (not_not.mpr hdayc), hdt, snprintf_fits 36 (Log.dateText t0) (by omega),
        hpath, hsuf, hcount]
      unfold Log.MAX_LINES
      rw [hdiv]
      show (snprintf 184 (Log.dayFileNo path suffix t0 ((i / 50000 : Nat) : Int))).1 = _
      rw [snprintf_fits 184 _ (by have := hfit hr.1 hr.2; omega)]
      unfold Log.fileNo
      rw [if_neg hk]
    rw [hn, if_pos rfl, if_neg (not_not.mpr hdayc), hname] at hrot
    obtain ⟨w, hw, hc, hf, hd, hp, hs, ha, hqq, hid, hops, hsync⟩ :=
      emit_keeps { l with fp_ := some (Log.fileNo path suffix t0 (i / 50000)) }
        c.time c.level c.msg _ rfl hidle hstamp hline
    have hro : Log.rotationAt path suffix t0 i
        = [FileOp.fflush (Log.fileNo path suffix t0 ((i - 1) / 50000)),
           FileOp.fclose (Log.fileNo path suffix t0 ((i - 1) / 50000)),
           FileOp.fopen (Log.fileNo path suffix t0 (i / 50000))] := by
      unfold Log.rotationAt
      rw [if_pos hr]
    refine ⟨{ w with ops := Log.rotationAt path suffix t0 i ++ w.ops }, ?_, ?_, ha, ?_, ?_⟩
    · simp only [Log.write, hrot, hw, hro]
    · refine ⟨?_, ?_, ?_, ?_, ?_, ?_, hid⟩
      · show w.log.lineCount_ = ((i + 1 : Nat) : Int)
        rw [hc]
        show l.lineCount_ + 1 = _
        rw [hcount]
        omega
      · show w.log.fp_ = _
        rw [hf]
        simp only [Nat.add_sub_cancel]
      · show w.log.toDay_ = _
        rw [hd]
        exact hday
      · show w.log.path_ = _
        rw [hp]
        exact hpath
      · show w.log.suffix_ = _
        rw [hs]
        exact hsuf
      · show w.log.isAsync_ = true → w.log.deque_.isSome = true
        rw [ha, hqq]
        exact hq
    · show Log.rotationAt path suffix t0 i ++ w.ops = _ ∨ Log.rotationAt path suffix t0 i ++ w.ops = _
      rcases hops with h | h
      · left; rw [h]
      · right; rw [h, List.append_nil]
    · intro hs0
      show Log.rotationAt path suffix t0 i ++ w.ops = _
      rw [hsync hs0]
  · have hn : l.needsNewFile c.time = false := by
      have h2 : Int.tmod (i : Int) 50000 = ((i % 50000 : Nat) : Int) := by
        rw [Int.tmod_eq_emod (by omega) (by omega)]
        omega
      simp only [Log.needsNewFile, Log.MAX_LINES, hcount, h2, hdayc, ne_eq, not_true_eq_false,
        decide_False, Bool.false_or, Bool.and_eq_false_imp, decide_eq_true_eq,
        decide_eq_false_iff_not]
      intro h1
      omega
    have hsamefile : (i - 1) / 50000 = i / 50000 := by omega
    rw [hn, if_neg (by simp)] at hrot
    obtain ⟨w, hw, hc, hf, hd, hp, hs, ha, hqq, hid, hops, hsync⟩ :=
      emit_keeps l c.time c.level c.msg _ hfp hidle hstamp hline
    rw [hsamefile] at hf hops hsync
    have hro : Log.rotationAt path suffix t0 i = [] := by
      unfold Log.rotationAt
      rw [if_neg hr]
    refine ⟨{ w with ops := Log.rotationAt path suffix t0 i ++ w.ops }, ?_, ?_, ha, ?_, ?_⟩
    · simp only [Log.write, hrot, hw, hro]
    · refine ⟨?_, ?_, ?_, ?_, ?_, ?_, hid⟩
      · show w.log.lineCount_ = ((i + 1 : Nat) : Int)
        rw [hc, hcount]
        omega
      · show w.log.fp_ = _
        rw [hf]
        simp only [Nat.add_sub_cancel]
      · show w.log.toDay_ = _
        rw [hd]
        exact hday
      · show w.log.path_ = _
        rw [hp]
        exact hpath
      · show w.log.suffix_ = _
        rw [hs]
        exact hsuf
      · show w.log.isAsync_ = true → w.log.deque_.isSome = true
        rw [ha, hqq]
        exact hq
    · show Log.rotationAt path suffix t0 i ++ w.ops = _ ∨ Log.rotationAt path suffix t0 i ++ w.ops = _
      rcases hops with h | h
      · left; rw [h]
      · right; rw [h, List.append_nil]
    · intro hs0
      show Log.rotationAt path suffix t0 i ++ w.ops = _
      rw [hsync hs0]

/-- A sequence of `Log::write` calls in the middle of a day, starting after
`i` lines of that day: every call returns, and call number `j` of the sequence
behaves as line number `i + j` of the day. -/
theorem writes_on_day (fs : LogFs) (t0 : LogTime) (path suffix : String)
    (hfs : ∀ n, fs.fopen n = true) (hdate : (Log.dateText t0).length ≤ 35)
    (calls : List LogCall) :
    ∀ (l : Log) (i : Nat), l.onDay path suffix t0 i →
      (∀ c, c ∈ calls → c.time.sameDate t0 = true
        ∧ (Log.stampText c.time).length < 128
        ∧ (Log.formatted c.time c.level c.msg).length ≤ 1024) →
      (∀ k : Nat, 1 ≤ k → k * 50000 < i + calls.length →
        (Log.dayFileNo path suffix t0 (k : Int)).length ≤ 183) →
      ∃ lf ws, l.writes fs calls = some (lf, ws) ∧ ws.length = calls.length
        ∧ lf.onDay path suffix t0 (i + calls.length)
        ∧ ∀ j c w, calls[j]? = some c → ws[j]? = some w →
            (w.ops = Log.rotationAt path suffix t0 (i + j)
                ++ [FileOp.fputs (Log.fileNo path suffix t0 ((i + j) / 50000))
                      (cstr (Log.formatted c.time c.level c.msg))]
              ∨ w.ops = Log.rotationAt path suffix t0 (i + j))
            ∧ (l.isAsync_ = false →
                w.ops = Log.rotationAt path suffix t0 (i + j)
                  ++ [FileOp.fputs (Log.fileNo path suffix t0 ((i + j) / 50000))
                        (cstr (Log.formatted c.time c.level c.msg))]) := by
  induction calls with
  | nil =>
    intro l i hinv _ _
    refine ⟨l, [], rfl, rfl, hinv, ?_⟩
    intro j c w h
    simp at h
  | cons c cs ih =>
    intro l i hinv hcalls hfit
    obtain ⟨hsame, hstamp, hline⟩ := hcalls c (List.mem_cons_self c cs)
    obtain ⟨w, hw, hinv1, ha, hops, hsync⟩ :=
      write_on_day l fs t0 c path suffix i hinv hfs hsame hdate hstamp hline
        (fun h1 h2 => hfit (i / 50000) (by omega) (by
          simp only [List.length_cons]
          omega))
    obtain ⟨lf, ws, hws, hlenws, hend, hall⟩ :=
      ih w.log (i + 1) hinv1 (fun c1 hc1 => hcalls c1 (List.mem_cons_of_mem c hc1))
        (fun k h1 h2 => hfit k h1 (by
          simp only [List.length_cons]
          omega))
    refine ⟨lf, w :: ws, ?_, ?_, ?_, ?_⟩
    · simp only [Log.writes, hw, hws]
    · simp only [List.length_cons, hlenws]
    · have hidx : i + (c :: cs).length = i + 1 + cs.length := by
        simp only [List.length_cons]
        omega
      rw [hidx]
      exact hend
    · intro j c1 w1 hc1 hj
      cases j with
      | zero =>
        simp only [List.getElem?_cons_zero, Option.some.injEq] at hj hc1
        rw [← hj, ← hc1]
        exact ⟨hops, hsync⟩
      | succ j =>
        simp only [List.getElem?_cons_succ] at hj hc1
        obtain ⟨h1, h2⟩ := hall j c1 w1 hc1 hj
        have hidx : i + 1 + j = i + (j + 1) := by omega
        rw [hidx] at h1 h2
        rw [ha] at h2
        exact ⟨h1, h2⟩

/-- `Log::init` on a constructed logger, with every `fopen` succeeding and a
name of at most 254 characters: it opens `<dir>/YYYY_MM_DD<suffix>` and nothing
else, and leaves the logger at the start of the day, synchronous when
`maxQueueSize` is not positive. -/
theorem init_on_day (l : Log) (fs : LogFs) (t0 : LogTime) (level : Int)
    (path suffix : String) (maxQueueSize : Int)
    (hfs : ∀ n, fs.fopen n = true)
    (hfit0 : (Log.dayFile path suffix t0).length ≤ 254) :
    ∃ l1, l.new.init fs t0 level path suffix maxQueueSize
        = some (l1, [FileOp.fopen (Log.dayFile path suffix t0)])
      ∧ l1.onDay path suffix t0 0 ∧ (maxQueueSize ≤ 0 → l1.isAsync_ = false) := by
  have hname : (snprintf (Log.LOG_NAME_LEN - 1) (path ++ "/" ++ Log.dateText t0 ++ suffix)).1
      = Log.dayFile path suffix t0 :=
    snprintf_fits _ _ (by
      show (Log.dayFile path suffix t0).length + 1 ≤ 255
      omega)
  by_cases hpos : maxQueueSize > 0
  · simp only [Log.init, Log.new, hpos, if_true, Option.isNone_none, Log.flush, hname, hfs,
      List.nil_append]
    exact ⟨_, rfl, ⟨rfl, rfl, rfl, rfl, rfl, fun _ => rfl, rfl, rfl, rfl, rfl⟩,
      fun h => absurd hpos (by omega)⟩
  · simp only [Log.init, Log.new, hpos, if_false, Log.flush, hname, hfs, if_true,
      List.nil_append]
    exact ⟨_, rfl, ⟨rfl, rfl, rfl, rfl, rfl, (fun h => by cases h), rfl, rfl, rfl, rfl⟩,
      fun _ => rfl⟩

/-- C16, as stated, fails in three ways. (1) In asynchronous mode the lines of
a file are written by the writer thread, which may be behind: 50000 lines have
been logged on 2024-01-15 and the last of them is still in the queue; the next
`write` call closes the first file and opens `./log/2024_01_15-1.log`, and the
writer thread then writes line 50000 into that new file, so the first file does
not get 50000 lines. (2) The names are cut to the size given to `snprintf`:
`init` with a directory name of 250 characters opens a file whose name is the
first 254 characters of `<dir>/2024_01_15.log`. (3) A message of 1000 bytes is
cut by `vsnprintf` and its NUL stays in front of the newline: the call writes
1023 bytes without a newline, so the file does not get a line of its own for
the call. -/
theorem write_rotation_counterexample :
    (Log.lagging.write LogFs.allOpen LogTime.jan15 1 "line 50001").map (fun w => w.ops)
      = some [FileOp.fflush "./log/2024_01_15.log", FileOp.fclose "./log/2024_01_15.log",
              FileOp.fopen "./log/2024_01_15-1.log"]
    ∧ ((Log.lagging.write LogFs.allOpen LogTime.jan15 1 "line 50001").bind
        (fun w => w.log.AsyncWrite_ 10)).map (fun r => r.ops)
      = some [FileOp.fputs "./log/2024_01_15-1.log"
                "2024-01-15 10:20:29.000000 [info] : line 50000\n",
              FileOp.fputs "./log/2024_01_15-1.log"
                "2024-01-15 10:20:30.000123 [info] : line 50001\n"]
    ∧ (Log.raw.new.init LogFs.allOpen LogTime.jan15 1
          (String.mk (List.replicate 250 'd')) ".log" 0).map (fun r => r.2)
      = some [FileOp.fopen (String.mk (List.replicate 250 'd') ++ "/202")]
    ∧ String.mk (List.replicate 250 'd') ++ "/202"
      ≠ Log.dayFile (String.mk (List.replicate 250 'd')) ".log" LogTime.jan15
    ∧ ((Log.raw.new.init LogFs.allOpen LogTime.jan15 1 "./log" ".log" 0).bind
        (fun r => r.1.write LogFs.allOpen LogTime.jan15 1
          (String.mk (List.replicate 1000 'a')))).map (fun w => w.ops)
      = some [FileOp.fputs "./log/2024_01_15.log"
                ("2024-01-15 10:20:30.000123 [info] : "
                  ++ String.mk (List.replicate 987 'a'))] := by
  set_option maxRecDepth 100000 in decide

/-- C16, amended: `Log::init` on a constructed logger, every `fopen`
succeeding, followed by fewer than 2^31 `Log::write` calls made one after the
other on the date of the `init` call, with names and lines that fit their
buffers (the first name at most 254 characters, the later ones at most 183,
the date text at most 35, every time stamp fewer than 128 bytes, every
formatted line with its newline and NUL at most 1024 bytes). `init` opens
`<dir>/YYYY_MM_DD<suffix>` and nothing else; every call returns; call number
`i` (from 0) changes the file if and only if `i` is a positive multiple of
50000, and then it flushes and closes the file number `i / 50000 - 1` and opens
`<dir>/YYYY_MM_DD-k<suffix>` with `k = i / 50000`; after that the calling
thread either writes the formatted line of the call to the file number
`i / 50000` with one `fputs` or makes no file operation, and in synchronous
mode (`maxQueueSize <= 0`) it writes the line, so that every file gets the
50000 lines between two changes of file; the line count ends as the number of
calls, within the range of `int`. -/
theorem write_rotation (l : Log) (fs : LogFs) (t0 : LogTime) (level : Int)
    (path suffix : String) (maxQueueSize : Int) (calls : List LogCall)
    (hfs : ∀ n, fs.fopen n = true)
    (hcalls : calls.length < 2 ^ 31)
    (hday : ∀ c, c ∈ calls → c.time.sameDate t0 = true
      ∧ (Log.stampText c.time).length < 128
      ∧ (Log.formatted c.time c.level c.msg).length ≤ 1024)
    (hdate : (Log.dateText t0).length ≤ 35)
    (hfit0 : (Log.dayFile path suffix t0).length ≤ 254)
    (hfit : ∀ k : Nat, 1 ≤ k → k * 50000 < calls.length →
      (Log.dayFileNo path suffix t0 (k : Int)).length ≤ 183) :
    ∃ l1 lf ws,
      l.new.init fs t0 level path suffix maxQueueSize
        = some (l1, [FileOp.fopen (Log.dayFile path suffix t0)])
      ∧ l1.writes fs calls = some (lf, ws) ∧ ws.length = calls.length
      ∧ lf.lineCount_ = (calls.length : Int) ∧ lf.lineCount_ < 2 ^ 31
      ∧ ∀ i c w, calls[i]? = some c → ws[i]? = some w →
          (w.ops = Log.rotationAt path suffix t0 i
              ++ [FileOp.fputs (Log.fileNo path suffix t0 (i / 50000))
                    (cstr (Log.formatted c.time c.level c.msg))]
            ∨ w.ops = Log.rotationAt path suffix t0 i)
          ∧ (maxQueueSize ≤ 0 →
              w.ops = Log.rotationAt path suffix t0 i
                ++ [FileOp.fputs (Log.fileNo path suffix t0 (i / 50000))
                      (cstr (Log.formatted c.time c.level c.msg))]) := by
  obtain ⟨l1, hinit, hinv, hsync⟩ := init_on_day l fs t0 level path suffix maxQueueSize hfs hfit0
  obtain ⟨lf, ws, hws, hlen, hend, hall⟩ :=
    writes_on_day fs t0 path suffix hfs hdate calls l1 0 hinv hday
      (fun k h1 h2 => hfit k h1 (by omega))
  have hcount : lf.lineCount_ = (calls.length : Int) := by
    rw [hend.1, Nat.zero_add]
  refine ⟨l1, lf, ws, hinit, hws, hlen, hcount, by rw [hcount]; omega, ?_⟩
  intro i c w hc hi
  obtain ⟨h1, h2⟩ := hall i c w hc hi
  rw [Nat.zero_add] at h1 h2
  exact ⟨h1, fun h => h2 (hsync h)⟩

/-- C16, amended, at `init(1, "./log", ".log", 0)` on 2024-01-15 followed by
50001 `write` calls of the message "a" that day: `init` opens
`./log/2024_01_15.log`; the call number 49999 changes no file and writes its
line there, the 50000th line of that file; the call number 50000 flushes and
closes that file, opens `./log/2024_01_15-1.log` and writes its line there; the
line count ends at 50001. -/
theorem write_rotation_witness :
    ∃ l1 lf ws,
      Log.raw.new.init LogFs.allOpen LogTime.jan15 1 "./log" ".log" 0
        = some (l1, [FileOp.fopen "./log/2024_01_15.log"])
      ∧ l1.writes LogFs.allOpen
          (List.replicate 50001 { time := LogTime.jan15, level := 1, msg := "a" })
        = some (lf, ws)
      ∧ ws.length = 50001 ∧ lf.lineCount_ = 50001
      ∧ (∃ w, ws[49999]? = some w
          ∧ w.ops = [FileOp.fputs "./log/2024_01_15.log"
                       "2024-01-15 10:20:30.000123 [info] : a\n"])
      ∧ (∃ w, ws[50000]? = some w
          ∧ w.ops = [FileOp.fflush "./log/2024_01_15.log",
                     FileOp.fclose "./log/2024_01_15.log",
                     FileOp.fopen "./log/2024_01_15-1.log",
                     FileOp.fputs "./log/2024_01_15-1.log"
                       "2024-01-15 10:20:30.000123 [info] : a\n"]) := by
  obtain ⟨l1, lf, ws, hinit, hws, hlen, hcount, _, hall⟩ :=
    write_rotation Log.raw LogFs.allOpen LogTime.jan15 1 "./log" ".log" 0
      (List.replicate 50001 { time := LogTime.jan15, level := 1, msg := "a" })
      (fun _ => rfl)
      (by rw [List.length_replicate]; decide)
      (fun c hc => by rw [List.eq_of_mem_replicate hc]; decide)
      (by decide) (by decide)
      (fun k h1 h2 => by
        rw [List.length_replicate] at h2
        have hk : k = 1 := by omega
        subst hk
        decide)
  rw [List.length_replicate] at hlen hcount
  have hget : ∀ i, i < 50001 →
      (List.replicate 50001 ({ time := LogTime.jan15, level := 1, msg := "a" } : LogCall))[i]?
        = some { time := LogTime.jan15, level := 1, msg := "a" } := by
    intro i hi
    rw [List.getElem?_replicate, if_pos hi]
  have hsome : ∀ i, i < 50001 → ∃ w, ws[i]? = some w := by
    intro i hi
    cases h : ws[i]? with
    | none =>
      rw [List.getElem?_eq_none_iff] at h
      omega
    | some w => exact ⟨w, rfl⟩
  refine ⟨l1, lf, ws, hinit, hws, hlen, hcount, ?_, ?_⟩
  · obtain ⟨w, hw⟩ := hsome 49999 (by decide)
    refine ⟨w, hw, ?_⟩
    rw [(hall 49999 _ w (hget 49999 (by decide)) hw).2 (le_refl 0)]
    decide
  · obtain ⟨w, hw⟩ := hsome 50000 (by decide)
    refine ⟨w, hw, ?_⟩
    rw [(hall 50000 _ w (hget 50000 (by decide)) hw).2 (le_refl 0)]
    decide

end TinyWebServer
